import Mathlib

/-!
# Memory-management library of the simulated OS (`libmem.c`)

A shallow embedding of the region allocator and of the paging / replacement
engine of `src/libmem.c`, of the ready queue of `src/queue.c` and of
`__sys_killall` of `src/sys_killall.c`, followed by theorems about the embedded
functions.

Conventions of the embedding

* C `int` is `Int`; signed overflow is undefined behaviour in C and is not
  modelled.
* A structure reached through a pointer is passed and returned by value; the
  whole process state `pcb_t` is threaded through every function and is
  returned on the failing paths as well, so that "unchanged on failure" is a
  statement about the returned state.
* A function that returns `0`/`-1` and writes a result through a pointer
  returns a `Status`: `success v` is "returned 0 and stored `v`", `failure`
  is "returned -1, result cell untouched".
* An array access outside the array is undefined behaviour; the functions that
  can perform one return an `Option`, `none` standing for that fault.
* Pointer arguments that are passed by value here (`caller`, `newrg`,
  `alloc_addr`, `fpn`, `data`) are non-null, so their `NULL` guards have no
  counterpart; `caller->mm` may be `NULL` and is an `Option`.
* `mm` and `caller->mm` denote the same object at every call site; the paging
  functions therefore read and write the memory object through `caller`.
* Functions, macros and constants that `libmem.c` uses but that are defined
  outside the source tree are modelled from the specification; each such
  definition says so in its comment.
* `BYTE` is declared in a header outside the source tree. A `BYTE` object is
  represented by its bit pattern `0..255`, so `(BYTE)x` is `x % 256` whatever
  the signedness of the type. Whether `BYTE` is a signed character type is the
  parameter `BYTE_SIGNED`; it decides what `(uint32_t)b` is in `libread`. The
  argument `value` of the writing functions is the integer that
  `regs.a3 = value` stores.
* `malloc` is assumed to succeed.
* The mutex `mmvm_lock` is not modelled: the embedding is sequential.
-/

set_option linter.unusedVariables false

namespace LibMem

/-! ## Constants of the missing headers -/

/-- Constants that `libmem.c` takes from headers outside the source tree. -/
structure Config where
  /-- Page granularity `PAGING_PAGESZ`. -/
  PAGING_PAGESZ : Int
  /-- Capacity of the symbol table. -/
  PAGING_MAX_SYMTBL_SZ : Nat
  /-- Number of page-table entries. -/
  PAGING_MAX_PGN : Nat
  /-- Shift that turns a frame number into a physical base address. -/
  PAGING_ADDR_FPN_LOBIT : Nat
  /-- Whether the type `BYTE` is a signed character type. -/
  BYTE_SIGNED : Bool
  deriving DecidableEq, Repr

/-- Modelled from the spec: `PAGING_PAGE_ALIGNSZ` "aligns `size` up to the page
granularity"; the macro itself is in a header that is not part of the source. -/
def PAGING_PAGE_ALIGNSZ (cfg : Config) (sz : Int) : Int :=
  ((sz + cfg.PAGING_PAGESZ - 1) / cfg.PAGING_PAGESZ) * cfg.PAGING_PAGESZ

/-- Modelled from the spec: "split `addr` into `(pageNumber, offset)`": the page
number part (`PAGING_PGN`, a macro of the missing header). -/
def PAGING_PGN (cfg : Config) (addr : Int) : Int :=
  addr / cfg.PAGING_PAGESZ

/-- Modelled from the spec: "split `addr` into `(pageNumber, offset)`": the
offset part (`PAGING_OFFST`, a macro of the missing header). -/
def PAGING_OFFST (cfg : Config) (addr : Int) : Int :=
  addr % cfg.PAGING_PAGESZ

/-! ## Data model -/

/-- A semi-open byte range `[rg_start, rg_end)`; `rg_next` is the list spine. -/
structure vm_rg_struct where
  rg_start : Int
  rg_end : Int
  deriving DecidableEq, Repr

/-- The value `__free` writes into an invalidated slot: `rg_start = rg_end = -1`. -/
def sentinel : vm_rg_struct := { rg_start := -1, rg_end := -1 }

/-- One virtual memory area: its id, break pointer and free list (the fields
`libmem.c` uses; `vm_next` is the spine of `mm.mmap`). -/
structure vm_area_struct where
  vm_id : Int
  sbrk : Int
  vm_freerg_list : List vm_rg_struct
  deriving DecidableEq, Repr

/-- Modelled from the spec: a page-table entry is "tagged as Present(frame-number)
or Swapped(swap-slot-number), plus a dirty bit"; the bit layout of the 32-bit
word is in a header that is not part of the source. -/
structure pte_t where
  present : Bool
  dirty : Bool
  fpn : Int
  swpoff : Int
  deriving DecidableEq, Repr

/-- Memory object of a process: the VMA chain `mmap`, the symbol table
`symrgtbl`, the page table `pgd` and the chain of resident pages `fifo_pgn`. -/
structure mm_struct where
  mmap : List vm_area_struct
  symrgtbl : List vm_rg_struct
  pgd : List pte_t
  fifo_pgn : List Int
  deriving DecidableEq, Repr

/-- Modelled from the spec: a frame pool ("physical-frame pool", "swap pool"):
the storage bytes and the list of free frame numbers. -/
structure memphy_struct where
  storage : List Int
  free_fp_list : List Int
  deriving DecidableEq, Repr

/-- Request codes passed in `regs.a1` to system call 17. Their numeric values
are in a missing header; only their being distinct matters. -/
inductive sysmem_op where
  | SYSMEM_MAP_OP
  | SYSMEM_INC_OP
  | SYSMEM_SWP_OP
  | SYSMEM_IO_READ
  | SYSMEM_IO_WRITE
  deriving DecidableEq, Repr

/-- Register block of a system call (the registers `libmem.c` sets or reads). -/
structure sc_regs where
  a1 : sysmem_op
  a2 : Int
  a3 : Int
  deriving DecidableEq, Repr

/-- Process control block: memory object (possibly `NULL`), the two frame
pools, and a ghost log of the requests sent to the dispatcher, each with the
status it returned. -/
structure pcb_t where
  mm : Option mm_struct
  mram : memphy_struct
  active_mswp : memphy_struct
  trace : List (sc_regs × Int)
  deriving DecidableEq, Repr

/-- Outcome of a C function that returns `0` or `-1` and, on `0`, has written
a result through a pointer argument. -/
inductive Status (α : Type) where
  | success (out : α)
  | failure
  deriving DecidableEq, Repr

/-- Integer status code of an outcome. -/
def Status.code {α : Type} : Status α → Int
  | .success _ => 0
  | .failure => -1

/-- The external system-call dispatcher `syscall(caller, nr, &regs)`: it
returns a status, may change the process and the register block. -/
abbrev Dispatcher := pcb_t → Int → sc_regs → Int × pcb_t × sc_regs

/-- A call `syscall(caller, nr, &regs)`, recorded in the ghost log. -/
def syscall (sys : Dispatcher) (caller : pcb_t) (nr : Int) (regs : sc_regs) :
    Int × pcb_t × sc_regs :=
  let r := sys caller nr regs
  (r.1, { r.2.1 with trace := caller.trace ++ [(regs, r.1)] }, r.2.2)

/-! ## Region allocator -/

/-- Walk along the chain `mm->mmap` (`pvma = pvma->vm_next`) to the first VMA
whose id is `vmaid`; its position and the VMA. -/
def find_vma (vmaid : Int) : List vm_area_struct → Option (Nat × vm_area_struct)
  | [] => none
  | pvma :: vm_next =>
    if pvma.vm_id = vmaid then some (0, pvma)
    else
      match find_vma vmaid vm_next with
      | none => none
      | some (i, v) => some (i + 1, v)

/-- Modelled from the spec: `get_vma_by_num` (defined outside the source tree)
finds the VMA with the given id in the chain `mm->mmap`, and yields `NULL` when
the memory object or the VMA is missing. The result is the position in the
chain together with the VMA found there. -/
def get_vma_by_num (mm : Option mm_struct) (vmaid : Int) : Option (Nat × vm_area_struct) :=
  match mm with
  | none => none
  | some m => find_vma vmaid m.mmap

/-- Store through a VMA pointer: replaces the VMA at position `i` of the chain. -/
def set_vma (mm : mm_struct) (i : Nat) (vma : vm_area_struct) : mm_struct :=
  { mm with mmap := mm.mmap.set i vma }

/-- Function `enlist_vm_freerg_list`: push `rg_elmt` on the free list of the first VMA
of the chain (`mm->mmap`). The memory object and the region are passed by
value, so the guards `!mm` and `!rg_elmt` are false; `!mm->mmap` is the empty
chain. -/
def enlist_vm_freerg_list (mm : mm_struct) (rg_elmt : vm_rg_struct) : Int × mm_struct :=
  match mm.mmap with
  | [] => (-1, mm)
  | vma :: vm_next =>
    if rg_elmt.rg_start ≥ rg_elmt.rg_end then (-1, mm)
    else
      (0, { mm with
        mmap := { vma with vm_freerg_list := rg_elmt :: vma.vm_freerg_list } :: vm_next })

/-- Function `get_symrg_byid`: the address of slot `rgid`, as an index into `symrgtbl`;
`NULL` when the memory object is missing or the guard rejects `rgid`. -/
def get_symrg_byid (cfg : Config) (mm : Option mm_struct) (rgid : Int) : Option Nat :=
  match mm with
  | none => none
  | some _ =>
    if rgid < 0 ∨ rgid > (cfg.PAGING_MAX_SYMTBL_SZ : Int) then none
    else some rgid.toNat

/-- The `while (curr)` loop of `get_free_vmrg_area` over the free list: the
carved region and the adjusted list, or `none` when the loop runs off the end. -/
def first_fit (aligned : Int) : List vm_rg_struct → Option (vm_rg_struct × List vm_rg_struct)
  | [] => none
  | curr :: next =>
    let chunk := curr.rg_end - curr.rg_start
    if chunk ≥ aligned then
      let newrg : vm_rg_struct :=
        { rg_start := curr.rg_start, rg_end := curr.rg_start + aligned }
      if chunk = aligned then some (newrg, next)
      else some (newrg, { curr with rg_start := curr.rg_start + aligned } :: next)
    else
      match first_fit aligned next with
      | none => none
      | some (newrg, next') => some (newrg, curr :: next')

/-- Function `get_free_vmrg_area`: first-fit search of the free list of VMA `vmaid`. -/
def get_free_vmrg_area (cfg : Config) (caller : pcb_t) (vmaid : Int) (size : Int) :
    Status vm_rg_struct × pcb_t :=
  match caller.mm with
  | none => (.failure, caller)
  | some m =>
    if size ≤ 0 then (.failure, caller)
    else
      match get_vma_by_num (some m) vmaid with
      | none => (.failure, caller)
      | some (i, vma) =>
        match first_fit (PAGING_PAGE_ALIGNSZ cfg size) vma.vm_freerg_list with
        | none => (.failure, caller)
        | some (newrg, fl) =>
          (.success newrg,
            { caller with mm := some (set_vma m i { vma with vm_freerg_list := fl }) })

/-- The assignment `caller->mm->symrgtbl[rgid] = rgnode`. `__alloc` performs it
without any check of `rgid`; an index outside the table is a fault. -/
def symrgtbl_store (caller : pcb_t) (rgid : Int) (rgnode : vm_rg_struct) : Option pcb_t :=
  match caller.mm with
  | none => none
  | some m =>
    if 0 ≤ rgid ∧ rgid.toNat < m.symrgtbl.length then
      some { caller with mm := some { m with symrgtbl := m.symrgtbl.set rgid.toNat rgnode } }
    else none

/-- The statement `if (vma->sbrk == rgnode.rg_start) vma->sbrk += inc;` at the
end of `__alloc`, `vma` being the pointer obtained before the system call. -/
def sbrk_commit (caller : pcb_t) (i : Nat) (rg_start inc : Int) : Option pcb_t :=
  match caller.mm with
  | none => none
  | some m =>
    match m.mmap[i]? with
    | none => none
    | some vma =>
      if vma.sbrk = rg_start then
        some { caller with mm := some (set_vma m i { vma with sbrk := vma.sbrk + inc }) }
      else some caller

/-- Function `__alloc`: allocate a region of `size` bytes in VMA `vmaid` under id `rgid`;
on success the result is the value stored in `*alloc_addr`. -/
def __alloc (sys : Dispatcher) (cfg : Config) (caller : pcb_t) (vmaid rgid size : Int) :
    Option (Status Int × pcb_t) :=
  match caller.mm with
  | none => some (.failure, caller)
  | some _ =>
    if size ≤ 0 then some (.failure, caller)
    else
      match get_free_vmrg_area cfg caller vmaid size with
      | (.success rgnode, c1) =>
        match symrgtbl_store c1 rgid rgnode with
        | none => none
        | some c2 => some (.success rgnode.rg_start, c2)
      | (.failure, c1) =>
        match get_vma_by_num c1.mm vmaid with
        | none => some (.failure, c1)
        | some (i, _) =>
          let inc := PAGING_PAGE_ALIGNSZ cfg size
          let r := syscall sys c1 17 { a1 := .SYSMEM_INC_OP, a2 := vmaid, a3 := inc }
          if r.1 < 0 then some (.failure, r.2.1)
          else
            match get_free_vmrg_area cfg r.2.1 vmaid size with
            | (.failure, c3) => some (.failure, c3)
            | (.success rgnode, c3) =>
              match symrgtbl_store c3 rgid rgnode with
              | none => none
              | some c4 =>
                match sbrk_commit c4 i rgnode.rg_start inc with
                | none => none
                | some c5 => some (.success rgnode.rg_start, c5)

/-- Function `__free`: return the region of slot `rgid` to the free list and invalidate
the slot. The result is the returned status code. -/
def __free (cfg : Config) (caller : pcb_t) (vmaid rgid : Int) : Option (Int × pcb_t) :=
  match caller.mm with
  | none => some (-1, caller)
  | some m =>
    match get_symrg_byid cfg (some m) rgid with
    | none => some (-1, caller)
    | some k =>
      match m.symrgtbl[k]? with
      | none => none
      | some sym =>
        if sym.rg_start < 0 ∨ sym.rg_end ≤ sym.rg_start then some (-1, caller)
        else
          let r := enlist_vm_freerg_list m sym
          if r.1 < 0 then some (-1, caller)
          else
            some (0, { caller with
              mm := some { r.2 with symrgtbl := r.2.symrgtbl.set k sentinel } })

/-! ## Paging -/

/-- Modelled from the spec: the Present test of a page-table entry
(`PAGING_PAGE_PRESENT`, a macro of the missing header). -/
def PAGING_PAGE_PRESENT (pte : pte_t) : Bool := pte.present

/-- Modelled from the spec: the frame number of an entry ("the victim's current
frame"; `PAGING_FPN`, a macro of the missing header). -/
def PAGING_FPN (pte : pte_t) : Int := pte.fpn

/-- Modelled from the spec: the frame number of a Present entry, as read by
`free_pcb_memph` (`PAGING_PTE_FPN`, a macro of the missing header). -/
def PAGING_PTE_FPN (pte : pte_t) : Int := pte.fpn

/-- Modelled from the spec: the "recorded swap slot" of an entry
(`PAGING_PTE_SWP`, a macro of the missing header). -/
def PAGING_PTE_SWP (pte : pte_t) : Int := pte.swpoff

/-- Modelled from the spec: "set the victim's PTE to Swapped(newSlot)"
(`pte_set_swap`, defined outside the source tree). -/
def pte_set_swap (pte : pte_t) (_swptyp : Int) (swpoff : Int) : pte_t :=
  { pte with present := false, swpoff := swpoff }

/-- Modelled from the spec: record the frame of an entry (`pte_set_fpn`,
defined outside the source tree); the Present bit is set by the caller. -/
def pte_set_fpn (pte : pte_t) (fpn : Int) : pte_t :=
  { pte with fpn := fpn }

/-- Modelled from the spec: set the Present bit (`PAGING_PTE_SET_PRESENT` and
`SETBIT(pte, PAGING_PTE_PRESENT_MASK)`, macros of the missing header). -/
def PAGING_PTE_SET_PRESENT (pte : pte_t) : pte_t :=
  { pte with present := true }

/-- Modelled from the spec: set the Dirty bit
(`SETBIT(pte, PAGING_PTE_DIRTY_MASK)`, a macro of the missing header). -/
def PAGING_PTE_SET_DIRTY (pte : pte_t) : pte_t :=
  { pte with dirty := true }

/-- Modelled from the spec: "append the target page number to the FIFO tail"
(`enlist_pgn_node`, defined outside the source tree). -/
def enlist_pgn_node (plist : List Int) (pgn : Int) : List Int :=
  plist ++ [pgn]

/-- Modelled from the spec: "allocate a fresh swap slot from the swap pool;
fails ... if none available" (`MEMPHY_get_freefp`, defined outside the source
tree): the head of the free-frame list is taken. -/
def MEMPHY_get_freefp (mp : memphy_struct) : Status Int × memphy_struct :=
  match mp.free_fp_list with
  | [] => (.failure, mp)
  | fp :: rest => (.success fp, { mp with free_fp_list := rest })

/-- Read of `mm->pgd[pgn]`; an index outside the page table is a fault. -/
def pgd_read (caller : pcb_t) (pgn : Int) : Option pte_t :=
  match caller.mm with
  | none => none
  | some m => if 0 ≤ pgn then m.pgd[pgn.toNat]? else none

/-- Update in place of `mm->pgd[pgn]`; an index outside the page table is a fault. -/
def pgd_update (caller : pcb_t) (pgn : Int) (f : pte_t → pte_t) : Option pcb_t :=
  match caller.mm with
  | none => none
  | some m =>
    if 0 ≤ pgn then
      match m.pgd[pgn.toNat]? with
      | none => none
      | some pte => some { caller with mm := some { m with pgd := m.pgd.set pgn.toNat (f pte) } }
    else none

/-- Function `find_victim_page`: unlink the head of `mm->fifo_pgn` and return its page number. -/
def find_victim_page (mm : Option mm_struct) : Status Int × Option mm_struct :=
  match mm with
  | none => (.failure, mm)
  | some m =>
    match m.fifo_pgn with
    | [] => (.failure, mm)
    | head :: pg_next => (.success head, some { m with fifo_pgn := pg_next })

/-- Function `pg_getpage(mm, pgn, &fpn, caller)`; every call site passes `caller->mm` as
`mm`, so the embedding reads the memory object from `caller`. -/
def pg_getpage (sys : Dispatcher) (cfg : Config) (caller : pcb_t) (pgn : Int) :
    Option (Status Int × pcb_t) :=
  match caller.mm with
  | none => some (.failure, caller)
  | some m =>
    if pgn < 0 ∨ pgn ≥ (cfg.PAGING_MAX_PGN : Int) then some (.failure, caller)
    else
      match m.pgd[pgn.toNat]? with
      | none => none
      | some pte =>
        if PAGING_PAGE_PRESENT pte then some (.success (PAGING_FPN pte), caller)
        else
          match find_victim_page (some m) with
          | (.failure, mm1) => some (.failure, { caller with mm := mm1 })
          | (.success vicpgn, mm1) =>
            let c1 : pcb_t := { caller with mm := mm1 }
            match pgd_read c1 vicpgn with
            | none => none
            | some vicpte =>
              let vicfpn := PAGING_FPN vicpte
              match MEMPHY_get_freefp c1.active_mswp with
              | (.failure, sw) => some (.failure, { c1 with active_mswp := sw })
              | (.success swpp, sw) =>
                let c2 : pcb_t := { c1 with active_mswp := sw }
                let r1 := syscall sys c2 17 { a1 := .SYSMEM_SWP_OP, a2 := vicfpn, a3 := swpp }
                if r1.1 < 0 then some (.failure, r1.2.1)
                else
                  match pgd_update r1.2.1 vicpgn (fun p => pte_set_swap p 0 swpp) with
                  | none => none
                  | some c3 =>
                    let tgtfpn := PAGING_PTE_SWP pte
                    let r2 := syscall sys c3 17
                      { a1 := .SYSMEM_SWP_OP, a2 := tgtfpn, a3 := vicfpn }
                    if r2.1 < 0 then some (.failure, r2.2.1)
                    else
                      match pgd_update r2.2.1 pgn
                          (fun p => PAGING_PTE_SET_PRESENT (pte_set_fpn p vicfpn)) with
                      | none => none
                      | some c4 =>
                        match c4.mm with
                        | none => none
                        | some m4 =>
                          some (.success vicfpn, { c4 with
                            mm := some { m4 with fifo_pgn := enlist_pgn_node m4.fifo_pgn pgn } })

/-- Function `pg_getval(mm, addr, &data, caller)`: read the byte at virtual address `addr`. -/
def pg_getval (sys : Dispatcher) (cfg : Config) (caller : pcb_t) (addr : Int) :
    Option (Status Int × pcb_t) :=
  match caller.mm with
  | none => some (.failure, caller)
  | some _ =>
    let pgn := PAGING_PGN cfg addr
    let off := PAGING_OFFST cfg addr
    match pg_getpage sys cfg caller pgn with
    | none => none
    | some (.failure, c1) => some (.failure, c1)
    | some (.success fpn, c1) =>
      let phy := fpn * 2 ^ cfg.PAGING_ADDR_FPN_LOBIT + off
      let r := syscall sys c1 17 { a1 := .SYSMEM_IO_READ, a2 := phy, a3 := 0 }
      some (.success (r.2.2.a3 % 256), r.2.1)

/-- Function `pg_setval(mm, addr, value, caller)`: write a byte at virtual address `addr`. -/
def pg_setval (sys : Dispatcher) (cfg : Config) (caller : pcb_t) (addr : Int) (value : Int) :
    Option (Int × pcb_t) :=
  match caller.mm with
  | none => some (-1, caller)
  | some _ =>
    let pgn := PAGING_PGN cfg addr
    let off := PAGING_OFFST cfg addr
    match pg_getpage sys cfg caller pgn with
    | none => none
    | some (.failure, c1) => some (-1, c1)
    | some (.success fpn, c1) =>
      let phy := fpn * 2 ^ cfg.PAGING_ADDR_FPN_LOBIT + off
      let r := syscall sys c1 17 { a1 := .SYSMEM_IO_WRITE, a2 := phy, a3 := value }
      match pgd_update r.2.1 pgn (fun p => PAGING_PTE_SET_DIRTY (PAGING_PTE_SET_PRESENT p)) with
      | none => none
      | some c2 => some (0, c2)

/-- Function `__read`: read the byte at `offset` of region `rgid`. -/
def __read (sys : Dispatcher) (cfg : Config) (caller : pcb_t) (vmaid rgid offset : Int) :
    Option (Status Int × pcb_t) :=
  match get_symrg_byid cfg caller.mm rgid, get_vma_by_num caller.mm vmaid with
  | some k, some _ =>
    match caller.mm with
    | none => none
    | some m =>
      match m.symrgtbl[k]? with
      | none => none
      | some rg => pg_getval sys cfg caller (rg.rg_start + offset)
  | _, _ => some (.failure, caller)

/-- The conversion `(uint32_t)b` of a `BYTE` with bit pattern `b`: the pattern
itself when `BYTE` is unsigned or bit 7 is clear; the sign extension
`b - 256 + 2^32` when `BYTE` is signed and bit 7 is set, so that the pattern
255 becomes 4294967295. -/
def widen_BYTE (cfg : Config) (b : Int) : Int :=
  if cfg.BYTE_SIGNED = true ∧ b ≥ 128 then b + 4294967040 else b

/-- Function `libread`: `__read` in VMA 0; when it returns 0 the byte is stored in
`*dest` as `(uint32_t)b`, otherwise `*dest` is not written. -/
def libread (sys : Dispatcher) (cfg : Config) (proc : pcb_t) (source offset : Int) :
    Option (Status Int × pcb_t) :=
  match __read sys cfg proc 0 source offset with
  | none => none
  | some (.success b, c1) => some (.success (widen_BYTE cfg b), c1)
  | some (.failure, c1) => some (.failure, c1)

/-- Function `__write`: write the byte `val` at `offset` of region `rgid`. -/
def __write (sys : Dispatcher) (cfg : Config) (caller : pcb_t) (vmaid rgid offset val : Int) :
    Option (Int × pcb_t) :=
  match get_symrg_byid cfg caller.mm rgid, get_vma_by_num caller.mm vmaid with
  | some k, some _ =>
    match caller.mm with
    | none => none
    | some m =>
      match m.symrgtbl[k]? with
      | none => none
      | some rg => pg_setval sys cfg caller (rg.rg_start + offset) val
  | _, _ => some (-1, caller)

/-- Function `libwrite`: `__write` in VMA 0. -/
def libwrite (sys : Dispatcher) (cfg : Config) (proc : pcb_t) (data destination offset : Int) :
    Option (Int × pcb_t) :=
  __write sys cfg proc 0 destination offset data

/-! ## Teardown -/

/-- Modelled from the spec: a frame is "returned" to a pool (`MEMPHY_put_freefp`,
defined outside the source tree): its number is put on the free-frame list of
the pool. -/
def MEMPHY_put_freefp (mp : memphy_struct) (fpn : Int) : memphy_struct :=
  { mp with free_fp_list := fpn :: mp.free_fp_list }

/-- The `for (i = 0; i < PAGING_MAX_PGN; i++)` loop of `free_pcb_memph`, with `n`
iterations left from index `i`; `pgd` is the page table of the process, which
the loop does not change. Reading past the page table is a fault. -/
def free_pcb_memph_loop (pgd : List pte_t) : Nat → Nat → pcb_t → Option pcb_t
  | 0, _, caller => some caller
  | n + 1, i, caller =>
    match pgd[i]? with
    | none => none
    | some pte =>
      let fpn := if PAGING_PAGE_PRESENT pte then PAGING_PTE_FPN pte else PAGING_PTE_SWP pte
      let c1 : pcb_t :=
        if PAGING_PAGE_PRESENT pte then
          { caller with active_mswp := MEMPHY_put_freefp caller.active_mswp fpn }
        else { caller with mram := MEMPHY_put_freefp caller.mram fpn }
      free_pcb_memph_loop pgd n (i + 1) c1

/-- Function `free_pcb_memph`: release the frames and swap slots of a process; the
process pointer may be `NULL`. -/
def free_pcb_memph (cfg : Config) (caller : Option pcb_t) : Option (Int × Option pcb_t) :=
  match caller with
  | none => some (-1, none)
  | some c =>
    match c.mm with
    | none => some (-1, some c)
    | some m =>
      match free_pcb_memph_loop m.pgd cfg.PAGING_MAX_PGN 0 c with
      | none => none
      | some c1 => some (0, some c1)

/-! ## Ready queue (`queue.c`) -/

/-- A queue of processes: the array `proc` of `MAX_QUEUE_SIZE` pointers to
process control blocks (`none` is `NULL`, a pointer is the index of the process
in a process table) and the number `size` of occupied entries. -/
structure queue_t where
  proc : List (Option Nat)
  size : Nat
  deriving DecidableEq, Repr

/-- Function `empty`: 1 when the queue pointer is `NULL` or the queue has no entry. -/
def empty (q : Option queue_t) : Int :=
  match q with
  | none => 1
  | some qq => if qq.size = 0 then 1 else 0

/-- Function `enqueue`: put `proc` behind the last entry when there is room (the
constant `MAX_QUEUE_SIZE` is a parameter); nothing happens when `q` or `proc` is
`NULL` or the queue is full. A store outside the array is a fault. -/
def enqueue (MAX_QUEUE_SIZE : Nat) (q : Option queue_t) (proc : Option Nat) :
    Option (Option queue_t) :=
  match q, proc with
  | none, _ => some q
  | some _, none => some q
  | some qq, some p =>
    if qq.size < MAX_QUEUE_SIZE then
      if qq.size < qq.proc.length then
        some (some { proc := qq.proc.set qq.size (some p), size := qq.size + 1 })
      else none
    else some q

/-- The loop `for (i = 1; i < q->size; i++) q->proc[i - 1] = q->proc[i];` of
`dequeue`, with `n` iterations left from index `i`. A read outside the array is
a fault. -/
def dequeue_shift : Nat → Nat → List (Option Nat) → Option (List (Option Nat))
  | 0, _, arr => some arr
  | n + 1, i, arr =>
    match arr[i]? with
    | none => none
    | some x => dequeue_shift n (i + 1) (arr.set (i - 1) x)

/-- Function `dequeue`: the returned pointer and the queue afterwards. With
`q == NULL` the function executes `return;` without a value: no result. -/
def dequeue (q : Option queue_t) : Option (Option Nat × Option queue_t) :=
  match q with
  | none => none
  | some qq =>
    if qq.size = 0 then some (none, q)
    else
      match qq.proc[0]? with
      | none => none
      | some pcb =>
        match dequeue_shift (qq.size - 1) 1 qq.proc with
        | none => none
        | some arr =>
          if qq.size - 1 < arr.length then
            some (pcb, some { proc := arr.set (qq.size - 1) none, size := qq.size - 1 })
          else none

/-- The occupied entries of a queue, front first. -/
def queue_items (q : queue_t) : List (Option Nat) := q.proc.take q.size

/-- Enqueue the processes of a list one after the other. -/
def enqueue_all (MAX_QUEUE_SIZE : Nat) : Option queue_t → List Nat → Option (Option queue_t)
  | q, [] => some q
  | q, p :: ps =>
    match enqueue MAX_QUEUE_SIZE q (some p) with
    | none => none
    | some q1 => enqueue_all MAX_QUEUE_SIZE q1 ps

/-- Call `dequeue` `n` times; the returned pointers in order and the final queue. -/
def dequeue_n : Nat → Option queue_t → Option (List (Option Nat) × Option queue_t)
  | 0, q => some ([], q)
  | n + 1, q =>
    match dequeue q with
    | none => none
    | some (p, q1) =>
      match dequeue_n n q1 with
      | none => none
      | some (ps, q2) => some (p :: ps, q2)

/-! ## Termination of processes by name (`sys_killall.c`) -/

/-- Outcome of the loop that reads the process name: normal exit with the
buffer and the process state, a fault (an access outside `proc_name` or a fault
inside `libread`), or no exit within the given number of iterations. -/
inductive name_result where
  | exited (proc_name : List Int) (caller : pcb_t)
  | fault
  | out_of_fuel
  deriving DecidableEq, Repr

/-- The loop `while (data != -1) { libread(caller, memrg, i, &data); proc_name[i] = data;
if (data == -1) proc_name[i] = 0; i++; }` of `__sys_killall`. `data` is a
`uint32_t`, so `-1` in the two comparisons is `4294967295`; `proc_name` is the
array of 100 characters; `libread` leaves `data` as it is when it fails. The
first argument bounds the number of iterations. -/
def name_loop (sys : Dispatcher) (cfg : Config) (memrg : Int) :
    Nat → Nat → Int → List Int → pcb_t → name_result
  | 0, _, data, proc_name, caller =>
    if data = 4294967295 then .exited proc_name caller else .out_of_fuel
  | fuel + 1, i, data, proc_name, caller =>
    if data = 4294967295 then .exited proc_name caller
    else
      match libread sys cfg caller memrg i with
      | none => .fault
      | some (st, c1) =>
        let data1 : Int :=
          match st with
          | .success b => b
          | .failure => data
        if i < proc_name.length then
          let name1 := proc_name.set i (data1 % 256)
          let name2 := if data1 = 4294967295 then name1.set i 0 else name1
          name_loop sys cfg memrg fuel (i + 1) data1 name2 c1
        else .fault

/-- A process as `__sys_killall` sees it: its `path`, its program counter `pc`
and the size `code->size` of its code. -/
structure proc_t where
  path : List Char
  pc : Int
  code_size : Int
  deriving DecidableEq, Repr

/-- The expression `strrchr(path, '/') + 1`: the characters after the last `/`
of `path`; `none` when `strrchr` returns `NULL` (no `/` in `path`). -/
def strrchr_slash : List Char → Option (List Char)
  | [] => none
  | ch :: rest =>
    match strrchr_slash rest with
    | some s => some s
    | none => if ch = '/' then some rest else none

/-- The test `proc_get_name && strcmp(proc_get_name + 1, proc_name) == 0`. -/
def name_matches (proc_name : List Char) (p : proc_t) : Bool :=
  decide (strrchr_slash p.path = some proc_name)

/-- The inner shifting loop `for (j = start; j < size - 1; j++) proc[j] = proc[j + 1];`
with `n` iterations left from index `j`. An access outside the array is a
fault. -/
def shift_from : Nat → Nat → List (Option Nat) → Option (List (Option Nat))
  | 0, _, arr => some arr
  | n + 1, j, arr =>
    match arr[j + 1]? with
    | none => none
    | some x => if j < arr.length then shift_from n (j + 1) (arr.set j x) else none

/-- The state `__sys_killall` works on: the process table (a pointer to a
process is its index), the running list, the array `mlq` of ready queues and
the number `index` of entries written to `kill_process`. -/
structure kill_state where
  procs : List proc_t
  run_list : queue_t
  mlq : List queue_t
  index : Nat
  deriving DecidableEq, Repr

/-- One scanning loop of `__sys_killall` over a queue, from position `i`:
`for (i = 0; i < q->size; i++) { if (match) { kill_process[index++] = q->proc[i];
q->proc[i]->pc = q->proc[i]->code->size; shift; q->size--; i--; } }`.
`start i` is the index at which the shifting loop starts: `i` itself in the
loop over the running list (`j = i`), `0` in the loop over a ready queue
(`k = 0`). A match leaves the position unchanged (`i--` followed by `i++`).
`kill_process` has `MAX_PRIO` entries; a store beyond it, a `NULL` or dangling
process pointer and an access outside `proc` are faults. The first argument
bounds the number of iterations. -/
def kill_scan ( MAX_PRIO : Nat) (proc_name : List Char) (start : Nat → Nat) :
    Nat → Nat → queue_t → List proc_t → Nat → Option (queue_t × List proc_t × Nat)
  | 0, i, q, procs, index => if i < q.size then none else some (q, procs, index)
  | fuel + 1, i, q, procs, index =>
    if i < q.size then
      match q.proc[i]? with
      | some (some ptr) =>
        match procs[ptr]? with
        | none => none
        | some p =>
          if name_matches proc_name p then
            if index < MAX_PRIO then
              match shift_from (q.size - 1 - start i) (start i) q.proc with
              | none => none
              | some arr =>
                kill_scan MAX_PRIO proc_name start fuel i
                  { proc := arr, size := q.size - 1 }
                  (procs.set ptr { p with pc := p.code_size }) (index + 1)
            else none
          else kill_scan MAX_PRIO proc_name start fuel (i + 1) q procs index
      | _ => none
    else some (q, procs, index)

/-- The loop `for (i = 0; i < MAX_PRIO; i++)` over the ready queues `mlq[i]`,
with `n` queues left from index `i`. -/
def kill_mlq ( MAX_PRIO : Nat) (proc_name : List Char) : Nat → Nat → kill_state → Option kill_state
  | 0, _, st => some st
  | n + 1, i, st =>
    match st.mlq[i]? with
    | none => none
    | some q =>
      match kill_scan MAX_PRIO proc_name (fun _ => 0) q.size 0 q st.procs st.index with
      | none => none
      | some (q1, procs1, index1) =>
        kill_mlq MAX_PRIO proc_name n (i + 1)
          { st with procs := procs1, mlq := st.mlq.set i q1, index := index1 }

/-- The part of `__sys_killall` after the name was read: the scan of the running
list followed by the scan of the `MAX_PRIO` ready queues, for the name
`proc_name`. -/
def killall_queues ( MAX_PRIO : Nat) (proc_name : List Char) (st : kill_state) :
    Option kill_state :=
  match kill_scan MAX_PRIO proc_name (fun i => i) st.run_list.size 0 st.run_list
      st.procs 0 with
  | none => none
  | some (q1, procs1, index1) =>
    kill_mlq MAX_PRIO proc_name MAX_PRIO 0
      { st with procs := procs1, run_list := q1, index := index1 }

/-! ## The dispatcher, as the specification describes it -/

/-- Modelled from the spec: a granted `GrowHeap(vmaId, incrementBytes)` request
("heap growth modelled as adding the granted range to the free list"): the
range `[sbrk, sbrk + inc)` of the VMA is pushed on its free list. The handler
of the request is outside the source tree. -/
def grant (caller : pcb_t) (vmaid inc : Int) : pcb_t :=
  match caller.mm with
  | none => caller
  | some m =>
    match get_vma_by_num (some m) vmaid with
    | none => caller
    | some (i, vma) =>
      { caller with
        mm := some (set_vma m i { vma with
          vm_freerg_list :=
            { rg_start := vma.sbrk, rg_end := vma.sbrk + inc } :: vma.vm_freerg_list }) }

/-- Modelled from the spec: the contract `GrowHeap(vmaId, incrementBytes) -> ok | error`
of a dispatcher: a rejected growth request leaves the process unchanged, an
accepted one grants exactly the requested range. -/
def GrowsHeap (sys : Dispatcher) : Prop :=
  ∀ (caller : pcb_t) (nr : Int) (regs : sc_regs), regs.a1 = sysmem_op.SYSMEM_INC_OP →
    ((sys caller nr regs).1 < 0 ∧ (sys caller nr regs).2.1 = caller) ∨
    (0 ≤ (sys caller nr regs).1 ∧ (sys caller nr regs).2.1 = grant caller regs.a2 regs.a3)

/-- Modelled from the spec: physical memory as a map from physical address to
byte, held in the storage of a pool: the byte at `addr`, 0 where nothing was
written (`ReadPhysical`; the handler is outside the source tree). -/
def mem_read (storage : List Int) (addr : Int) : Int :=
  storage.getD addr.toNat 0

/-- Modelled from the spec: physical memory as a map from physical address to
byte: the storage after the byte at `addr` was set to `v` (`WritePhysical`; the
handler is outside the source tree). -/
def mem_write (storage : List Int) (addr : Int) (v : Int) : List Int :=
  (storage ++ List.replicate (addr.toNat + 1 - storage.length) 0).set addr.toNat v

/-- Modelled from the spec: physical reads and writes never touch the memory
object (page table, FIFO chain, symbol table, VMAs) of the process. -/
def IoKeepsMm (sys : Dispatcher) : Prop :=
  ∀ (caller : pcb_t) (nr : Int) (regs : sc_regs),
    (regs.a1 = sysmem_op.SYSMEM_IO_READ ∨ regs.a1 = sysmem_op.SYSMEM_IO_WRITE) →
    (sys caller nr regs).2.1.mm = caller.mm

/-- Modelled from the spec: the dispatcher performs the requested physical reads
and writes: a read of address `phy`, in any state whose physical memory is the
one a write of `v` at `phy` produced, returns `v` in `regs.a3`. -/
def ReadsBackWrites (sys : Dispatcher) : Prop :=
  ∀ (c c2 : pcb_t) (nr phy v a3 : Int),
    c2.mram = (sys c nr { a1 := sysmem_op.SYSMEM_IO_WRITE, a2 := phy, a3 := v }).2.1.mram →
    (sys c2 nr { a1 := sysmem_op.SYSMEM_IO_READ, a2 := phy, a3 := a3 }).2.2.a3 = v

/-- Modelled from the spec: a dispatcher serving the four downward requests of
the specification (`GrowHeap`, `SwapExchange`, `ReadPhysical`, `WritePhysical`);
`accept` decides which requests are served, a refused request returns -1 and
changes nothing. Frame contents are not moved by a swap request here: no
statement below depends on them. -/
def ref_dispatcher (accept : sc_regs → Bool) : Dispatcher :=
  fun caller _nr regs =>
    if accept regs then
      match regs.a1 with
      | .SYSMEM_INC_OP => (0, grant caller regs.a2 regs.a3, regs)
      | .SYSMEM_IO_READ =>
        (0, caller, { regs with a3 := mem_read caller.mram.storage regs.a2 })
      | .SYSMEM_IO_WRITE =>
        (0, { caller with
              mram := { caller.mram with
                storage := mem_write caller.mram.storage regs.a2 regs.a3 } }, regs)
      | _ => (0, caller, regs)
    else (-1, caller, regs)

/-- The dispatcher that serves every request. -/
def sys_all : Dispatcher := ref_dispatcher (fun _ => true)

/-- The register block `__alloc` sends to ask for heap growth: `a1 = SYSMEM_INC_OP`,
`a2 = vmaid`, `a3 = PAGING_PAGE_ALIGNSZ(size)`. -/
def grow_request (cfg : Config) (vmaid size : Int) : sc_regs :=
  { a1 := .SYSMEM_INC_OP, a2 := vmaid, a3 := PAGING_PAGE_ALIGNSZ cfg size }

/-- What `__alloc` does after the growth system call returned a non-negative
status in state `c2`: one retry of the search, then the store into slot `rgid`
and the update of the break of the VMA at position `i`. -/
def alloc_retry (cfg : Config) (c2 : pcb_t) (vmaid rgid size : Int) (i : Nat) :
    Option (Status Int × pcb_t) :=
  match get_free_vmrg_area cfg c2 vmaid size with
  | (.failure, c3) => some (.failure, c3)
  | (.success rgnode, c3) =>
    match symrgtbl_store c3 rgid rgnode with
    | none => none
    | some c4 =>
      match sbrk_commit c4 i rgnode.rg_start (PAGING_PAGE_ALIGNSZ cfg size) with
      | none => none
      | some c5 => some (.success rgnode.rg_start, c5)

/-- Modelled from the spec: the contract `SwapExchange(srcFrame, dstSlot) -> ok | error`
of a dispatcher: a swap request copies bytes between frames and never touches
the memory object (page table, FIFO chain, symbol table, VMAs) of the process. -/
def SwapKeepsMm (sys : Dispatcher) : Prop :=
  ∀ (caller : pcb_t) (nr : Int) (regs : sc_regs), regs.a1 = sysmem_op.SYSMEM_SWP_OP →
    (sys caller nr regs).2.1.mm = caller.mm

/-- The swap request `pg_getpage` sends: `a1 = SYSMEM_SWP_OP`, `a2 = src`, `a3 = dst`. -/
def swap_request (src dst : Int) : sc_regs :=
  { a1 := .SYSMEM_SWP_OP, a2 := src, a3 := dst }

/-- The page-table entry of page `pgn`. -/
def pte_at (caller : pcb_t) (pgn : Nat) : Option pte_t :=
  match caller.mm with
  | none => none
  | some m => m.pgd[pgn]?

/-- The chain of resident pages, oldest first. -/
def fifo_of (caller : pcb_t) : List Int :=
  match caller.mm with
  | none => []
  | some m => m.fifo_pgn

/-- Number of page-table entries that are Present. -/
def present_count (caller : pcb_t) : Nat :=
  match caller.mm with
  | none => 0
  | some m => (m.pgd.filter (fun p => PAGING_PAGE_PRESENT p)).length

/-! ## Measures used in the statements -/

/-- Length of a region, `rg_end - rg_start`. -/
def rg_len (rg : vm_rg_struct) : Int := rg.rg_end - rg.rg_start

/-- State after a successful `__free` of the slot `k` holding `sym`, the first
VMA being `vma`: `sym` is pushed on the head of that free list and the slot
holds the sentinel. -/
def freed_state (caller : pcb_t) (m : mm_struct) (vma : vm_area_struct)
    (vm_next : List vm_area_struct) (k : Nat) (sym : vm_rg_struct) : pcb_t :=
  { caller with
    mm := some { m with
      mmap := { vma with vm_freerg_list := sym :: vma.vm_freerg_list } :: vm_next,
      symrgtbl := m.symrgtbl.set k sentinel } }

/-- Sum of the lengths of the regions of a free list. -/
def list_bytes (l : List vm_rg_struct) : Int := (l.map rg_len).sum

/-- Sum of the lengths of the free-list regions of all VMAs of the process. -/
def free_bytes (caller : pcb_t) : Int :=
  match caller.mm with
  | none => 0
  | some m => (m.mmap.map (fun v => list_bytes v.vm_freerg_list)).sum

/-- Length of a symbol-table slot when it is active, 0 when it holds the sentinel. -/
def active_len (rg : vm_rg_struct) : Int := if rg = sentinel then 0 else rg_len rg

/-- Sum of the lengths of the active (non-sentinel) symbol-table regions. -/
def active_bytes (caller : pcb_t) : Int :=
  match caller.mm with
  | none => 0
  | some m => (m.symrgtbl.map active_len).sum

/-- Bytes granted by the heap-growth requests of a log: the increments of the
`SYSMEM_INC_OP` requests that the dispatcher accepted. -/
def granted_bytes (trace : List (sc_regs × Int)) : Int :=
  (trace.map (fun e =>
    if e.1.a1 = sysmem_op.SYSMEM_INC_OP ∧ 0 ≤ e.2 then e.1.a3 else 0)).sum

/-- One call of the allocator interface. -/
inductive mem_op where
  | alloc (vmaid rgid size : Int)
  | free (vmaid rgid : Int)
  deriving DecidableEq, Repr

/-- State after one call (its status is dropped); `none` when the call faults. -/
def run_op (sys : Dispatcher) (cfg : Config) (caller : pcb_t) : mem_op → Option pcb_t
  | .alloc vmaid rgid size => (__alloc sys cfg caller vmaid rgid size).map Prod.snd
  | .free vmaid rgid => (__free cfg caller vmaid rgid).map Prod.snd

/-- State after a sequence of calls. -/
def run_ops (sys : Dispatcher) (cfg : Config) : pcb_t → List mem_op → Option pcb_t
  | caller, [] => some caller
  | caller, op :: ops =>
    match run_op sys cfg caller op with
    | none => none
    | some c => run_ops sys cfg c ops

/-- The slot `rgid` holds the sentinel (or does not exist). -/
def slot_vacant (caller : pcb_t) (rgid : Int) : Bool :=
  match caller.mm with
  | none => true
  | some m =>
    match m.symrgtbl[rgid.toNat]? with
    | none => true
    | some rg => decide (rg = sentinel)

/-- Every `alloc` of the sequence targets a slot that holds the sentinel at the
time of the call. -/
def fresh_ids (sys : Dispatcher) (cfg : Config) : pcb_t → List mem_op → Bool
  | _, [] => true
  | caller, op :: ops =>
    (match op with
      | .alloc _ rgid _ => slot_vacant caller rgid
      | .free _ _ => true) &&
    (match run_op sys cfg caller op with
      | none => true
      | some c => fresh_ids sys cfg c ops)

/-- Initial state of the allocator: every free list empty, every slot of the
symbol table holding the sentinel, no request sent yet. -/
def alloc_init (caller : pcb_t) : Prop :=
  caller.trace = [] ∧
  ∀ m, caller.mm = some m →
    (∀ v ∈ m.mmap, v.vm_freerg_list = []) ∧ (∀ rg ∈ m.symrgtbl, rg = sentinel)

/-- The break `vma->sbrk` of the VMA at position `i` of the chain. -/
def vma_sbrk (caller : pcb_t) (i : Nat) : Option Int :=
  match caller.mm with
  | none => none
  | some m => (m.mmap[i]?).map (fun v => v.sbrk)

/-- The region held by slot `rgid` of the symbol table. -/
def symrg (caller : pcb_t) (rgid : Int) : Option vm_rg_struct :=
  match caller.mm with
  | none => none
  | some m => if 0 ≤ rgid then m.symrgtbl[rgid.toNat]? else none

/-- The free list of the VMA at position `i` of the chain. -/
def vma_freerg (caller : pcb_t) (i : Nat) : Option (List vm_rg_struct) :=
  match caller.mm with
  | none => none
  | some m => (m.mmap[i]?).map (fun v => v.vm_freerg_list)

/-- One access to paged memory: a frame lookup (`pg_getpage`), a byte read
(`pg_getval`) or a byte write (`pg_setval`). -/
inductive pg_access where
  | fetch (pgn : Int)
  | read (addr : Int)
  | write (addr value : Int)
  deriving DecidableEq, Repr

/-- The page number an access resolves. -/
def pg_access.page (cfg : Config) : pg_access → Int
  | .fetch pgn => pgn
  | .read addr => PAGING_PGN cfg addr
  | .write addr _ => PAGING_PGN cfg addr

/-- State after an access that returned 0; `none` when it returned an error or
faulted. -/
def run_access (sys : Dispatcher) (cfg : Config) (caller : pcb_t) : pg_access → Option pcb_t
  | .fetch pgn =>
    match pg_getpage sys cfg caller pgn with
    | some (.success _, c1) => some c1
    | _ => none
  | .read addr =>
    match pg_getval sys cfg caller addr with
    | some (.success _, c1) => some c1
    | _ => none
  | .write addr value =>
    match pg_setval sys cfg caller addr value with
    | some r => if r.1 = 0 then some r.2 else none
    | none => none

/-- The entry of page `pgn` exists and is Present. -/
def page_present (caller : pcb_t) (pgn : Int) : Bool :=
  match pte_at caller pgn.toNat with
  | some p => PAGING_PAGE_PRESENT p
  | none => false

/-- Run a sequence of accesses that all return 0. The result lists, in order,
the victims (the head of the FIFO chain at each access to a page that is not
Present) and the pages that were not Present when accessed, and gives the final
state. -/
def run_accesses (sys : Dispatcher) (cfg : Config) :
    pcb_t → List pg_access → Option (List Int × List Int × pcb_t)
  | caller, [] => some ([], [], caller)
  | caller, a :: rest =>
    match run_access sys cfg caller a with
    | none => none
    | some c1 =>
      match run_accesses sys cfg c1 rest with
      | none => none
      | some (vs, ps, c2) =>
        if page_present caller (a.page cfg) then some (vs, ps, c2)
        else some ((fifo_of caller).head?.toList ++ vs, a.page cfg :: ps, c2)

/-- 1 when the byte address `x` lies in the range `[rg_start, rg_end)`, else 0. -/
def rg_covers (x : Int) (rg : vm_rg_struct) : Int :=
  if rg.rg_start ≤ x ∧ x < rg.rg_end then 1 else 0

/-- Two regions are disjoint byte ranges: no address lies in both. -/
def rg_disjoint (a b : vm_rg_struct) : Prop :=
  ∀ x : Int, ¬ ((a.rg_start ≤ x ∧ x < a.rg_end) ∧ (b.rg_start ≤ x ∧ x < b.rg_end))

/-- The free-list regions of a chain of VMAs, VMA after VMA. -/
def free_regions_of : List vm_area_struct → List vm_rg_struct
  | [] => []
  | v :: vm_next => v.vm_freerg_list ++ free_regions_of vm_next

/-- All free-list regions followed by all active (non-sentinel) symbol-table
regions of a process. -/
def all_regions (caller : pcb_t) : List vm_rg_struct :=
  match caller.mm with
  | none => []
  | some m => free_regions_of m.mmap ++ m.symrgtbl.filter (fun rg => decide (rg ≠ sentinel))

/-- Number of free-list regions, over all VMAs, that contain the address `x`. -/
def free_cover (caller : pcb_t) (x : Int) : Int :=
  match caller.mm with
  | none => 0
  | some m => (m.mmap.map (fun v => (v.vm_freerg_list.map (rg_covers x)).sum)).sum

/-- Number of symbol-table regions that contain the address `x` (the sentinel
contains no address). -/
def active_cover (caller : pcb_t) (x : Int) : Int :=
  match caller.mm with
  | none => 0
  | some m => (m.symrgtbl.map (rg_covers x)).sum

/-- Every `alloc` of the sequence is served from the free list: its first
search succeeds. -/
def from_free_list (sys : Dispatcher) (cfg : Config) : pcb_t → List mem_op → Bool
  | _, [] => true
  | caller, op :: ops =>
    (match op with
      | .alloc vmaid _ size =>
        (match (get_free_vmrg_area cfg caller vmaid size).1 with
          | .success _ => true
          | .failure => false)
      | .free _ _ => true) &&
    (match run_op sys cfg caller op with
      | none => true
      | some c => from_free_list sys cfg c ops)

/-- Initial state for the non-overlap invariant: every slot of the symbol table
holds the sentinel and the free-list regions are pairwise disjoint. -/
def disjoint_init (caller : pcb_t) : Prop :=
  ∀ m, caller.mm = some m →
    (∀ rg ∈ m.symrgtbl, rg = sentinel) ∧ List.Pairwise rg_disjoint (free_regions_of m.mmap)

/-! ## Concrete instances used to evaluate the functions -/

/-- A configuration with page granularity 5, as in the first-fit scenario of the
specification; `BYTE` is a signed character type. -/
def cfg5 : Config :=
  { PAGING_PAGESZ := 5, PAGING_MAX_SYMTBL_SZ := 4, PAGING_MAX_PGN := 4,
    PAGING_ADDR_FPN_LOBIT := 3, BYTE_SIGNED := true }

/-- An empty frame pool. -/
def mp_empty : memphy_struct := { storage := [], free_fp_list := [] }

/-- A VMA (id 0, break 50) whose free list is `[[0,10),[20,50)]`. -/
def vma_fit : vm_area_struct :=
  { vm_id := 0, sbrk := 50,
    vm_freerg_list := [{ rg_start := 0, rg_end := 10 }, { rg_start := 20, rg_end := 50 }] }

/-- Memory object with the single VMA `vma_fit` and an all-sentinel symbol table
of four slots. -/
def mm_fit : mm_struct :=
  { mmap := [vma_fit],
    symrgtbl := [sentinel, sentinel, sentinel, sentinel],
    pgd := [], fifo_pgn := [] }

/-- Process owning `mm_fit`. -/
def pcb_fit : pcb_t :=
  { mm := some mm_fit, mram := mp_empty, active_mswp := mp_empty, trace := [] }

/-- Memory object like `mm_fit` whose slot 1 holds the active region `[100,105)`. -/
def mm_used : mm_struct :=
  { mm_fit with symrgtbl := [sentinel, { rg_start := 100, rg_end := 105 }, sentinel, sentinel] }

/-- Process owning `mm_used`. -/
def pcb_used : pcb_t :=
  { mm := some mm_used, mram := mp_empty, active_mswp := mp_empty, trace := [] }

/-- A configuration with 256-byte pages, a symbol table of 4 slots and a page
table of 4 entries; `BYTE` is a signed character type. -/
def cfg256 : Config :=
  { PAGING_PAGESZ := 256, PAGING_MAX_SYMTBL_SZ := 4, PAGING_MAX_PGN := 4,
    PAGING_ADDR_FPN_LOBIT := 8, BYTE_SIGNED := true }

/-- A process whose region 0 is the active region `[0,256)`; page 0 is Present in
frame 0, whose first byte is 65; page 1 is swapped out. -/
def pcb_rw : pcb_t :=
  { mm := some
      { mmap := [{ vm_id := 0, sbrk := 256, vm_freerg_list := [] }],
        symrgtbl := [{ rg_start := 0, rg_end := 256 }, sentinel, sentinel, sentinel],
        pgd := [{ present := true, dirty := false, fpn := 0, swpoff := 0 },
                { present := false, dirty := false, fpn := 0, swpoff := 3 }],
        fifo_pgn := [0] },
    mram := { storage := [65, 66], free_fp_list := [] },
    active_mswp := { storage := [], free_fp_list := [] },
    trace := [] }

/-- An empty VMA: id 0, break 0, empty free list. -/
def vma_init : vm_area_struct := { vm_id := 0, sbrk := 0, vm_freerg_list := [] }

/-- Memory object with the single VMA `vma_init` and an all-sentinel symbol table
of four slots. -/
def mm_init : mm_struct :=
  { mmap := [vma_init], symrgtbl := [sentinel, sentinel, sentinel, sentinel],
    pgd := [], fifo_pgn := [] }

/-- A process owning `mm_init`, no request sent yet. -/
def pcb_init : pcb_t :=
  { mm := some mm_init, mram := mp_empty, active_mswp := mp_empty, trace := [] }

/-- A sequence of calls in which every `alloc` targets a vacant slot; slot 0 is
allocated, freed and allocated again. -/
def ops_fresh : List mem_op :=
  [.alloc 0 0 100, .alloc 0 1 300, .free 0 0, .alloc 0 0 200, .free 0 1, .alloc 0 2 700]

/-- State reached from `pcb_init` by `ops_fresh`. -/
def pcb_after_fresh : pcb_t := (run_ops sys_all cfg256 pcb_init ops_fresh).getD pcb_init

/-- A sequence of calls that allocates the active id 0 a second time. -/
def ops_realloc : List mem_op := [.alloc 0 0 1, .alloc 0 0 1]

/-- A process whose only VMA has break 0 and the free list `[[0,256)]`. -/
def pcb_brk : pcb_t :=
  { mm := some
      { mmap := [{ vm_id := 0, sbrk := 0, vm_freerg_list := [{ rg_start := 0, rg_end := 256 }] }],
        symrgtbl := [sentinel, sentinel, sentinel, sentinel],
        pgd := [], fifo_pgn := [] },
    mram := mp_empty, active_mswp := mp_empty, trace := [] }

/-- A dispatcher that refuses heap growth beyond 256 bytes and serves every
other request. -/
def sys_small : Dispatcher :=
  ref_dispatcher (fun regs => decide (regs.a1 ≠ sysmem_op.SYSMEM_INC_OP ∨ regs.a3 ≤ 256))

/-- The entry of the resident page 0 of `mm_pg`: Present in frame 0. -/
def pte_res : pte_t := { present := true, dirty := false, fpn := 0, swpoff := 0 }

/-- The entry of the swapped-out page 1 of `mm_pg`: Swapped, in swap slot 3. -/
def pte_swp : pte_t := { present := false, dirty := false, fpn := 0, swpoff := 3 }

/-- Memory object with two pages: page 0 resident in frame 0 and alone in the FIFO
chain, page 1 swapped out in slot 3. -/
def mm_pg : mm_struct :=
  { mmap := [{ vm_id := 0, sbrk := 512, vm_freerg_list := [] }],
    symrgtbl := [{ rg_start := 0, rg_end := 512 }, sentinel, sentinel, sentinel],
    pgd := [pte_res, pte_swp],
    fifo_pgn := [0] }

/-- A process owning `mm_pg` whose swap pool has the free slots 5 and 6. -/
def pcb_pg : pcb_t :=
  { mm := some mm_pg,
    mram := { storage := [65, 66], free_fp_list := [] },
    active_mswp := { storage := [], free_fp_list := [5, 6] },
    trace := [] }

/-- State after the fault on page 1 of `pcb_pg` under `sys_all`. -/
def pcb_pg_after : pcb_t := ((pg_getpage sys_all cfg256 pcb_pg 1).map Prod.snd).getD pcb_pg

/-- A process owning `mm_pg` whose swap pool has no free slot. -/
def pcb_noswp : pcb_t :=
  { pcb_pg with active_mswp := { storage := [], free_fp_list := [] } }

/-- A dispatcher that refuses every swap request. -/
def sys_noswap : Dispatcher :=
  ref_dispatcher (fun regs => decide (regs.a1 ≠ sysmem_op.SYSMEM_SWP_OP))

/-- A dispatcher that refuses the requests whose `a2` is 3 (here: the copy of
swap slot 3 into a frame) and serves every other request. -/
def sys_rej3 : Dispatcher :=
  ref_dispatcher (fun regs => decide (regs.a2 ≠ 3))

/-- A dispatcher that refuses the physical read and write requests and serves
every other request. -/
def sys_noio : Dispatcher :=
  ref_dispatcher (fun regs =>
    decide (regs.a1 ≠ sysmem_op.SYSMEM_IO_READ ∧ regs.a1 ≠ sysmem_op.SYSMEM_IO_WRITE))

/-- The configuration `cfg256` with a page table of two entries. -/
def cfg2pg : Config := { cfg256 with PAGING_MAX_PGN := 2 }

/-- A process with two pages: page 0 Present in frame 2, page 1 Swapped in slot 7;
both frame pools have an empty free list. -/
def pcb_tear : pcb_t :=
  { mm := some
      { mmap := [{ vm_id := 0, sbrk := 512, vm_freerg_list := [] }],
        symrgtbl := [sentinel, sentinel, sentinel, sentinel],
        pgd := [{ present := true, dirty := false, fpn := 2, swpoff := 0 },
                { present := false, dirty := false, fpn := 0, swpoff := 7 }],
        fifo_pgn := [0] },
    mram := { storage := [], free_fp_list := [] },
    active_mswp := { storage := [], free_fp_list := [] },
    trace := [] }

/-- State after `pg_setval` of the byte 7 at address 300 (page 1, offset 44) in
`pcb_pg` under `sys_all`. -/
def pcb_pg_written : pcb_t := ((pg_setval sys_all cfg256 pcb_pg 300 7).map Prod.snd).getD pcb_pg

/-- A process with one resident page: page 0 is Present in frame 0 and alone in
the FIFO chain, pages 1 and 2 are swapped out (slots 3 and 4); the swap pool
offers the slots 5 to 8. -/
def pcb_one_frame : pcb_t :=
  { mm := some
      { mmap := [{ vm_id := 0, sbrk := 768, vm_freerg_list := [] }],
        symrgtbl := [{ rg_start := 0, rg_end := 768 }, sentinel, sentinel, sentinel],
        pgd := [{ present := true, dirty := false, fpn := 0, swpoff := 0 },
                { present := false, dirty := false, fpn := 0, swpoff := 3 },
                { present := false, dirty := false, fpn := 0, swpoff := 4 }],
        fifo_pgn := [0] },
    mram := { storage := [], free_fp_list := [] },
    active_mswp := { storage := [], free_fp_list := [5, 6, 7, 8] },
    trace := [] }

/-- Fault page 1 ("A"), fault page 2 ("B"), read a byte of page 2, access page 1
again. -/
def accesses_aba : List pg_access := [.fetch 1, .fetch 2, .read 600, .fetch 1]

/-- A process with two resident pages: pages 0 and 1 are Present in frames 0 and
1 and entered the FIFO chain in that order, page 2 is swapped out (slot 3). -/
def pcb_two_frames : pcb_t :=
  { mm := some
      { mmap := [{ vm_id := 0, sbrk := 768, vm_freerg_list := [] }],
        symrgtbl := [{ rg_start := 0, rg_end := 768 }, sentinel, sentinel, sentinel],
        pgd := [{ present := true, dirty := false, fpn := 0, swpoff := 0 },
                { present := true, dirty := false, fpn := 1, swpoff := 0 },
                { present := false, dirty := false, fpn := 0, swpoff := 3 }],
        fifo_pgn := [0, 1] },
    mram := { storage := [], free_fp_list := [] },
    active_mswp := { storage := [], free_fp_list := [5, 6] },
    trace := [] }

/-- Read and write the oldest resident page 0, then fault page 2. -/
def accesses_recent : List pg_access := [.read 10, .write 20 9, .fetch 2]

/-- State reached from `pcb_two_frames` by `accesses_recent` under `sys_all`. -/
def pcb_two_after : pcb_t :=
  ((run_accesses sys_all cfg256 pcb_two_frames accesses_recent).map
    (fun r => r.2.2)).getD pcb_two_frames

/-- A queue of capacity 3 holding the single process 7. -/
def queue_one : queue_t := { proc := [some 7, none, none], size := 1 }

/-- Four processes: `bin/a`, `bin/b`, `usr/a`, `usr/b`, each with code size 10 and
program counter 0. -/
def procs_ab : List proc_t :=
  [{ path := ['b', 'i', 'n', '/', 'a'], pc := 0, code_size := 10 },
   { path := ['b', 'i', 'n', '/', 'b'], pc := 0, code_size := 10 },
   { path := ['u', 's', 'r', '/', 'a'], pc := 0, code_size := 10 },
   { path := ['u', 's', 'r', '/', 'b'], pc := 0, code_size := 10 }]

/-- The running list holds `bin/a` then `bin/b`; ready queue 0 holds `usr/a` then
`usr/b`; ready queue 1 is empty (`MAX_PRIO = 2`, queues of capacity 3). -/
def kill_ab : kill_state :=
  { procs := procs_ab,
    run_list := { proc := [some 0, some 1, none], size := 2 },
    mlq := [{ proc := [some 2, some 3, none], size := 2 },
            { proc := [none, none, none], size := 0 }],
    index := 0 }

/-- Calls served from the free list of `pcb_fit` (page granularity 5); the last one
allocates id 1 while it is active. -/
def ops_carve : List mem_op :=
  [.alloc 0 0 5, .alloc 0 1 12, .free 0 0, .alloc 0 2 3, .alloc 0 1 5]

/-- State reached from `pcb_fit` by `ops_carve`. -/
def pcb_fit_after : pcb_t := (run_ops sys_all cfg5 pcb_fit ops_carve).getD pcb_fit

/-- The configuration `cfg256` with the signedness of `BYTE` left open. -/
def cfg256_byte (signed : Bool) : Config := { cfg256 with BYTE_SIGNED := signed }

/-- A process like `pcb_rw` whose frame 0 starts with the bytes `'P'`, `'0'`, 255:
region 0 holds the name `P0` followed by the terminator byte. -/
def pcb_name : pcb_t :=
  { pcb_rw with mram := { storage := [80, 48, 255], free_fp_list := [] } }

/-- A dispatcher that accepts every heap-growth request but grants only the
first half of the requested bytes; it serves every other request. -/
def sys_half : Dispatcher :=
  fun caller nr regs =>
    match regs.a1 with
    | .SYSMEM_INC_OP => (0, grant caller regs.a2 (regs.a3 / 2), regs)
    | _ => sys_all caller nr regs

/-- A process with two VMAs under page granularity 5: VMA 0 (break 100) and VMA 1
(break 105), both with an empty free list; slot 1 holds the active region
`[100,105)`, which lies in VMA 1. -/
def pcb_two_vma : pcb_t :=
  { mm := some
      { mmap := [{ vm_id := 0, sbrk := 100, vm_freerg_list := [] },
                 { vm_id := 1, sbrk := 105, vm_freerg_list := [] }],
        symrgtbl := [sentinel, { rg_start := 100, rg_end := 105 }, sentinel, sentinel],
        pgd := [], fifo_pgn := [] },
    mram := mp_empty, active_mswp := mp_empty, trace := [] }

/-- State after `__free(caller, 1, 1)` in `pcb_two_vma`. -/
def pcb_two_vma_freed : pcb_t := ((__free cfg5 pcb_two_vma 1 1).map Prod.snd).getD pcb_two_vma

/-! ## Theorems -/

theorem first_fit_none_of_small (A : Int) (l : List vm_rg_struct)
    (h : ∀ x ∈ l, rg_len x < A) : first_fit A l = none := by
  induction l with
  | nil => rfl
  | cons a t ih =>
    have ha : rg_len a < A := h a (List.mem_cons_self _ _)
    have ht : ∀ x ∈ t, rg_len x < A := fun x hx => h x (List.mem_cons_of_mem _ hx)
    have hna : ¬ (a.rg_end - a.rg_start ≥ A) := by
      unfold rg_len at ha; omega
    simp [first_fit, hna, ih ht]

theorem first_fit_split (A : Int) (pre : List vm_rg_struct) (n : vm_rg_struct)
    (post : List vm_rg_struct) (hpre : ∀ x ∈ pre, rg_len x < A) (hn : A ≤ rg_len n) :
    first_fit A (pre ++ n :: post) =
      some ({ rg_start := n.rg_start, rg_end := n.rg_start + A },
        pre ++ (if rg_len n = A then post
                else { n with rg_start := n.rg_start + A } :: post)) := by
  induction pre with
  | nil =>
    have hge : n.rg_end - n.rg_start ≥ A := by unfold rg_len at hn; omega
    by_cases heq : rg_len n = A
    · have heq' : n.rg_end - n.rg_start = A := heq
      simp [first_fit, heq, heq']
    · have heq' : ¬ (n.rg_end - n.rg_start = A) := heq
      simp [first_fit, hge, heq, heq']
  | cons a t ih =>
    have ha : rg_len a < A := hpre a (List.mem_cons_self _ _)
    have ht : ∀ x ∈ t, rg_len x < A := fun x hx => hpre x (List.mem_cons_of_mem _ hx)
    have hna : ¬ (a.rg_end - a.rg_start ≥ A) := by
      unfold rg_len at ha; omega
    simp [first_fit, hna, ih ht]

/-- C1: with a memory object, a VMA and `size > 0`, `get_free_vmrg_area` takes the
first node of the free list whose length is at least the aligned size `A`; it
returns `[node.start, node.start + A)`, unlinks the node when its length is `A`
and otherwise advances only that node's start by `A`, all other nodes and their
order being kept; when no node is long enough it fails and the state is the one
it was called with. -/
theorem get_free_vmrg_area_first_fit (cfg : Config) (caller : pcb_t) (m : mm_struct)
    (vmaid size : Int) (i : Nat) (vma : vm_area_struct)
    (hmm : caller.mm = some m) (hsize : 0 < size)
    (hvma : get_vma_by_num (some m) vmaid = some (i, vma)) :
    (∀ (pre : List vm_rg_struct) (n : vm_rg_struct) (post : List vm_rg_struct),
        vma.vm_freerg_list = pre ++ n :: post →
        (∀ x ∈ pre, rg_len x < PAGING_PAGE_ALIGNSZ cfg size) →
        PAGING_PAGE_ALIGNSZ cfg size ≤ rg_len n →
        get_free_vmrg_area cfg caller vmaid size =
          (Status.success
              { rg_start := n.rg_start, rg_end := n.rg_start + PAGING_PAGE_ALIGNSZ cfg size },
            { caller with
              mm := some (set_vma m i { vma with
                vm_freerg_list :=
                  pre ++ (if rg_len n = PAGING_PAGE_ALIGNSZ cfg size then post
                          else { n with rg_start := n.rg_start + PAGING_PAGE_ALIGNSZ cfg size }
                                :: post) }) })) ∧
    ((∀ x ∈ vma.vm_freerg_list, rg_len x < PAGING_PAGE_ALIGNSZ cfg size) →
        get_free_vmrg_area cfg caller vmaid size = (Status.failure, caller)) := by
  have hs : ¬ size ≤ 0 := by omega
  constructor
  · intro pre n post hl hpre hn
    simp only [get_free_vmrg_area, hmm, hs, hvma, hl, first_fit_split _ pre n post hpre hn,
      if_false]
  · intro hall
    simp only [get_free_vmrg_area, hmm, hs, hvma, first_fit_none_of_small _ _ hall, if_false]

/-- C1, the scenario of the specification: free list `[[0,10),[20,50)]`, aligned
size 5: the call returns `[0,5)` and leaves `[[5,10),[20,50)]`. -/
theorem get_free_vmrg_area_first_fit_witness :
    pcb_fit.mm = some mm_fit ∧ (0 : Int) < 5 ∧
    get_vma_by_num (some mm_fit) 0 = some (0, vma_fit) ∧
    PAGING_PAGE_ALIGNSZ cfg5 5 = 5 ∧
    get_free_vmrg_area cfg5 pcb_fit 0 5 =
      (Status.success { rg_start := 0, rg_end := 5 },
        { pcb_fit with
          mm := some { mm_fit with
            mmap := [{ vm_id := 0, sbrk := 50,
                       vm_freerg_list :=
                        [{ rg_start := 5, rg_end := 10 }, { rg_start := 20, rg_end := 50 }] }] } }) := by
  refine ⟨rfl, by decide, by decide, by decide, ?_⟩
  have h := (get_free_vmrg_area_first_fit cfg5 pcb_fit mm_fit 0 5 0 vma_fit rfl
    (by decide) (by decide)).1 [] { rg_start := 0, rg_end := 10 } [{ rg_start := 20, rg_end := 50 }]
    (by decide) (by simp) (by decide)
  rw [h]
  decide

/-- C2: for a process with a memory object and a VMA and an in-range region id,
`__free` returns 0 exactly when the slot has `rg_start >= 0` and
`rg_end > rg_start`; then the slot's region is pushed on the head of the free
list, the slot holds the sentinel, every other slot and everything else is
unchanged, and a second `__free` of the same id returns -1; otherwise `__free`
returns -1 and the state is unchanged. -/
theorem __free_spec (cfg : Config) (caller : pcb_t) (m : mm_struct) (vmaid rgid : Int)
    (sym : vm_rg_struct) (vma : vm_area_struct) (vm_next : List vm_area_struct)
    (hmm : caller.mm = some m) (hmap : m.mmap = vma :: vm_next)
    (h0 : 0 ≤ rgid) (hlt : rgid < (cfg.PAGING_MAX_SYMTBL_SZ : Int))
    (hsym : m.symrgtbl[rgid.toNat]? = some sym) :
    ((__free cfg caller vmaid rgid).map Prod.fst = some 0 ↔
        (0 ≤ sym.rg_start ∧ sym.rg_start < sym.rg_end)) ∧
    ((0 ≤ sym.rg_start ∧ sym.rg_start < sym.rg_end) →
        __free cfg caller vmaid rgid
          = some (0, freed_state caller m vma vm_next rgid.toNat sym) ∧
        __free cfg (freed_state caller m vma vm_next rgid.toNat sym) vmaid rgid
          = some (-1, freed_state caller m vma vm_next rgid.toNat sym)) ∧
    (¬ (0 ≤ sym.rg_start ∧ sym.rg_start < sym.rg_end) →
        __free cfg caller vmaid rgid = some (-1, caller)) := by
  have hguard : ¬ (rgid < 0 ∨ rgid > (cfg.PAGING_MAX_SYMTBL_SZ : Int)) := by omega
  have hk : rgid.toNat < m.symrgtbl.length := by
    rcases List.getElem?_eq_some.1 hsym with ⟨h, _⟩
    exact h
  have hgood : (0 ≤ sym.rg_start ∧ sym.rg_start < sym.rg_end) →
      __free cfg caller vmaid rgid
        = some (0, freed_state caller m vma vm_next rgid.toNat sym) := by
    intro hok
    have h1 : ¬ (sym.rg_start < 0 ∨ sym.rg_end ≤ sym.rg_start) := by omega
    have h2 : ¬ (sym.rg_start ≥ sym.rg_end) := by omega
    simp [__free, hmm, get_symrg_byid, hguard, hsym, h1, h2, hok.1, hok.2,
      enlist_vm_freerg_list, hmap, freed_state]
  have hbad : ¬ (0 ≤ sym.rg_start ∧ sym.rg_start < sym.rg_end) →
      __free cfg caller vmaid rgid = some (-1, caller) := by
    intro hok
    have h1 : sym.rg_start < 0 ∨ sym.rg_end ≤ sym.rg_start := by omega
    simp [__free, hmm, get_symrg_byid, hguard, hsym, h1]
  refine ⟨?_, ?_, hbad⟩
  · constructor
    · intro h
      by_contra hok
      rw [hbad hok] at h
      simp at h
    · intro hok
      rw [hgood hok]
      rfl
  · intro hok
    refine ⟨hgood hok, ?_⟩
    have hs : (m.symrgtbl.set rgid.toNat { rg_start := -1, rg_end := -1 })[rgid.toNat]?
        = some { rg_start := -1, rg_end := -1 } := by
      simp [List.getElem?_set, hk]
    simp [__free, freed_state, get_symrg_byid, hguard, sentinel, hs]

/-- C2 at a concrete state: slot 1 holds `[100,105)`; `__free` succeeds, pushes
the region and a second `__free` fails. -/
theorem __free_spec_witness :
    (0 : Int) ≤ 1 ∧ (1 : Int) < (cfg5.PAGING_MAX_SYMTBL_SZ : Int) ∧
    pcb_used.mm = some mm_used ∧
    __free cfg5 pcb_used 0 1
      = some (0, freed_state pcb_used mm_used vma_fit [] 1 { rg_start := 100, rg_end := 105 }) ∧
    __free cfg5 (freed_state pcb_used mm_used vma_fit [] 1 { rg_start := 100, rg_end := 105 }) 0 1
      = some (-1, freed_state pcb_used mm_used vma_fit [] 1 { rg_start := 100, rg_end := 105 }) := by
  have h := __free_spec cfg5 pcb_used mm_used 0 1 { rg_start := 100, rg_end := 105 } vma_fit []
    rfl rfl (by decide) (by decide) (by decide)
  exact ⟨by decide, by decide, rfl, h.2.1 (by decide)⟩

/-- C3, evaluation at a failing input: region 0 (active `[0,256)`) is freed, so
that its slot holds the sentinel; `__read` (and `libread`) of that id at offset 1
then returns 0 with the byte 65 of virtual address 0, and `__write` (and
`libwrite`) of 7 at offset 1 returns 0, overwrites that byte of physical memory
and sets the Dirty bit of page 0. -/
theorem read_write_after_free_succeed :
    (__free cfg256 pcb_rw 0 0).map (fun r => (r.1, r.2.mm.map (fun m => m.symrgtbl[0]?)))
      = some (0, some (some sentinel)) ∧
    ((__free cfg256 pcb_rw 0 0).bind (fun r => libread sys_all cfg256 r.2 0 1)).map Prod.fst
      = some (Status.success 65) ∧
    ((__free cfg256 pcb_rw 0 0).bind (fun r => libwrite sys_all cfg256 r.2 7 0 1)).map
        (fun r => (r.1, r.2.mram.storage))
      = some (0, [7, 66]) ∧
    ((__free cfg256 pcb_rw 0 0).bind (fun r => __read sys_all cfg256 r.2 0 0 1)).map Prod.fst
      = some (Status.success 65) ∧
    ((__free cfg256 pcb_rw 0 0).bind (fun r => __write sys_all cfg256 r.2 0 0 1 7)).map
        (fun r => (r.1, r.2.mram.storage, r.2.mm.map (fun m => m.pgd[0]?)))
      = some (0, [7, 66],
          some (some { present := true, dirty := true, fpn := 0, swpoff := 0 })) := by
  decide

/-! ### Conservation of bytes -/

theorem active_len_eq (rg : vm_rg_struct) : active_len rg = rg_len rg := by
  unfold active_len
  split
  · next h => subst h; decide
  · rfl

theorem sum_map_set {α : Type} (f : α → Int) (l : List α) (i : Nat) (a b : α)
    (h : l[i]? = some a) : ((l.set i b).map f).sum = (l.map f).sum - f a + f b := by
  induction l generalizing i with
  | nil => simp at h
  | cons x t ih =>
    cases i with
    | zero =>
      simp at h
      subst h
      simp only [List.set_cons_zero, List.map_cons, List.sum_cons]
      omega
    | succ j =>
      simp at h
      simp only [List.set_cons_succ, List.map_cons, List.sum_cons, ih j h]
      omega

theorem first_fit_bytes (A : Int) (l l' : List vm_rg_struct) (rg : vm_rg_struct)
    (h : first_fit A l = some (rg, l')) :
    list_bytes l' + A = list_bytes l ∧ rg_len rg = A := by
  induction l generalizing l' with
  | nil => simp [first_fit] at h
  | cons a t ih =>
    unfold first_fit at h
    simp only at h
    split at h
    · split at h
      · next h1 h2 =>
        simp only [Option.some.injEq, Prod.mk.injEq] at h
        obtain ⟨hr, hl⟩ := h
        subst hr; subst hl
        simp [list_bytes, rg_len]
        omega
      · simp only [Option.some.injEq, Prod.mk.injEq] at h
        obtain ⟨hr, hl⟩ := h
        subst hr; subst hl
        simp [list_bytes, rg_len]
        omega
    · split at h
      · simp at h
      · next heq =>
        simp only [Option.some.injEq, Prod.mk.injEq] at h
        obtain ⟨hr, hl⟩ := h
        subst hr; subst hl
        have := ih _ heq
        simp [list_bytes] at this ⊢
        omega

theorem find_vma_getElem (vmaid : Int) (l : List vm_area_struct) (i : Nat)
    (vma : vm_area_struct) (h : find_vma vmaid l = some (i, vma)) :
    l[i]? = some vma ∧ vma.vm_id = vmaid := by
  induction l generalizing i with
  | nil => simp [find_vma] at h
  | cons a t ih =>
    unfold find_vma at h
    split at h
    · next ha =>
      simp only [Option.some.injEq, Prod.mk.injEq] at h
      obtain ⟨h1, h2⟩ := h
      subst h1; subst h2
      exact ⟨by simp, ha⟩
    · split at h
      · simp at h
      · next j v hj =>
        simp only [Option.some.injEq, Prod.mk.injEq] at h
        obtain ⟨h1, h2⟩ := h
        subst h1; subst h2
        have := ih j hj
        exact ⟨by simpa using this.1, this.2⟩

theorem find_vma_set (vmaid : Int) (l : List vm_area_struct) (i : Nat)
    (a b : vm_area_struct) (h : find_vma vmaid l = some (i, a)) (hb : b.vm_id = a.vm_id) :
    find_vma vmaid (l.set i b) = some (i, b) := by
  induction l generalizing i with
  | nil => simp [find_vma] at h
  | cons x t ih =>
    unfold find_vma at h
    split at h
    · next hx =>
      simp only [Option.some.injEq, Prod.mk.injEq] at h
      obtain ⟨h1, h2⟩ := h
      subst h1; subst h2
      simp [find_vma, hb, hx]
    · next hx =>
      split at h
      · simp at h
      · next j v hj =>
        simp only [Option.some.injEq, Prod.mk.injEq] at h
        obtain ⟨h1, h2⟩ := h
        subst h1; subst h2
        simp [find_vma, hx, ih j hj]

theorem get_vma_by_num_getElem (m : mm_struct) (vmaid : Int) (i : Nat) (vma : vm_area_struct)
    (h : get_vma_by_num (some m) vmaid = some (i, vma)) : m.mmap[i]? = some vma :=
  (find_vma_getElem vmaid m.mmap i vma h).1

theorem get_free_vmrg_area_success (cfg : Config) (c c1 : pcb_t) (vmaid size : Int)
    (rg : vm_rg_struct) (h : get_free_vmrg_area cfg c vmaid size = (Status.success rg, c1)) :
    ∃ m i vma fl, c.mm = some m ∧ 0 < size ∧
      get_vma_by_num (some m) vmaid = some (i, vma) ∧
      first_fit (PAGING_PAGE_ALIGNSZ cfg size) vma.vm_freerg_list = some (rg, fl) ∧
      c1 = { c with mm := some (set_vma m i { vma with vm_freerg_list := fl }) } := by
  unfold get_free_vmrg_area at h
  split at h
  · simp at h
  · next m hm =>
    split at h
    · simp at h
    · next hs =>
      split at h
      · simp at h
      · next i vma hv =>
        split at h
        · simp at h
        · next newrg fl hf =>
          simp only [Prod.mk.injEq, Status.success.injEq] at h
          obtain ⟨h1, h2⟩ := h
          subst h1
          exact ⟨m, i, vma, fl, hm, by omega, hv, hf, h2.symm⟩

theorem get_free_vmrg_area_failure (cfg : Config) (c c1 : pcb_t) (vmaid size : Int)
    (h : get_free_vmrg_area cfg c vmaid size = (Status.failure, c1)) : c1 = c := by
  unfold get_free_vmrg_area at h
  split at h
  · simp at h; exact h.symm
  · split at h
    · simp at h; exact h.symm
    · split at h
      · simp at h; exact h.symm
      · split at h
        · simp at h; exact h.symm
        · simp at h

theorem free_bytes_set_vma (c : pcb_t) (m : mm_struct) (i : Nat) (vma vma' : vm_area_struct)
    (hm : c.mm = some m) (hi : m.mmap[i]? = some vma) :
    free_bytes { c with mm := some (set_vma m i vma') }
      = free_bytes c - list_bytes vma.vm_freerg_list + list_bytes vma'.vm_freerg_list := by
  simp only [free_bytes, set_vma, hm]
  exact sum_map_set (fun v => list_bytes v.vm_freerg_list) m.mmap i vma vma' hi

theorem get_free_vmrg_area_bytes (cfg : Config) (c c1 : pcb_t) (vmaid size : Int)
    (rg : vm_rg_struct) (h : get_free_vmrg_area cfg c vmaid size = (Status.success rg, c1)) :
    free_bytes c1 + PAGING_PAGE_ALIGNSZ cfg size = free_bytes c ∧
    rg_len rg = PAGING_PAGE_ALIGNSZ cfg size ∧
    active_bytes c1 = active_bytes c ∧ c1.trace = c.trace := by
  obtain ⟨m, i, vma, fl, hm, _, hv, hf, hc⟩ := get_free_vmrg_area_success cfg c c1 vmaid size rg h
  have hi := get_vma_by_num_getElem m vmaid i vma hv
  have hb := first_fit_bytes _ _ _ _ hf
  subst hc
  refine ⟨?_, hb.2, ?_, rfl⟩
  · rw [free_bytes_set_vma c m i vma _ hm hi]
    simp only
    omega
  · simp [active_bytes, set_vma, hm]

theorem symrgtbl_store_bytes (c c2 : pcb_t) (rgid : Int) (rg : vm_rg_struct)
    (h : symrgtbl_store c rgid rg = some c2) :
    ∃ m old, c.mm = some m ∧ m.symrgtbl[rgid.toNat]? = some old ∧ 0 ≤ rgid ∧
      c2 = { c with mm := some { m with symrgtbl := m.symrgtbl.set rgid.toNat rg } } ∧
      free_bytes c2 = free_bytes c ∧
      active_bytes c2 = active_bytes c - active_len old + active_len rg ∧
      c2.trace = c.trace := by
  unfold symrgtbl_store at h
  split at h
  · simp at h
  · next m hm =>
    split at h
    · next hb =>
      simp only [Option.some.injEq] at h
      subst h
      obtain ⟨old, hold⟩ : ∃ old, m.symrgtbl[rgid.toNat]? = some old :=
        ⟨m.symrgtbl[rgid.toNat], List.getElem?_eq_getElem hb.2⟩
      refine ⟨m, old, hm, hold, hb.1, rfl, ?_, ?_, rfl⟩
      · simp [free_bytes, hm]
      · simp only [active_bytes, hm]
        exact sum_map_set active_len m.symrgtbl rgid.toNat old rg hold
    · simp at h

theorem sbrk_commit_bytes (c c2 : pcb_t) (i : Nat) (s inc : Int)
    (h : sbrk_commit c i s inc = some c2) :
    free_bytes c2 = free_bytes c ∧ active_bytes c2 = active_bytes c ∧ c2.trace = c.trace := by
  unfold sbrk_commit at h
  split at h
  · simp at h
  · next m hm =>
    split at h
    · simp at h
    · next vma hv =>
      split at h
      · simp only [Option.some.injEq] at h
        subst h
        refine ⟨?_, ?_, rfl⟩
        · rw [free_bytes_set_vma c m i vma _ hm hv]
          simp
        · simp [active_bytes, set_vma, hm]
      · simp only [Option.some.injEq] at h
        subst h
        exact ⟨rfl, rfl, rfl⟩

theorem granted_bytes_append (tr : List (sc_regs × Int)) (regs : sc_regs) (r : Int) :
    granted_bytes (tr ++ [(regs, r)])
      = granted_bytes tr +
          (if regs.a1 = sysmem_op.SYSMEM_INC_OP ∧ 0 ≤ r then regs.a3 else 0) := by
  simp [granted_bytes]

theorem grant_bytes (c : pcb_t) (m : mm_struct) (vmaid inc : Int) (i : Nat)
    (vma : vm_area_struct) (hm : c.mm = some m)
    (hv : get_vma_by_num (some m) vmaid = some (i, vma)) :
    free_bytes (grant c vmaid inc) = free_bytes c + inc ∧
    active_bytes (grant c vmaid inc) = active_bytes c := by
  have hi := get_vma_by_num_getElem m vmaid i vma hv
  simp only [grant, hm, hv]
  constructor
  · rw [free_bytes_set_vma c m i vma _ hm hi]
    simp only [list_bytes, rg_len, List.map_cons, List.sum_cons]
    omega
  · simp [active_bytes, set_vma, hm]

/-! ### The paths of `__alloc` -/

theorem __alloc_cases (sys : Dispatcher) (cfg : Config) (c c' : pcb_t) (vmaid rgid size : Int)
    (res : Status Int) (h : __alloc sys cfg c vmaid rgid size = some (res, c')) :
    (res = Status.failure ∧ c' = c ∧ (c.mm = none ∨ size ≤ 0)) ∨
    (∃ rg c1, get_free_vmrg_area cfg c vmaid size = (Status.success rg, c1) ∧
        symrgtbl_store c1 rgid rg = some c' ∧ res = Status.success rg.rg_start) ∨
    (get_free_vmrg_area cfg c vmaid size = (Status.failure, c) ∧ 0 < size ∧
      ((get_vma_by_num c.mm vmaid = none ∧ res = Status.failure ∧ c' = c) ∨
       (∃ i vma, get_vma_by_num c.mm vmaid = some (i, vma) ∧
          (((syscall sys c 17 (grow_request cfg vmaid size)).1 < 0 ∧ res = Status.failure ∧
              c' = (syscall sys c 17 (grow_request cfg vmaid size)).2.1) ∨
           (0 ≤ (syscall sys c 17 (grow_request cfg vmaid size)).1 ∧
              get_free_vmrg_area cfg (syscall sys c 17 (grow_request cfg vmaid size)).2.1
                  vmaid size
                = (Status.failure, (syscall sys c 17 (grow_request cfg vmaid size)).2.1) ∧
              res = Status.failure ∧
              c' = (syscall sys c 17 (grow_request cfg vmaid size)).2.1) ∨
           (0 ≤ (syscall sys c 17 (grow_request cfg vmaid size)).1 ∧
              ∃ rg c3 c4,
                get_free_vmrg_area cfg (syscall sys c 17 (grow_request cfg vmaid size)).2.1
                    vmaid size
                  = (Status.success rg, c3) ∧
                symrgtbl_store c3 rgid rg = some c4 ∧
                sbrk_commit c4 i rg.rg_start (PAGING_PAGE_ALIGNSZ cfg size) = some c' ∧
                res = Status.success rg.rg_start))))) := by
  unfold __alloc at h
  split at h
  · simp only [Option.some.injEq, Prod.mk.injEq] at h
    next hm => exact Or.inl ⟨h.1.symm, h.2.symm, Or.inl hm⟩
  · split at h
    · next hs =>
      simp only [Option.some.injEq, Prod.mk.injEq] at h
      exact Or.inl ⟨h.1.symm, h.2.symm, Or.inr hs⟩
    · next hs =>
      split at h
      · next rgnode c1 hg =>
        split at h
        · simp at h
        · next c2 hst =>
          simp only [Option.some.injEq, Prod.mk.injEq] at h
          refine Or.inr (Or.inl ⟨rgnode, c1, hg, ?_, h.1.symm⟩)
          rw [hst, h.2]
      · next c1 hg =>
        have hc1 := get_free_vmrg_area_failure cfg c c1 vmaid size hg
        subst hc1
        refine Or.inr (Or.inr ⟨hg, by omega, ?_⟩)
        split at h
        · next hv =>
          simp only [Option.some.injEq, Prod.mk.injEq] at h
          exact Or.inl ⟨hv, h.1.symm, h.2.symm⟩
        · next i vma hv =>
          refine Or.inr ⟨i, vma, hv, ?_⟩
          simp only at h
          split at h
          · next hr =>
            simp only [Option.some.injEq, Prod.mk.injEq] at h
            exact Or.inl ⟨hr, h.1.symm, h.2.symm⟩
          · next hr =>
            split at h
            · next c3 hg2 =>
              simp only [Option.some.injEq, Prod.mk.injEq] at h
              have hc3 := get_free_vmrg_area_failure cfg _ c3 vmaid size hg2
              subst hc3
              exact Or.inr (Or.inl ⟨by unfold grow_request; omega, hg2, h.1.symm, h.2.symm⟩)
            · next rgnode c3 hg2 =>
              split at h
              · simp at h
              · next c4 hst =>
                split at h
                · simp at h
                · next c5 hsb =>
                  simp only [Option.some.injEq, Prod.mk.injEq] at h
                  refine Or.inr (Or.inr ⟨by unfold grow_request; omega, rgnode, c3, c4, hg2,
                    hst, ?_, h.1.symm⟩)
                  rw [← h.2]
                  exact hsb

theorem free_bytes_trace (c : pcb_t) (t : List (sc_regs × Int)) :
    free_bytes { c with trace := t } = free_bytes c := rfl

theorem active_bytes_trace (c : pcb_t) (t : List (sc_regs × Int)) :
    active_bytes { c with trace := t } = active_bytes c := rfl

theorem slot_vacant_trace (c : pcb_t) (t : List (sc_regs × Int)) (rgid : Int) :
    slot_vacant { c with trace := t } rgid = slot_vacant c rgid := rfl

theorem slot_vacant_len (c : pcb_t) (m : mm_struct) (rgid : Int) (old : vm_rg_struct)
    (hv : slot_vacant c rgid = true) (hm : c.mm = some m)
    (hold : m.symrgtbl[rgid.toNat]? = some old) : active_len old = 0 := by
  simp only [slot_vacant, hm, hold, decide_eq_true_eq] at hv
  simp [active_len, hv]

theorem slot_vacant_grant (c : pcb_t) (vmaid inc rgid : Int) :
    slot_vacant (grant c vmaid inc) rgid = slot_vacant c rgid := by
  unfold grant
  split
  · rfl
  · next m hm =>
    split
    · rfl
    · simp [slot_vacant, hm, set_vma]

/-- Carving a region and storing it in a vacant slot moves bytes from the free
lists to the symbol table. -/
theorem carve_store_bytes (cfg : Config) (c c1 c2 : pcb_t) (vmaid rgid size : Int)
    (rg : vm_rg_struct) (hg : get_free_vmrg_area cfg c vmaid size = (Status.success rg, c1))
    (hst : symrgtbl_store c1 rgid rg = some c2) (hv : slot_vacant c rgid = true) :
    free_bytes c2 + active_bytes c2 = free_bytes c + active_bytes c ∧ c2.trace = c.trace := by
  obtain ⟨hf, hl, ha, ht⟩ := get_free_vmrg_area_bytes cfg c c1 vmaid size rg hg
  obtain ⟨m, i, vma, fl, hm, _, _, _, hc1⟩ := get_free_vmrg_area_success cfg c c1 vmaid size rg hg
  obtain ⟨m1, old, hm1, hold, _, _, hf2, ha2, ht2⟩ := symrgtbl_store_bytes c1 c2 rgid rg hst
  have hm1' : m1 = set_vma m i { vma with vm_freerg_list := fl } := by
    rw [hc1] at hm1
    simp only [Option.some.injEq] at hm1
    exact hm1.symm
  have hold' : m.symrgtbl[rgid.toNat]? = some old := by
    rw [hm1'] at hold
    exact hold
  have h0 := slot_vacant_len c m rgid old hv hm hold'
  rw [active_len_eq rg] at ha2
  constructor
  · omega
  · rw [ht2, ht]

theorem syscall_grow_bytes (sys : Dispatcher) (cfg : Config) (c : pcb_t) (m : mm_struct)
    (vmaid size rgid : Int) (i : Nat) (vma : vm_area_struct) (hsys : GrowsHeap sys)
    (hm : c.mm = some m) (hv : get_vma_by_num (some m) vmaid = some (i, vma)) :
    free_bytes (syscall sys c 17 (grow_request cfg vmaid size)).2.1
        + active_bytes (syscall sys c 17 (grow_request cfg vmaid size)).2.1
        - granted_bytes (syscall sys c 17 (grow_request cfg vmaid size)).2.1.trace
      = free_bytes c + active_bytes c - granted_bytes c.trace ∧
    slot_vacant (syscall sys c 17 (grow_request cfg vmaid size)).2.1 rgid
      = slot_vacant c rgid := by
  have hk := hsys c 17 (grow_request cfg vmaid size) rfl
  simp only [syscall, granted_bytes_append, free_bytes_trace, active_bytes_trace,
    slot_vacant_trace]
  rcases hk with ⟨hr, hc⟩ | ⟨hr, hc⟩
  · rw [hc]
    have : ¬ (0 ≤ (sys c 17 (grow_request cfg vmaid size)).1) := by omega
    simp [this]
  · rw [hc]
    obtain ⟨h1, h2⟩ := grant_bytes c m vmaid (PAGING_PAGE_ALIGNSZ cfg size) i vma hm hv
    simp only [grow_request] at hr ⊢
    simp only [h1, h2, hr, and_self, if_true, slot_vacant_grant, and_true]
    omega

/-- One `__alloc` into a vacant slot keeps the balance of bytes. -/
theorem __alloc_conserves (sys : Dispatcher) (cfg : Config) (c c' : pcb_t)
    (vmaid rgid size : Int) (res : Status Int) (hsys : GrowsHeap sys)
    (hv : slot_vacant c rgid = true)
    (h : __alloc sys cfg c vmaid rgid size = some (res, c'))
    (hinv : free_bytes c + active_bytes c = granted_bytes c.trace) :
    free_bytes c' + active_bytes c' = granted_bytes c'.trace := by
  rcases __alloc_cases sys cfg c c' vmaid rgid size res h with
    ⟨_, hc, _⟩ | ⟨rg, c1, hg, hst, _⟩ | ⟨_, _, hrest⟩
  · rw [hc]; exact hinv
  · obtain ⟨hb, ht⟩ := carve_store_bytes cfg c c1 c' vmaid rgid size rg hg hst hv
    rw [ht]; omega
  · rcases hrest with ⟨_, _, hc⟩ | ⟨i, vma, hvma, hcases⟩
    · rw [hc]; exact hinv
    · cases hm : c.mm with
      | none => simp [hm, get_vma_by_num] at hvma
      | some m =>
        rw [hm] at hvma
        obtain ⟨hb, hvac⟩ := syscall_grow_bytes sys cfg c m vmaid size rgid i vma hsys hm hvma
        rcases hcases with ⟨_, _, hc⟩ | ⟨_, _, _, hc⟩ | ⟨_, rg, c3, c4, hg, hst, hsb, _⟩
        · rw [hc]; omega
        · rw [hc]; omega
        · rw [← hvac] at hv
          obtain ⟨hb2, ht2⟩ := carve_store_bytes cfg _ c3 c4 vmaid rgid size rg hg hst hv
          obtain ⟨h1, h2, h3⟩ := sbrk_commit_bytes c4 c' i _ _ hsb
          rw [h1, h2, h3, ht2]
          omega

/-- One `__free` keeps the balance of bytes. -/
theorem __free_conserves (cfg : Config) (c c' : pcb_t) (vmaid rgid : Int) (code : Int)
    (h : __free cfg c vmaid rgid = some (code, c'))
    (hinv : free_bytes c + active_bytes c = granted_bytes c.trace) :
    free_bytes c' + active_bytes c' = granted_bytes c'.trace := by
  unfold __free at h
  split at h
  · simp only [Option.some.injEq, Prod.mk.injEq] at h
    rw [← h.2]; exact hinv
  · next m hm =>
    split at h
    · simp only [Option.some.injEq, Prod.mk.injEq] at h
      rw [← h.2]; exact hinv
    · next k hk =>
      split at h
      · simp at h
      · next sym hsym =>
        split at h
        · simp only [Option.some.injEq, Prod.mk.injEq] at h
          rw [← h.2]; exact hinv
        · next hok =>
          simp only at h
          split at h
          · simp only [Option.some.injEq, Prod.mk.injEq] at h
            rw [← h.2]; exact hinv
          · next hr =>
            simp only [Option.some.injEq, Prod.mk.injEq] at h
            rw [← h.2]
            unfold enlist_vm_freerg_list at hr ⊢
            cases hmap : m.mmap with
            | nil => simp [hmap] at hr
            | cons vma rest =>
              have hlt : ¬ (sym.rg_start ≥ sym.rg_end) := by omega
              simp only [hmap, hlt, if_false]
              have hact := sum_map_set active_len m.symrgtbl k sym sentinel hsym
              have hs0 : active_len sentinel = 0 := by decide
              rw [active_len_eq sym] at hact
              simp only [free_bytes, active_bytes, hm, hmap, List.map_cons, List.sum_cons,
                list_bytes] at hinv ⊢
              rw [hact]
              omega

theorem run_ops_conserves (sys : Dispatcher) (cfg : Config) (hsys : GrowsHeap sys)
    (ops : List mem_op) :
    ∀ (c0 c : pcb_t), fresh_ids sys cfg c0 ops = true → run_ops sys cfg c0 ops = some c →
      free_bytes c0 + active_bytes c0 = granted_bytes c0.trace →
      free_bytes c + active_bytes c = granted_bytes c.trace := by
  induction ops with
  | nil =>
    intro c0 c _ hrun hinv
    simp only [run_ops, Option.some.injEq] at hrun
    rw [← hrun]; exact hinv
  | cons op ops ih =>
    intro c0 c hfresh hrun hinv
    simp only [run_ops] at hrun
    simp only [fresh_ids, Bool.and_eq_true] at hfresh
    cases hop : run_op sys cfg c0 op with
    | none => simp [hop] at hrun
    | some c1 =>
      simp only [hop] at hrun hfresh
      refine ih c1 c hfresh.2 hrun ?_
      cases op with
      | alloc vmaid rgid size =>
        simp only [run_op, Option.map_eq_some'] at hop
        obtain ⟨⟨res, c1'⟩, hal, hc⟩ := hop
        simp only at hc
        subst hc
        exact __alloc_conserves sys cfg c0 c1' vmaid rgid size res hsys hfresh.1 hal hinv
      | free vmaid rgid =>
        simp only [run_op, Option.map_eq_some'] at hop
        obtain ⟨⟨code, c1'⟩, hfr, hc⟩ := hop
        simp only at hc
        subst hc
        exact __free_conserves cfg c0 c1' vmaid rgid code hfr hinv

theorem sum_map_zero {α : Type} (f : α → Int) (l : List α) (h : ∀ x ∈ l, f x = 0) :
    (l.map f).sum = 0 := by
  induction l with
  | nil => rfl
  | cons a t ih =>
    simp only [List.map_cons, List.sum_cons, h a (List.mem_cons_self _ _),
      ih (fun x hx => h x (List.mem_cons_of_mem _ hx))]
    rfl

theorem alloc_init_balance (c : pcb_t) (h : alloc_init c) :
    free_bytes c + active_bytes c = granted_bytes c.trace := by
  obtain ⟨ht, hm⟩ := h
  rw [ht]
  cases hmm : c.mm with
  | none => simp [free_bytes, active_bytes, granted_bytes, hmm]
  | some m =>
    obtain ⟨h1, h2⟩ := hm m hmm
    have e1 : (m.mmap.map (fun v => list_bytes v.vm_freerg_list)).sum = 0 :=
      sum_map_zero _ _ (fun v hv => by simp [h1 v hv, list_bytes])
    have e2 : (m.symrgtbl.map active_len).sum = 0 :=
      sum_map_zero _ _ (fun rg hrg => by rw [h2 rg hrg]; decide)
    simp [free_bytes, active_bytes, granted_bytes, hmm, e1, e2]

theorem ref_dispatcher_growsHeap (accept : sc_regs → Bool) : GrowsHeap (ref_dispatcher accept) := by
  intro caller nr regs hreg
  unfold ref_dispatcher
  by_cases ha : accept regs = true
  · right
    simp [ha, hreg]
  · left
    simp [ha]

/-- C4 (amended): under a dispatcher that grants heap growth by adding the
granted range to the free list, from an initial state with empty free lists and
an all-sentinel symbol table, after every sequence of `__alloc` and `__free`
calls in which each `__alloc` targets a slot that holds the sentinel when it is
called, the lengths of the free-list regions plus the lengths of the active
symbol-table regions add up to the bytes granted by heap-growth requests. -/
theorem alloc_free_conservation (sys : Dispatcher) (cfg : Config) (c0 c : pcb_t)
    (ops : List mem_op) (hsys : GrowsHeap sys) (hinit : alloc_init c0)
    (hfresh : fresh_ids sys cfg c0 ops = true) (hrun : run_ops sys cfg c0 ops = some c) :
    free_bytes c + active_bytes c = granted_bytes c.trace :=
  run_ops_conserves sys cfg hsys ops c0 c hfresh hrun (alloc_init_balance c0 hinit)

theorem alloc_init_pcb_init : alloc_init pcb_init := by
  refine ⟨rfl, ?_⟩
  intro m hm
  have : m = { mmap := [{ vm_id := 0, sbrk := 0, vm_freerg_list := [] }],
               symrgtbl := [sentinel, sentinel, sentinel, sentinel],
               pgd := [], fifo_pgn := [] } := by
    simp only [pcb_init, Option.some.injEq] at hm
    exact hm.symm
  subst this
  constructor
  · intro v hv
    simp at hv
    subst hv
    rfl
  · intro rg hrg
    simp at hrg
    exact hrg

/-- C4 (amended) on a concrete run that allocates, frees and allocates slot 0
again: 1536 bytes were granted, 512 are free and 1024 are active. -/
theorem alloc_free_conservation_witness :
    alloc_init pcb_init ∧ fresh_ids sys_all cfg256 pcb_init ops_fresh = true ∧
    run_ops sys_all cfg256 pcb_init ops_fresh = some pcb_after_fresh ∧
    free_bytes pcb_after_fresh + active_bytes pcb_after_fresh
      = granted_bytes pcb_after_fresh.trace ∧
    granted_bytes pcb_after_fresh.trace = 1536 ∧ free_bytes pcb_after_fresh = 512 :=
  ⟨alloc_init_pcb_init, by decide, by decide,
    alloc_free_conservation sys_all cfg256 pcb_init pcb_after_fresh ops_fresh
      (ref_dispatcher_growsHeap _) alloc_init_pcb_init (by decide) (by decide),
    by decide, by decide⟩

/-- C4, counterexample: from the initial state, allocating 1 byte under id 0
twice makes the dispatcher grant 512 bytes, but afterwards the free list is
empty and only 256 bytes are active: the first region is lost. -/
theorem alloc_active_id_loses_region :
    alloc_init pcb_init ∧
    (run_ops sys_all cfg256 pcb_init ops_realloc).map
        (fun c => (free_bytes c, active_bytes c, granted_bytes c.trace))
      = some (0, 256, 512) ∧
    (run_ops sys_all cfg256 pcb_init ops_realloc).map
        (fun c => decide (free_bytes c + active_bytes c = granted_bytes c.trace))
      = some false :=
  ⟨alloc_init_pcb_init, by decide, by decide⟩

/-! ### The break pointer -/

theorem getElem?_set_map {α β : Type} (f : α → β) (l : List α) (j : Nat) (a b : α)
    (hj : l[j]? = some a) (hf : f b = f a) (i : Nat) :
    ((l.set j b)[i]?).map f = (l[i]?).map f := by
  by_cases hij : j = i
  · subst hij
    have hlt : j < l.length := (List.getElem?_eq_some.1 hj).1
    simp [List.getElem?_set, hlt, hj, hf]
  · simp [List.getElem?_set, hij]

theorem get_free_vmrg_area_frame (cfg : Config) (c c1 : pcb_t) (vmaid size : Int)
    (rg : vm_rg_struct) (h : get_free_vmrg_area cfg c vmaid size = (Status.success rg, c1)) :
    (∀ i, vma_sbrk c1 i = vma_sbrk c i) ∧ (∀ r, symrg c1 r = symrg c r) := by
  obtain ⟨m, j, vma, fl, hm, _, hv, _, hc⟩ := get_free_vmrg_area_success cfg c c1 vmaid size rg h
  have hj := get_vma_by_num_getElem m vmaid j vma hv
  subst hc
  constructor
  · intro i
    simp only [vma_sbrk, hm, set_vma]
    exact getElem?_set_map (fun v : vm_area_struct => v.sbrk) m.mmap j vma { vma with vm_freerg_list := fl } hj rfl i
  · intro r
    simp [symrg, hm, set_vma]

theorem symrgtbl_store_frame (c c2 : pcb_t) (rgid : Int) (rg : vm_rg_struct)
    (h : symrgtbl_store c rgid rg = some c2) :
    symrg c2 rgid = some rg ∧ (∀ i, vma_sbrk c2 i = vma_sbrk c i) ∧
    (∀ i, vma_freerg c2 i = vma_freerg c i) := by
  obtain ⟨m, old, hm, hold, h0, hc, _⟩ := symrgtbl_store_bytes c c2 rgid rg h
  have hlt : rgid.toNat < m.symrgtbl.length := (List.getElem?_eq_some.1 hold).1
  subst hc
  refine ⟨?_, ?_, ?_⟩
  · simp [symrg, h0, List.getElem?_set, hlt]
  · intro i; simp [vma_sbrk, hm]
  · intro i; simp [vma_freerg, hm]

theorem sbrk_commit_frame (c c2 : pcb_t) (i : Nat) (s inc : Int)
    (h : sbrk_commit c i s inc = some c2) :
    (∀ r, symrg c2 r = symrg c r) ∧
    (∃ b, vma_sbrk c i = some b ∧ vma_sbrk c2 i = some (if b = s then b + inc else b)) ∧
    (∀ k, vma_freerg c2 k = vma_freerg c k) := by
  unfold sbrk_commit at h
  split at h
  · simp at h
  · next m hm =>
    split at h
    · simp at h
    · next vma hv =>
      have hlt : i < m.mmap.length := (List.getElem?_eq_some.1 hv).1
      split at h
      · next hs =>
        simp only [Option.some.injEq] at h
        subst h
        refine ⟨?_, ⟨vma.sbrk, ?_, ?_⟩, ?_⟩
        · intro r; simp [symrg, hm, set_vma]
        · simp [vma_sbrk, hm, hv]
        · simp [vma_sbrk, set_vma, List.getElem?_set, hlt, hs]
        · intro k
          simp only [vma_freerg, set_vma, hm]
          exact getElem?_set_map (fun v : vm_area_struct => v.vm_freerg_list) m.mmap i vma
            { vma with sbrk := vma.sbrk + inc } hv rfl k
      · next hs =>
        simp only [Option.some.injEq] at h
        subst h
        refine ⟨fun _ => rfl, ⟨vma.sbrk, ?_, ?_⟩, fun _ => rfl⟩
        · simp [vma_sbrk, hm, hv]
        · simp [vma_sbrk, hm, hv, hs]

/-- C5 (amended): after a successful `__alloc` the slot `rgid` holds the carved
region, whose length is the aligned size, and the returned address is its
start. When the region was carved from the existing free list the break of the
VMA is the one before the call. When it was carved after heap growth the break
is `b + aligned` if the carved region starts at `b` and `b` otherwise, `b` being
the break of the VMA when the dispatcher returned. -/
theorem __alloc_success (sys : Dispatcher) (cfg : Config) (c c' : pcb_t)
    (vmaid rgid size addr : Int)
    (h : __alloc sys cfg c vmaid rgid size = some (Status.success addr, c')) :
    ∃ rg i vma, get_vma_by_num c.mm vmaid = some (i, vma) ∧
      symrg c' rgid = some rg ∧ addr = rg.rg_start ∧
      rg_len rg = PAGING_PAGE_ALIGNSZ cfg size ∧
      ((∃ c1, get_free_vmrg_area cfg c vmaid size = (Status.success rg, c1) ∧
          vma_sbrk c' i = some vma.sbrk) ∨
       (get_free_vmrg_area cfg c vmaid size = (Status.failure, c) ∧
        0 ≤ (syscall sys c 17 (grow_request cfg vmaid size)).1 ∧
        ∃ c3 b,
          get_free_vmrg_area cfg (syscall sys c 17 (grow_request cfg vmaid size)).2.1 vmaid size
            = (Status.success rg, c3) ∧
          vma_sbrk (syscall sys c 17 (grow_request cfg vmaid size)).2.1 i = some b ∧
          vma_sbrk c' i
            = some (if b = rg.rg_start then b + PAGING_PAGE_ALIGNSZ cfg size else b))) := by
  rcases __alloc_cases sys cfg c c' vmaid rgid size _ h with
    ⟨hres, _, _⟩ | ⟨rg, c1, hg, hst, hres⟩ | ⟨hg0, _, hrest⟩
  · simp at hres
  · simp only [Status.success.injEq] at hres
    obtain ⟨m, i, vma, fl, hm, _, hv, hf, _⟩ := get_free_vmrg_area_success cfg c c1 vmaid size rg hg
    have hi := get_vma_by_num_getElem m vmaid i vma hv
    obtain ⟨hs1, _⟩ := get_free_vmrg_area_frame cfg c c1 vmaid size rg hg
    obtain ⟨hsym, hs2, _⟩ := symrgtbl_store_frame c1 c' rgid rg hst
    refine ⟨rg, i, vma, by rw [hm]; exact hv, hsym, hres, (first_fit_bytes _ _ _ _ hf).2,
      Or.inl ⟨c1, hg, ?_⟩⟩
    rw [hs2 i, hs1 i]
    simp [vma_sbrk, hm, hi]
  · rcases hrest with ⟨_, hres, _⟩ | ⟨i, vma, hvma, hcases⟩
    · simp at hres
    · rcases hcases with ⟨_, hres, _⟩ | ⟨_, _, hres, _⟩ | ⟨hr, rg, c3, c4, hg, hst, hsb, hres⟩
      · simp at hres
      · simp at hres
      · simp only [Status.success.injEq] at hres
        obtain ⟨_, _, _, fl, _, _, _, hf, _⟩ := get_free_vmrg_area_success cfg _ c3 vmaid size rg hg
        obtain ⟨hs1, _⟩ := get_free_vmrg_area_frame cfg _ c3 vmaid size rg hg
        obtain ⟨hsym, hs2, _⟩ := symrgtbl_store_frame c3 c4 rgid rg hst
        obtain ⟨hsy3, ⟨b, hb, hb'⟩, _⟩ := sbrk_commit_frame c4 c' i _ _ hsb
        refine ⟨rg, i, vma, hvma, by rw [hsy3 rgid]; exact hsym, hres,
          (first_fit_bytes _ _ _ _ hf).2, Or.inr ⟨hg0, hr, c3, b, hg, ?_, hb'⟩⟩
        rw [← hs1 i, ← hs2 i]
        exact hb

/-- C5 (amended) at a concrete call: on `pcb_init` (empty free list, break 0)
`__alloc` of 100 bytes carves `[0,256)` after heap growth, stores it in slot 0,
returns 0 and moves the break to 256. -/
theorem __alloc_success_witness :
    __alloc sys_all cfg256 pcb_init 0 0 100
      = some (Status.success 0,
          (((__alloc sys_all cfg256 pcb_init 0 0 100).map Prod.snd).getD pcb_init)) ∧
    symrg (((__alloc sys_all cfg256 pcb_init 0 0 100).map Prod.snd).getD pcb_init) 0
      = some { rg_start := 0, rg_end := 256 } ∧
    vma_sbrk (((__alloc sys_all cfg256 pcb_init 0 0 100).map Prod.snd).getD pcb_init) 0
      = some 256 := by
  have hyp : __alloc sys_all cfg256 pcb_init 0 0 100
      = some (Status.success 0,
          (((__alloc sys_all cfg256 pcb_init 0 0 100).map Prod.snd).getD pcb_init)) := by
    decide
  obtain ⟨rg, i, vma, hv, hsym, haddr, hlen, hpath⟩ :=
    __alloc_success sys_all cfg256 pcb_init _ 0 0 100 0 hyp
  have hvi : i = 0 := by
    have : get_vma_by_num pcb_init.mm 0
        = some (0, { vm_id := 0, sbrk := 0, vm_freerg_list := [] }) := by decide
    rw [this] at hv
    simp only [Option.some.injEq, Prod.mk.injEq] at hv
    exact hv.1.symm
  have hrg : rg = { rg_start := 0, rg_end := 256 } := by
    have h1 : PAGING_PAGE_ALIGNSZ cfg256 100 = 256 := by decide
    rw [h1] at hlen
    unfold rg_len at hlen
    cases rg with
    | mk s e =>
      simp only at haddr hlen
      simp only [vm_rg_struct.mk.injEq]
      omega
  subst hvi
  subst hrg
  refine ⟨hyp, hsym, ?_⟩
  rcases hpath with ⟨c1, hg, _⟩ | ⟨_, _, c3, b, _, hb, hb'⟩
  · have hf : get_free_vmrg_area cfg256 pcb_init 0 100 = (Status.failure, pcb_init) := by decide
    rw [hf] at hg
    simp at hg
  · have hb0 : vma_sbrk (syscall sys_all pcb_init 17 (grow_request cfg256 0 100)).2.1 0
        = some 0 := by decide
    rw [hb0] at hb
    simp only [Option.some.injEq] at hb
    subst hb
    rw [hb']
    decide

/-- C5, counterexample: the free list is `[[0,256)]` and the break is 0; `__alloc`
of 100 bytes carves `[0,256)` from the free list, whose start equals the break
before the call, yet the break after the call is still 0, not 256. -/
theorem __alloc_free_list_path_keeps_break :
    vma_sbrk pcb_brk 0 = some 0 ∧
    (__alloc sys_all cfg256 pcb_brk 0 0 100).map
        (fun r => (r.1, symrg r.2 0, vma_sbrk r.2 0, r.2.trace))
      = some (Status.success 0, some { rg_start := 0, rg_end := 256 }, some 0, []) := by
  decide

/-! ### Failure and heap growth in `__alloc` -/

theorem first_search_fails (cfg : Config) (c : pcb_t) (m : mm_struct) (vmaid size : Int)
    (i : Nat) (vma : vm_area_struct) (hm : c.mm = some m) (hsize : 0 < size)
    (hv : get_vma_by_num (some m) vmaid = some (i, vma))
    (hsmall : ∀ x ∈ vma.vm_freerg_list, rg_len x < PAGING_PAGE_ALIGNSZ cfg size) :
    get_free_vmrg_area cfg c vmaid size = (Status.failure, c) := by
  have hs : ¬ size ≤ 0 := by omega
  simp only [get_free_vmrg_area, hm, hs, hv, first_fit_none_of_small _ _ hsmall, if_false]

/-- After a granted growth request the search finds the granted range at the
head of the free list and unlinks it. -/
theorem get_free_after_grant (cfg : Config) (c : pcb_t) (m : mm_struct) (vmaid size : Int)
    (i : Nat) (vma : vm_area_struct) (t : List (sc_regs × Int)) (hm : c.mm = some m)
    (hsize : 0 < size) (hv : get_vma_by_num (some m) vmaid = some (i, vma)) :
    get_free_vmrg_area cfg
        { grant c vmaid (PAGING_PAGE_ALIGNSZ cfg size) with trace := t } vmaid size
      = (Status.success
          { rg_start := vma.sbrk, rg_end := vma.sbrk + PAGING_PAGE_ALIGNSZ cfg size },
         { c with mm := some (set_vma m i vma), trace := t }) := by
  have hs : ¬ size ≤ 0 := by omega
  have hi := get_vma_by_num_getElem m vmaid i vma hv
  have hlt : i < m.mmap.length := (List.getElem?_eq_some.1 hi).1
  have hv' : find_vma vmaid
      (m.mmap.set i { vma with
        vm_freerg_list :=
          { rg_start := vma.sbrk, rg_end := vma.sbrk + PAGING_PAGE_ALIGNSZ cfg size }
            :: vma.vm_freerg_list })
      = some (i, { vma with
        vm_freerg_list :=
          { rg_start := vma.sbrk, rg_end := vma.sbrk + PAGING_PAGE_ALIGNSZ cfg size }
            :: vma.vm_freerg_list }) :=
    find_vma_set vmaid m.mmap i vma _ hv rfl
  have hv0 : find_vma vmaid m.mmap = some (i, vma) := hv
  cases vma with
  | mk vid brk fl =>
    simp only [grant, hm, get_free_vmrg_area, hs, if_false, get_vma_by_num, set_vma, hv0, hv',
      first_fit, List.set_set]
    simp

theorem __alloc_failure_state (sys : Dispatcher) (cfg : Config) (c c' : pcb_t)
    (vmaid rgid size : Int)
    (h : __alloc sys cfg c vmaid rgid size = some (Status.failure, c')) :
    c' = c ∨ c' = (syscall sys c 17 (grow_request cfg vmaid size)).2.1 := by
  rcases __alloc_cases sys cfg c c' vmaid rgid size _ h with
    ⟨_, hc, _⟩ | ⟨rg, c1, _, _, hres⟩ | ⟨_, hsize, hrest⟩
  · exact Or.inl hc
  · simp at hres
  · rcases hrest with ⟨_, _, hc⟩ | ⟨i, vma, hvma, hcases⟩
    · exact Or.inl hc
    · rcases hcases with ⟨_, _, hc⟩ | ⟨_, _, _, hc⟩ | ⟨_, _, _, _, _, _, _, hres⟩
      · exact Or.inr hc
      · exact Or.inr hc
      · simp at hres

/-- C6, as amended: when `__alloc` returns an error it has written neither the
symbol table nor a free list. The returned state is the state before the call
or, when the growth request was sent, the state in which the dispatcher left
the process on return from that single request; so every symbol-table slot
and every free list is as before the call or as the dispatcher left it, and the
memory object is the one before the call whenever the dispatcher did not
change it. -/
theorem __alloc_failure_writes_nothing (sys : Dispatcher) (cfg : Config) (c c' : pcb_t)
    (vmaid rgid size : Int)
    (h : __alloc sys cfg c vmaid rgid size = some (Status.failure, c')) :
    (c' = c ∨ c' = (syscall sys c 17 (grow_request cfg vmaid size)).2.1) ∧
    (((∀ r, symrg c' r = symrg c r) ∧ (∀ i, vma_freerg c' i = vma_freerg c i)) ∨
     ((∀ r, symrg c' r = symrg (sys c 17 (grow_request cfg vmaid size)).2.1 r) ∧
      (∀ i, vma_freerg c' i = vma_freerg (sys c 17 (grow_request cfg vmaid size)).2.1 i))) ∧
    ((sys c 17 (grow_request cfg vmaid size)).2.1.mm = c.mm →
      c'.mm = c.mm ∧ (∀ r, symrg c' r = symrg c r) ∧ (∀ i, vma_freerg c' i = vma_freerg c i)) := by
  have key := __alloc_failure_state sys cfg c c' vmaid rgid size h
  refine ⟨key, ?_, ?_⟩
  · rcases key with hc | hc
    · exact Or.inl ⟨fun r => by rw [hc], fun i => by rw [hc]⟩
    · refine Or.inr ⟨fun r => ?_, fun i => ?_⟩
      · rw [hc]; simp only [symrg, syscall]
      · rw [hc]; simp only [vma_freerg, syscall]
  · intro hd
    have hmm : c'.mm = c.mm := by
      rcases key with hc | hc
      · rw [hc]
      · rw [hc]; simp only [syscall]; exact hd
    refine ⟨hmm, fun r => ?_, fun i => ?_⟩
    · simp only [symrg, hmm]
    · simp only [vma_freerg, hmm]

/-- C6, as amended, at a concrete call: the dispatcher `sys_small` rejects the
growth request of 512 bytes and changes nothing, `__alloc` returns an error and
the memory object is the one before the call. -/
theorem __alloc_failure_writes_nothing_witness :
    __alloc sys_small cfg256 pcb_init 0 0 300
      = some (Status.failure,
          (((__alloc sys_small cfg256 pcb_init 0 0 300).map Prod.snd).getD pcb_init)) ∧
    (sys_small pcb_init 17 (grow_request cfg256 0 300)).2.1.mm = pcb_init.mm ∧
    (((__alloc sys_small cfg256 pcb_init 0 0 300).map Prod.snd).getD pcb_init).mm
      = pcb_init.mm :=
  ⟨by decide, by decide,
    ((__alloc_failure_writes_nothing sys_small cfg256 pcb_init _ 0 0 300 (by decide)).2.2
      (by decide)).1⟩

/-- C6 as stated fails: the dispatcher `sys_half` accepts the growth request of
256 bytes and grants `[0,128)`; the retry finds no region of 256 bytes and
`__alloc` returns an error, with the symbol table as before but with the free
list `[[0,128)]`, which was empty before the call. -/
theorem __alloc_failure_after_partial_grant :
    vma_freerg pcb_init 0 = some [] ∧
    (__alloc sys_half cfg256 pcb_init 0 0 256).map
        (fun r => (r.1, vma_freerg r.2 0, r.2.mm.map (fun m => m.symrgtbl)))
      = some (Status.failure, some [{ rg_start := 0, rg_end := 128 }],
          some [sentinel, sentinel, sentinel, sentinel]) ∧
    (__alloc sys_half cfg256 pcb_init 0 0 256).map (fun r => r.2.trace)
      = some [(grow_request cfg256 0 256, 0)] := by
  decide

theorem alloc_grow_unfold (sys : Dispatcher) (cfg : Config) (c : pcb_t) (m : mm_struct)
    (vmaid rgid size : Int) (i : Nat) (vma : vm_area_struct) (hm : c.mm = some m)
    (hsize : 0 < size) (hv : get_vma_by_num (some m) vmaid = some (i, vma))
    (hsmall : ∀ x ∈ vma.vm_freerg_list, rg_len x < PAGING_PAGE_ALIGNSZ cfg size) :
    __alloc sys cfg c vmaid rgid size =
      if (syscall sys c 17 (grow_request cfg vmaid size)).1 < 0 then
        some (Status.failure, (syscall sys c 17 (grow_request cfg vmaid size)).2.1)
      else alloc_retry cfg (syscall sys c 17 (grow_request cfg vmaid size)).2.1 vmaid rgid size i := by
  have hs : ¬ size ≤ 0 := by omega
  have hf := first_search_fails cfg c m vmaid size i vma hm hsize hv hsmall
  have hv1 : get_vma_by_num c.mm vmaid = some (i, vma) := by rw [hm]; exact hv
  unfold __alloc
  simp only [hm, hs, if_false, hf]
  rw [hm] at hv1
  simp only [hv1, grow_request, alloc_retry]

theorem alloc_retry_trace (cfg : Config) (c2 c' : pcb_t) (vmaid rgid size : Int) (i : Nat)
    (res : Status Int) (h : alloc_retry cfg c2 vmaid rgid size i = some (res, c')) :
    c'.trace = c2.trace := by
  unfold alloc_retry at h
  split at h
  · next c3 hg =>
    simp only [Option.some.injEq, Prod.mk.injEq] at h
    rw [← h.2, get_free_vmrg_area_failure cfg c2 c3 vmaid size hg]
  · next rg c3 hg =>
    split at h
    · simp at h
    · next c4 hst =>
      split at h
      · simp at h
      · next c5 hsb =>
        simp only [Option.some.injEq, Prod.mk.injEq] at h
        rw [← h.2, (sbrk_commit_bytes c4 c5 i _ _ hsb).2.2,
          (symrgtbl_store_bytes c3 c4 rgid rg hst).choose_spec.choose_spec.2.2.2.2.2.2,
          (get_free_vmrg_area_bytes cfg c2 c3 vmaid size rg hg).2.2.2]

/-- C7: when the VMA exists and the first search of its free list finds no node
of the aligned size, `__alloc` sends exactly one request to the dispatcher, a
`SYSMEM_INC_OP` for `vmaid` with increment `PAGING_PAGE_ALIGNSZ(size)`; it fails
when the dispatcher rejects it; otherwise its outcome is that of one retry of
the search (`alloc_retry`), so it fails when the retry finds nothing; and when
the dispatcher grants `[sbrk, sbrk + aligned)`, in particular from an empty free
list, the call returns the old break and the break becomes `sbrk + aligned`. -/
theorem __alloc_growth (sys : Dispatcher) (cfg : Config) (c : pcb_t) (m : mm_struct)
    (vmaid rgid size : Int) (i : Nat) (vma : vm_area_struct) (hm : c.mm = some m)
    (hsize : 0 < size) (hv : get_vma_by_num (some m) vmaid = some (i, vma))
    (hsmall : ∀ x ∈ vma.vm_freerg_list, rg_len x < PAGING_PAGE_ALIGNSZ cfg size) :
    (∀ res c', __alloc sys cfg c vmaid rgid size = some (res, c') →
        c'.trace = c.trace ++
          [({ a1 := sysmem_op.SYSMEM_INC_OP, a2 := vmaid, a3 := PAGING_PAGE_ALIGNSZ cfg size },
            (sys c 17 (grow_request cfg vmaid size)).1)]) ∧
    ((sys c 17 (grow_request cfg vmaid size)).1 < 0 →
        __alloc sys cfg c vmaid rgid size
          = some (Status.failure, (syscall sys c 17 (grow_request cfg vmaid size)).2.1)) ∧
    (0 ≤ (sys c 17 (grow_request cfg vmaid size)).1 →
        __alloc sys cfg c vmaid rgid size
          = alloc_retry cfg (syscall sys c 17 (grow_request cfg vmaid size)).2.1
              vmaid rgid size i) ∧
    (0 ≤ (sys c 17 (grow_request cfg vmaid size)).1 →
        (get_free_vmrg_area cfg (syscall sys c 17 (grow_request cfg vmaid size)).2.1
            vmaid size).1 = Status.failure →
        __alloc sys cfg c vmaid rgid size
          = some (Status.failure, (syscall sys c 17 (grow_request cfg vmaid size)).2.1)) ∧
    (0 ≤ (sys c 17 (grow_request cfg vmaid size)).1 →
        (sys c 17 (grow_request cfg vmaid size)).2.1
          = grant c vmaid (PAGING_PAGE_ALIGNSZ cfg size) →
        0 ≤ rgid → rgid.toNat < m.symrgtbl.length →
        ∃ c', __alloc sys cfg c vmaid rgid size = some (Status.success vma.sbrk, c') ∧
          vma_sbrk c' i = some (vma.sbrk + PAGING_PAGE_ALIGNSZ cfg size) ∧
          symrg c' rgid
            = some { rg_start := vma.sbrk, rg_end := vma.sbrk + PAGING_PAGE_ALIGNSZ cfg size } ∧
          vma_freerg c' i = some vma.vm_freerg_list) := by
  have heq := alloc_grow_unfold sys cfg c m vmaid rgid size i vma hm hsize hv hsmall
  have hr1 : (syscall sys c 17 (grow_request cfg vmaid size)).1
      = (sys c 17 (grow_request cfg vmaid size)).1 := rfl
  have hi := get_vma_by_num_getElem m vmaid i vma hv
  have hlt : i < m.mmap.length := (List.getElem?_eq_some.1 hi).1
  refine ⟨?_, ?_, ?_, ?_, ?_⟩
  · intro res c' h
    rw [heq] at h
    split at h
    · simp only [Option.some.injEq, Prod.mk.injEq] at h
      rw [← h.2]
      rfl
    · rw [alloc_retry_trace cfg _ c' vmaid rgid size i res h]
      rfl
  · intro hr
    rw [heq, hr1, if_pos hr]
  · intro hr
    have : ¬ (sys c 17 (grow_request cfg vmaid size)).1 < 0 := by omega
    rw [heq, hr1, if_neg this]
  · intro hr hfail
    have : ¬ (sys c 17 (grow_request cfg vmaid size)).1 < 0 := by omega
    rw [heq, hr1, if_neg this]
    unfold alloc_retry
    split
    · next c3 hg =>
      rw [get_free_vmrg_area_failure cfg _ c3 vmaid size hg]
    · next rg c3 hg =>
      rw [hg] at hfail
      simp at hfail
  · intro hr hgrant h0 hk
    have : ¬ (sys c 17 (grow_request cfg vmaid size)).1 < 0 := by omega
    rw [heq, hr1, if_neg this]
    have hgr := get_free_after_grant cfg c m vmaid size i vma
      (c.trace ++ [(grow_request cfg vmaid size, (sys c 17 (grow_request cfg vmaid size)).1)])
      hm hsize hv
    have hst : (syscall sys c 17 (grow_request cfg vmaid size)).2.1
        = { grant c vmaid (PAGING_PAGE_ALIGNSZ cfg size) with
            trace := c.trace ++
              [(grow_request cfg vmaid size, (sys c 17 (grow_request cfg vmaid size)).1)] } := by
      simp only [syscall, hgrant]
    rw [hst]
    unfold alloc_retry
    rw [hgr]
    have hget : (m.mmap.set i vma)[i]? = some vma := by
      simp [List.getElem?_set, hlt]
    simp only [symrgtbl_store, sbrk_commit, set_vma, h0, hk, and_self, if_true, hget]
    refine ⟨_, rfl, ?_, ?_, ?_⟩
    · simp [vma_sbrk, set_vma, List.getElem?_set, hlt]
    · simp [symrg, h0, List.getElem?_set, hk]
    · simp [vma_freerg, set_vma, List.getElem?_set, hlt]

/-- C7, the scenario of the specification with 256-byte pages: empty free list,
break 0, `__alloc` of 100 bytes; one growth request for 256 bytes is sent, the
call returns address 0 and the break becomes 256. -/
theorem __alloc_growth_witness :
    pcb_init.mm = some mm_init ∧ (0 : Int) < 100 ∧
    get_vma_by_num (some mm_init) 0 = some (0, vma_init) ∧
    (∀ x ∈ vma_init.vm_freerg_list, rg_len x < PAGING_PAGE_ALIGNSZ cfg256 100) ∧
    (∃ c', __alloc sys_all cfg256 pcb_init 0 0 100 = some (Status.success 0, c') ∧
      vma_sbrk c' 0 = some 256 ∧
      c'.trace = [({ a1 := sysmem_op.SYSMEM_INC_OP, a2 := 0, a3 := 256 }, 0)]) := by
  have hsmall : ∀ x ∈ vma_init.vm_freerg_list, rg_len x < PAGING_PAGE_ALIGNSZ cfg256 100 := by
    intro x hx
    simp [vma_init] at hx
  have h := __alloc_growth sys_all cfg256 pcb_init mm_init 0 0 100 0 vma_init rfl (by decide)
    (by decide) hsmall
  refine ⟨rfl, by decide, by decide, hsmall, ?_⟩
  obtain ⟨c', hc', hb, _, _⟩ := h.2.2.2.2 (by decide) (by decide) (by decide) (by decide)
  refine ⟨c', hc', hb, ?_⟩
  have ht := h.1 _ c' hc'
  rw [ht]
  decide

/-! ### Page replacement -/

theorem syscall_swap_mm (sys : Dispatcher) (hsys : SwapKeepsMm sys) (c : pcb_t)
    (src dst : Int) :
    (syscall sys c 17 (swap_request src dst)).2.1.mm = c.mm := by
  simp only [syscall]
  exact hsys c 17 (swap_request src dst) rfl

theorem syscall_trace (sys : Dispatcher) (c : pcb_t) (nr : Int) (regs : sc_regs) :
    (syscall sys c nr regs).2.1.trace = c.trace ++ [(regs, (sys c nr regs).1)] := rfl

theorem pgd_update_some (c c2 : pcb_t) (k : Int) (f : pte_t → pte_t)
    (h : pgd_update c k f = some c2) :
    ∃ m p, c.mm = some m ∧ 0 ≤ k ∧ m.pgd[k.toNat]? = some p ∧
      c2 = { c with mm := some { m with pgd := m.pgd.set k.toNat (f p) } } := by
  unfold pgd_update at h
  split at h
  · simp at h
  · next m hm =>
    split at h
    · next hk =>
      split at h
      · simp at h
      · next p hp =>
        simp only [Option.some.injEq] at h
        exact ⟨m, p, hm, hk, hp, h.symm⟩
    · simp at h

/-- C9: for a page `pgn` whose PTE is not Present, when `pg_getpage` succeeds
with victim page `v` (different from `pgn`) at the head of the FIFO chain,
victim entry `vicpte` (frame `f = vicpte.fpn`) and fresh swap slot `s`, under a
dispatcher whose swap requests leave the memory object alone: the dispatcher
received exactly two requests, the swap `(f, s)` and then the swap
`(pte.swpoff, f)`; afterwards PTE[v] is Swapped(s), PTE[pgn] is Present with
frame `f`, `pgn` has been appended to the FIFO chain from which `v` was popped,
the returned frame is `f`, and every other PTE is unchanged. -/
theorem pg_getpage_swap (sys : Dispatcher) (cfg : Config) (c c' : pcb_t) (m : mm_struct)
    (pgn v s fpn : Int) (pte vicpte : pte_t) (fifo_rest sw_rest : List Int)
    (hsys : SwapKeepsMm sys) (hm : c.mm = some m)
    (hpte : m.pgd[pgn.toNat]? = some pte) (hnp : pte.present = false)
    (hfifo : m.fifo_pgn = v :: fifo_rest) (hv0 : 0 ≤ v)
    (hvic : m.pgd[v.toNat]? = some vicpte) (hne : v ≠ pgn)
    (hsw : c.active_mswp.free_fp_list = s :: sw_rest)
    (h : pg_getpage sys cfg c pgn = some (Status.success fpn, c')) :
    fpn = vicpte.fpn ∧
    (∃ r1 r2, 0 ≤ r1 ∧ 0 ≤ r2 ∧
      c'.trace = c.trace ++
        [({ a1 := sysmem_op.SYSMEM_SWP_OP, a2 := vicpte.fpn, a3 := s }, r1),
         ({ a1 := sysmem_op.SYSMEM_SWP_OP, a2 := pte.swpoff, a3 := vicpte.fpn }, r2)]) ∧
    pte_at c' v.toNat = some { vicpte with present := false, swpoff := s } ∧
    pte_at c' pgn.toNat = some { pte with present := true, fpn := vicpte.fpn } ∧
    fifo_of c' = fifo_rest ++ [pgn] ∧
    (∀ k, k ≠ v.toNat → k ≠ pgn.toNat → pte_at c' k = pte_at c k) := by
  unfold pg_getpage at h
  simp only [hm] at h
  split at h
  · simp at h
  · next hrange =>
    simp only [hpte, PAGING_PAGE_PRESENT, hnp, find_victim_page, hfifo, pgd_read, hv0,
      if_true, hvic, MEMPHY_get_freefp, hsw, PAGING_FPN, PAGING_PTE_SWP] at h
    simp only [Bool.false_eq_true, if_false] at h
    split at h
    · simp at h
    · next hr1 =>
      split at h
      · simp at h
      · next c3 hu1 =>
        split at h
        · simp at h
        · next hr2 =>
          split at h
          · simp at h
          · next c4 hu2 =>
            split at h
            · simp at h
            · next m4 hm4 =>
              simp only [Option.some.injEq, Prod.mk.injEq, Status.success.injEq] at h
              obtain ⟨hf, hc'⟩ := h
              obtain ⟨m1, p1, hm1, _, hp1, hc3⟩ := pgd_update_some _ c3 v _ hu1
              have e1 := syscall_swap_mm sys hsys
                { c with mm := some { m with fifo_pgn := fifo_rest },
                         active_mswp := { c.active_mswp with free_fp_list := sw_rest } }
                vicpte.fpn s
              simp only [swap_request] at e1
              rw [e1] at hm1
              simp only [Option.some.injEq] at hm1
              subst hm1
              simp only [hvic, Option.some.injEq] at hp1
              subst hp1
              obtain ⟨m2, p2, hm2, hpg0, hp2, hc4⟩ := pgd_update_some _ c4 pgn _ hu2
              have e2 := syscall_swap_mm sys hsys c3 pte.swpoff vicpte.fpn
              simp only [swap_request] at e2
              rw [e2, hc3] at hm2
              simp only [Option.some.injEq] at hm2
              subst hm2
              have hvn : v.toNat ≠ pgn.toNat := by omega
              have hvn' : ¬ (v.toNat = pgn.toNat) := hvn
              simp only [List.getElem?_set, hvn', if_false, hpte, Option.some.injEq] at hp2
              subst hp2
              have hvlt : v.toNat < m.pgd.length := (List.getElem?_eq_some.1 hvic).1
              have hplt : pgn.toNat < m.pgd.length := (List.getElem?_eq_some.1 hpte).1
              rw [hc4] at hm4
              simp only [Option.some.injEq] at hm4
              subst hm4
              subst hc'
              refine ⟨hf.symm,
                ⟨(sys { c with mm := some { m with fifo_pgn := fifo_rest },
                               active_mswp := { c.active_mswp with free_fp_list := sw_rest } }
                    17 { a1 := sysmem_op.SYSMEM_SWP_OP, a2 := vicpte.fpn, a3 := s }).1,
                 (sys c3 17 { a1 := sysmem_op.SYSMEM_SWP_OP, a2 := pte.swpoff,
                              a3 := vicpte.fpn }).1,
                 not_lt.1 hr1, not_lt.1 hr2, ?_⟩,
                ?_, ?_, ?_, ?_⟩
              · rw [hc4]
                simp only [syscall_trace]
                rw [hc3]
                simp only [syscall_trace, List.append_assoc, List.singleton_append]
              · have : ¬ (pgn.toNat = v.toNat) := fun e => hvn e.symm
                simp [pte_at, List.getElem?_set, this, hvlt, pte_set_swap]
              · simp [pte_at, List.getElem?_set, hplt, PAGING_PTE_SET_PRESENT, pte_set_fpn]
              · simp [fifo_of, enlist_pgn_node]
              · intro k hk1 hk2
                have h1 : ¬ (v.toNat = k) := fun e => hk1 e.symm
                have h2 : ¬ (pgn.toNat = k) := fun e => hk2 e.symm
                simp [pte_at, hm, List.getElem?_set, h1, h2]

theorem ref_dispatcher_swapKeepsMm (accept : sc_regs → Bool) :
    SwapKeepsMm (ref_dispatcher accept) := by
  intro caller nr regs hreg
  unfold ref_dispatcher
  by_cases ha : accept regs = true
  · simp [ha, hreg]
  · simp [ha]

/-- C9 at a concrete fault: page 0 is resident in frame 0, page 1 is in swap slot
3, the swap pool offers slot 5; the fault on page 1 sends the swaps `(0,5)` and
`(3,0)`, page 0 becomes Swapped(5), page 1 Present in frame 0, the FIFO chain
becomes `[1]` and frame 0 is returned. -/
theorem pg_getpage_swap_witness :
    pcb_pg.mm = some mm_pg ∧ mm_pg.pgd[(1 : Int).toNat]? = some pte_swp ∧
    pte_swp.present = false ∧ mm_pg.fifo_pgn = [0] ∧ mm_pg.pgd[(0 : Int).toNat]? = some pte_res ∧
    pcb_pg.active_mswp.free_fp_list = [5, 6] ∧
    pg_getpage sys_all cfg256 pcb_pg 1 = some (Status.success 0, pcb_pg_after) ∧
    pte_at pcb_pg_after 0 = some { present := false, dirty := false, fpn := 0, swpoff := 5 } ∧
    pte_at pcb_pg_after 1 = some { present := true, dirty := false, fpn := 0, swpoff := 3 } ∧
    fifo_of pcb_pg_after = [1] ∧
    pcb_pg_after.trace
      = [({ a1 := sysmem_op.SYSMEM_SWP_OP, a2 := 0, a3 := 5 }, 0),
         ({ a1 := sysmem_op.SYSMEM_SWP_OP, a2 := 3, a3 := 0 }, 0)] := by
  have h := pg_getpage_swap sys_all cfg256 pcb_pg pcb_pg_after mm_pg 1 0 5 0 pte_swp pte_res
    [] [6] (ref_dispatcher_swapKeepsMm _) rfl (by decide) rfl rfl (by decide) (by decide)
    (by decide) rfl (by decide)
  exact ⟨rfl, by decide, rfl, rfl, by decide, rfl, by decide, h.2.2.1, h.2.2.2.1,
    h.2.2.2.2.1, by decide⟩

/-- C8, evaluation at a failing input: page 0 is Present and is the only entry
of the FIFO chain, page 1 is swapped out and the swap pool has no free slot.
Before the call the chain has as many entries as there are Present PTEs (one).
`pg_getpage` of page 1 (and `pg_getval`, `pg_setval` at address 256) returns an
error after `find_victim_page` has unlinked page 0: the chain is empty while
page 0 is still Present. -/
theorem fifo_shorter_after_failed_fault :
    (fifo_of pcb_noswp).length = present_count pcb_noswp ∧
    (pg_getpage sys_all cfg256 pcb_noswp 1).map
        (fun r => (r.1, (fifo_of r.2).length, present_count r.2))
      = some (Status.failure, 0, 1) ∧
    (pg_getval sys_all cfg256 pcb_noswp 256).map
        (fun r => (r.1, (fifo_of r.2).length, present_count r.2))
      = some (Status.failure, 0, 1) ∧
    (pg_setval sys_all cfg256 pcb_noswp 256 7).map
        (fun r => (r.1, (fifo_of r.2).length, present_count r.2))
      = some (-1, 0, 1) := by
  decide

/-- C10, evaluation at failing inputs: with page 0 resident and alone in the FIFO
chain and page 1 swapped out, `pg_getpage` of page 1 returns an error (a) when
the swap pool is empty, (b) when the dispatcher rejects the first swap copy and
(c) when it rejects the second; in each case the FIFO chain has lost page 0, and
in (c) the PTE of page 0 has also been rewritten to Swapped(5). -/
theorem pg_getpage_failure_mutates :
    fifo_of pcb_pg = [0] ∧ pte_at pcb_pg 0 = some pte_res ∧
    (pg_getpage sys_all cfg256 pcb_noswp 1).map
        (fun r => (r.1, fifo_of r.2, pte_at r.2 0))
      = some (Status.failure, [], some pte_res) ∧
    (pg_getpage sys_noswap cfg256 pcb_pg 1).map
        (fun r => (r.1, fifo_of r.2, pte_at r.2 0, r.2.active_mswp.free_fp_list))
      = some (Status.failure, [], some pte_res, [6]) ∧
    (pg_getpage sys_rej3 cfg256 pcb_pg 1).map
        (fun r => (r.1, fifo_of r.2, pte_at r.2 0))
      = some (Status.failure, [],
          some { present := false, dirty := false, fpn := 0, swpoff := 5 }) := by
  decide

/-! ### Physical I/O status, teardown, region-id bounds -/

/-- C13, evaluation at a failing input: page 0 is Present in frame 0 and the
dispatcher rejects physical reads and writes with status -1. `pg_getval` and
`libread` at address 0 still return 0, with the byte 0 that was in `regs.a3`
before the call; `pg_setval` and `libwrite` of 7 still return 0 and set the
Dirty bit of page 0 although physical memory is unchanged. -/
theorem io_status_ignored :
    (pg_getval sys_noio cfg256 pcb_pg 0).map (fun r => (r.1, r.2.trace))
      = some (Status.success 0,
          [({ a1 := sysmem_op.SYSMEM_IO_READ, a2 := 0, a3 := 0 }, -1)]) ∧
    (libread sys_noio cfg256 pcb_pg 0 0).map Prod.fst = some (Status.success 0) ∧
    (pg_setval sys_noio cfg256 pcb_pg 0 7).map
        (fun r => (r.1, pte_at r.2 0, r.2.mram.storage, r.2.trace))
      = some (0, some { present := true, dirty := true, fpn := 0, swpoff := 0 }, [65, 66],
          [({ a1 := sysmem_op.SYSMEM_IO_WRITE, a2 := 0, a3 := 7 }, -1)]) ∧
    (libwrite sys_noio cfg256 pcb_pg 7 0 0).map (fun r => (r.1, pte_at r.2 0))
      = some (0, some { present := true, dirty := true, fpn := 0, swpoff := 0 }) := by
  decide

/-- C14, evaluation at a failing input: page 0 is Present in frame 2 and page 1 is
Swapped in slot 7. `free_pcb_memph` returns 0 having put frame 2 on the free list
of the swap pool `active_mswp` and slot 7 on the free list of the physical pool
`mram`: the two pools are interchanged. With a missing process or a missing
memory object it returns -1. -/
theorem free_pcb_memph_pools_interchanged :
    (free_pcb_memph cfg2pg (some pcb_tear)).map
        (fun r => (r.1, r.2.map (fun c => (c.mram.free_fp_list, c.active_mswp.free_fp_list))))
      = some (0, some ([7], [2])) ∧
    free_pcb_memph cfg2pg none = some (-1, none) ∧
    free_pcb_memph cfg2pg (some { pcb_tear with mm := none })
      = some (-1, some { pcb_tear with mm := none }) := by
  decide

/-- C15, evaluation at failing inputs, the symbol table having 4 slots
(`PAGING_MAX_SYMTBL_SZ = 4`): with region id 4, `__free`, `__read` and `__write`
pass the guard `rgid > PAGING_MAX_SYMTBL_SZ` of `get_symrg_byid` and access slot
4, outside the table; `__alloc`, which has no guard, stores into slot 4, 7 or -1
as soon as a region was carved (from the free list or after heap growth). Ids
below 0 or above 4 are rejected by `__free`, `__read` and `__write`. -/
theorem region_id_out_of_range_faults :
    __free cfg256 pcb_used 0 4 = none ∧
    __read sys_all cfg256 pcb_pg 0 4 0 = none ∧
    __write sys_all cfg256 pcb_pg 0 4 0 7 = none ∧
    __alloc sys_all cfg256 pcb_brk 0 4 100 = none ∧
    __alloc sys_all cfg256 pcb_brk 0 7 100 = none ∧
    __alloc sys_all cfg256 pcb_brk 0 (-1) 100 = none ∧
    __alloc sys_all cfg256 pcb_init 0 4 100 = none ∧
    (__free cfg256 pcb_used 0 5).map Prod.fst = some (-1) ∧
    (__free cfg256 pcb_used 0 (-1)).map Prod.fst = some (-1) ∧
    (__read sys_all cfg256 pcb_pg 0 5 0).map Prod.fst = some Status.failure ∧
    (__write sys_all cfg256 pcb_pg 0 (-1) 0 7).map Prod.fst = some (-1) := by
  decide

/-! ### Free followed by allocate -/

theorem list_set_same {α : Type} (l : List α) (i : Nat) (a : α) (h : l[i]? = some a) :
    l.set i a = l := by
  induction l generalizing i with
  | nil => rfl
  | cons x t ih =>
    cases i with
    | zero =>
      simp at h
      subst h
      rfl
    | succ j =>
      simp at h
      simp [ih j h]

/-- Round trip on the first VMA of the chain: for a process whose first VMA is
the VMA `vmaid`, an in-range slot `rgid`
holding the active region `[a, b)` with `0 <= a < b`, and a size `s > 0` whose
page-aligned value is `b - a`: `__free` of `rgid` returns 0 and the following
`__alloc` of `rgid` with size `s` returns 0 with address `a` in the very state
the process had before the free, so no request was sent to the dispatcher, the
slot holds `[a, b)` again and the free list is as before the free. -/
theorem free_then_alloc_roundtrip (sys : Dispatcher) (cfg : Config) (c : pcb_t)
    (m : mm_struct) (vma : vm_area_struct) (vm_next : List vm_area_struct)
    (vmaid rgid size a b : Int)
    (hm : c.mm = some m) (hmap : m.mmap = vma :: vm_next) (hid : vma.vm_id = vmaid)
    (h0 : 0 ≤ rgid) (hlt : rgid < (cfg.PAGING_MAX_SYMTBL_SZ : Int))
    (hsym : m.symrgtbl[rgid.toNat]? = some { rg_start := a, rg_end := b })
    (ha : 0 ≤ a) (hab : a < b) (hsize : 0 < size)
    (hal : PAGING_PAGE_ALIGNSZ cfg size = b - a) :
    __free cfg c vmaid rgid
      = some (0, freed_state c m vma vm_next rgid.toNat { rg_start := a, rg_end := b }) ∧
    __alloc sys cfg (freed_state c m vma vm_next rgid.toNat { rg_start := a, rg_end := b })
        vmaid rgid size
      = some (Status.success a, c) := by
  have hguard : ¬ (rgid < 0 ∨ rgid > (cfg.PAGING_MAX_SYMTBL_SZ : Int)) := by omega
  have hk : rgid.toNat < m.symrgtbl.length := (List.getElem?_eq_some.1 hsym).1
  have hs : ¬ size ≤ 0 := by omega
  constructor
  · have h1 : ¬ (a < 0 ∨ b ≤ a) := by omega
    have h2 : ¬ (a ≥ b) := by omega
    simp [__free, hm, get_symrg_byid, hguard, hsym, h1, h2, ha, hab,
      enlist_vm_freerg_list, hmap, freed_state]
  · have hfit : first_fit (PAGING_PAGE_ALIGNSZ cfg size)
        ({ rg_start := a, rg_end := b } :: vma.vm_freerg_list)
        = some ({ rg_start := a, rg_end := b }, vma.vm_freerg_list) := by
      have e : a + (b - a) = b := by omega
      simp [first_fit, hal, e]
    have hset : (m.symrgtbl.set rgid.toNat sentinel).set rgid.toNat { rg_start := a, rg_end := b }
        = m.symrgtbl := by
      rw [List.set_set]
      exact list_set_same _ _ _ hsym
    have hlen : rgid.toNat < (m.symrgtbl.set rgid.toNat sentinel).length := by
      simp [hk]
    cases c with
    | mk cmm cmram cswp ctrace =>
      cases m with
      | mk mmmap msym mpgd mfifo =>
        cases vma with
        | mk vid vbrk vfl =>
          simp only at hm hmap hid hsym hset hlen hfit
          subst hm
          subst hmap
          simp only [__alloc, freed_state, hs, if_false, get_free_vmrg_area, get_vma_by_num,
            find_vma, hid, if_true, hfit, set_vma, List.set_cons_zero, symrgtbl_store, h0,
            hlen, and_self, hset]

/-- The round trip at a concrete state: slot 1 holds `[100,105)`, the page granularity is 5;
freeing slot 1 and allocating 5 bytes under id 1 returns address 100 and gives
back the state before the free. -/
theorem free_then_alloc_roundtrip_witness :
    pcb_used.mm = some mm_used ∧ mm_used.mmap = [vma_fit] ∧ vma_fit.vm_id = 0 ∧
    (0 : Int) ≤ 1 ∧ (1 : Int) < (cfg5.PAGING_MAX_SYMTBL_SZ : Int) ∧
    (0 : Int) ≤ 100 ∧ (100 : Int) < 105 ∧ (0 : Int) < 5 ∧
    PAGING_PAGE_ALIGNSZ cfg5 5 = 105 - 100 ∧
    __free cfg5 pcb_used 0 1
      = some (0, freed_state pcb_used mm_used vma_fit [] 1 { rg_start := 100, rg_end := 105 }) ∧
    __alloc sys_all cfg5
        (freed_state pcb_used mm_used vma_fit [] 1 { rg_start := 100, rg_end := 105 }) 0 1 5
      = some (Status.success 100, pcb_used) := by
  have h := free_then_alloc_roundtrip sys_all cfg5 pcb_used mm_used vma_fit [] 0 1 5 100 105
    rfl rfl rfl (by decide) (by decide) (by decide) (by decide) (by decide) (by decide)
    (by decide)
  exact ⟨rfl, rfl, rfl, by decide, by decide, by decide, by decide, by decide, by decide,
    h.1, h.2⟩

/-! ### Byte access -/

theorem mem_read_write (storage : List Int) (addr v : Int) :
    mem_read (mem_write storage addr v) addr = v := by
  unfold mem_read mem_write
  have hlen : addr.toNat
      < (storage ++ List.replicate (addr.toNat + 1 - storage.length) 0).length := by
    simp only [List.length_append, List.length_replicate]
    omega
  rw [List.getD_eq_getElem?_getD, List.getElem?_set_self hlen]
  rfl

theorem pg_getpage_hit (sys : Dispatcher) (cfg : Config) (c : pcb_t) (m : mm_struct)
    (pgn : Int) (pte : pte_t) (hm : c.mm = some m) (h0 : 0 ≤ pgn)
    (hlt : pgn < (cfg.PAGING_MAX_PGN : Int)) (hpte : m.pgd[pgn.toNat]? = some pte)
    (hp : pte.present = true) :
    pg_getpage sys cfg c pgn = some (Status.success pte.fpn, c) := by
  have hr : ¬ (pgn < 0 ∨ pgn ≥ (cfg.PAGING_MAX_PGN : Int)) := by omega
  simp [pg_getpage, hm, hr, hpte, PAGING_PAGE_PRESENT, hp, PAGING_FPN]

/-- After a successful `pg_getpage` the page number is in range and the entry of
the page is Present with the returned frame. -/
theorem pg_getpage_success_pte (sys : Dispatcher) (cfg : Config) (c c' : pcb_t)
    (pgn fpn : Int) (h : pg_getpage sys cfg c pgn = some (Status.success fpn, c')) :
    0 ≤ pgn ∧ pgn < (cfg.PAGING_MAX_PGN : Int) ∧
    ∃ m p, c'.mm = some m ∧ m.pgd[pgn.toNat]? = some p ∧ p.present = true ∧ p.fpn = fpn := by
  unfold pg_getpage at h
  split at h
  · simp at h
  · next m hm =>
    split at h
    · simp at h
    · next hr =>
      refine ⟨by omega, by omega, ?_⟩
      split at h
      · simp at h
      · next pte hpte =>
        split at h
        · next hp =>
          simp only [Option.some.injEq, Prod.mk.injEq, Status.success.injEq] at h
          obtain ⟨hf, hc⟩ := h
          subst hc
          exact ⟨m, pte, hm, hpte, hp, hf⟩
        · split at h
          · simp at h
          · try simp only at h
            split at h
            · simp at h
            · split at h
              · simp at h
              · try simp only at h
                split at h
                · simp at h
                · split at h
                  · simp at h
                  · try simp only at h
                    split at h
                    · simp at h
                    · split at h
                      · simp at h
                      · next c4 hu2 =>
                        split at h
                        · simp at h
                        · next m4 hm4 =>
                          simp only [Option.some.injEq, Prod.mk.injEq,
                            Status.success.injEq] at h
                          obtain ⟨hf, hc⟩ := h
                          subst hc
                          obtain ⟨m2, p2, _, hpg0, hp2, hc4⟩ := pgd_update_some _ c4 pgn _ hu2
                          rw [hc4] at hm4
                          simp only [Option.some.injEq] at hm4
                          subst hm4
                          have hlt2 : pgn.toNat < m2.pgd.length :=
                            (List.getElem?_eq_some.1 hp2).1
                          refine ⟨_, _, rfl, List.getElem?_set_self hlt2, ?_, ?_⟩
                          · simp [PAGING_PTE_SET_PRESENT]
                          · simp only [PAGING_PTE_SET_PRESENT, pte_set_fpn, PAGING_FPN] at hf ⊢
                            exact hf

/-- C12: under a dispatcher that performs the requested physical reads and
writes (and leaves the memory object alone while doing so), if
`pg_setval(addr, v)` with a byte `v` returns 0 then the entry of the page of
`addr` is Present, the write went to the physical address
`(frame << PAGING_ADDR_FPN_LOBIT) + offset`, and an immediately following
`pg_getval(addr)` returns 0 with the value `v`; it sends exactly one request,
the physical read of that same address (no swap request: no page fault), and
leaves the page table and the FIFO chain as they were. -/
theorem write_then_read (sys : Dispatcher) (cfg : Config) (c c1 : pcb_t) (addr v : Int)
    (hio : IoKeepsMm sys) (hrw : ReadsBackWrites sys) (hv0 : 0 ≤ v) (hv1 : v < 256)
    (h : pg_setval sys cfg c addr v = some (0, c1)) :
    ∃ p, pte_at c1 (PAGING_PGN cfg addr).toNat = some p ∧ p.present = true ∧
      (∃ t r, c1.trace = t ++
        [({ a1 := sysmem_op.SYSMEM_IO_WRITE,
            a2 := p.fpn * 2 ^ cfg.PAGING_ADDR_FPN_LOBIT + PAGING_OFFST cfg addr,
            a3 := v }, r)]) ∧
      ∃ c2 r, pg_getval sys cfg c1 addr = some (Status.success v, c2) ∧
        c2.trace = c1.trace ++
          [({ a1 := sysmem_op.SYSMEM_IO_READ,
              a2 := p.fpn * 2 ^ cfg.PAGING_ADDR_FPN_LOBIT + PAGING_OFFST cfg addr,
              a3 := 0 }, r)] ∧
        c2.mm = c1.mm := by
  unfold pg_setval at h
  split at h
  · simp at h
  · simp only at h
    split at h
    · simp at h
    · simp at h
    · next fpn cg hg =>
      split at h
      · simp at h
      · next c1' hu =>
        simp only [Option.some.injEq, Prod.mk.injEq, true_and] at h
        subst h
        obtain ⟨hp0, hplt, mg, p, hmg, hp, hpp, hpf⟩ :=
          pg_getpage_success_pte sys cfg c cg (PAGING_PGN cfg addr) fpn hg
        obtain ⟨mw, pw, hmw, _, hpw, hc1⟩ := pgd_update_some _ c1' _ _ hu
        have emm : (syscall sys cg 17
            { a1 := sysmem_op.SYSMEM_IO_WRITE,
              a2 := fpn * 2 ^ cfg.PAGING_ADDR_FPN_LOBIT + PAGING_OFFST cfg addr,
              a3 := v }).2.1.mm = cg.mm := by
          simp only [syscall]
          exact hio cg 17 _ (Or.inr rfl)
        rw [emm, hmg] at hmw
        simp only [Option.some.injEq] at hmw
        subst hmw
        rw [hp] at hpw
        simp only [Option.some.injEq] at hpw
        subst hpw
        have hlt : (PAGING_PGN cfg addr).toNat < mg.pgd.length :=
          (List.getElem?_eq_some.1 hp).1
        have hentry : (mg.pgd.set (PAGING_PGN cfg addr).toNat
              (PAGING_PTE_SET_DIRTY (PAGING_PTE_SET_PRESENT p)))[(PAGING_PGN cfg addr).toNat]?
            = some (PAGING_PTE_SET_DIRTY (PAGING_PTE_SET_PRESENT p)) :=
          List.getElem?_set_self hlt
        have hfpn : (PAGING_PTE_SET_DIRTY (PAGING_PTE_SET_PRESENT p)).fpn = fpn := by
          simp [PAGING_PTE_SET_DIRTY, PAGING_PTE_SET_PRESENT, hpf]
        have hpres : (PAGING_PTE_SET_DIRTY (PAGING_PTE_SET_PRESENT p)).present = true := by
          simp [PAGING_PTE_SET_DIRTY, PAGING_PTE_SET_PRESENT]
        have hc1mm : c1'.mm = some { mg with
            pgd := mg.pgd.set (PAGING_PGN cfg addr).toNat
              (PAGING_PTE_SET_DIRTY (PAGING_PTE_SET_PRESENT p)) } := by
          rw [hc1]
        have hhit := pg_getpage_hit sys cfg c1' _ (PAGING_PGN cfg addr) _ hc1mm hp0 hplt
          hentry hpres
        have hmram : c1'.mram = (sys cg 17
            { a1 := sysmem_op.SYSMEM_IO_WRITE,
              a2 := fpn * 2 ^ cfg.PAGING_ADDR_FPN_LOBIT + PAGING_OFFST cfg addr,
              a3 := v }).2.1.mram := by
          rw [hc1]
          rfl
        have hread := hrw cg c1' 17
          (fpn * 2 ^ cfg.PAGING_ADDR_FPN_LOBIT + PAGING_OFFST cfg addr) v 0 hmram
        refine ⟨PAGING_PTE_SET_DIRTY (PAGING_PTE_SET_PRESENT p),
          by simp only [pte_at, hc1mm]; exact hentry, hpres,
          ⟨cg.trace, (sys cg 17
            { a1 := sysmem_op.SYSMEM_IO_WRITE,
              a2 := fpn * 2 ^ cfg.PAGING_ADDR_FPN_LOBIT + PAGING_OFFST cfg addr,
              a3 := v }).1, ?_⟩, ?_⟩
        · rw [hc1, hfpn]
          rfl
        · refine ⟨(syscall sys c1' 17
              { a1 := sysmem_op.SYSMEM_IO_READ,
                a2 := fpn * 2 ^ cfg.PAGING_ADDR_FPN_LOBIT + PAGING_OFFST cfg addr,
                a3 := 0 }).2.1,
            (sys c1' 17
              { a1 := sysmem_op.SYSMEM_IO_READ,
                a2 := fpn * 2 ^ cfg.PAGING_ADDR_FPN_LOBIT + PAGING_OFFST cfg addr,
                a3 := 0 }).1, ?_, ?_, ?_⟩
          · unfold pg_getval
            simp only [hc1mm, hhit, hfpn]
            simp only [syscall, hread]
            have : v % 256 = v := Int.emod_eq_of_lt hv0 hv1
            rw [this]
          · rw [hfpn]
            rfl
          · simp only [syscall]
            exact hio c1' 17 _ (Or.inl rfl)

theorem ref_dispatcher_ioKeepsMm (accept : sc_regs → Bool) :
    IoKeepsMm (ref_dispatcher accept) := by
  intro caller nr regs hreg
  unfold ref_dispatcher
  by_cases ha : accept regs = true
  · rcases hreg with hreg | hreg <;> simp [ha, hreg]
  · simp [ha]

theorem sys_all_readsBackWrites : ReadsBackWrites sys_all := by
  intro c c2 nr phy v a3 hmram
  simp only [sys_all, ref_dispatcher, if_true] at hmram ⊢
  rw [hmram]
  exact mem_read_write _ _ _

/-- C12 at a concrete access: writing 7 at address 300 of `pcb_pg` faults page 1
into frame 0 and writes physical address 44; the following read of address 300
returns 7 without a fault. -/
theorem write_then_read_witness :
    IoKeepsMm sys_all ∧ ReadsBackWrites sys_all ∧ (0 : Int) ≤ 7 ∧ (7 : Int) < 256 ∧
    pg_setval sys_all cfg256 pcb_pg 300 7 = some (0, pcb_pg_written) ∧
    (pg_getval sys_all cfg256 pcb_pg_written 300).map Prod.fst = some (Status.success 7) ∧
    pte_at pcb_pg_written 1 = some { present := true, dirty := true, fpn := 0, swpoff := 3 } := by
  have hyp : pg_setval sys_all cfg256 pcb_pg 300 7 = some (0, pcb_pg_written) := by decide
  obtain ⟨p, _, _, _, c2, r, hread, _, _⟩ :=
    write_then_read sys_all cfg256 pcb_pg pcb_pg_written 300 7 (ref_dispatcher_ioKeepsMm _)
      sys_all_readsBackWrites (by decide) (by decide) hyp
  refine ⟨ref_dispatcher_ioKeepsMm _, sys_all_readsBackWrites, by decide, by decide, hyp, ?_,
    by decide⟩
  rw [hread]
  rfl

/-! ### FIFO order of the victims -/

theorem pg_getpage_success_inv (sys : Dispatcher) (cfg : Config) (c c' : pcb_t)
    (pgn fpn : Int) (h : pg_getpage sys cfg c pgn = some (Status.success fpn, c')) :
    ∃ m pte, c.mm = some m ∧ 0 ≤ pgn ∧ pgn < (cfg.PAGING_MAX_PGN : Int) ∧
      m.pgd[pgn.toNat]? = some pte ∧ (pte.present = true → c' = c) := by
  unfold pg_getpage at h
  split at h
  · simp at h
  · next m hm =>
    split at h
    · simp at h
    · next hr =>
      split at h
      · simp at h
      · next pte hpte =>
        refine ⟨m, pte, hm, by omega, by omega, hpte, ?_⟩
        intro hp
        simp only [PAGING_PAGE_PRESENT, hp, if_true, Option.some.injEq, Prod.mk.injEq] at h
        exact h.2.symm

theorem pg_getpage_fault_inv (sys : Dispatcher) (cfg : Config) (c c' : pcb_t) (m : mm_struct)
    (pgn fpn : Int) (pte : pte_t) (hsys : SwapKeepsMm sys) (hm : c.mm = some m)
    (hpte : m.pgd[pgn.toNat]? = some pte) (hnp : pte.present = false)
    (h : pg_getpage sys cfg c pgn = some (Status.success fpn, c')) :
    ∃ v fifo_rest vicpte s p2, m.fifo_pgn = v :: fifo_rest ∧ 0 ≤ v ∧
      m.pgd[v.toNat]? = some vicpte ∧ fpn = vicpte.fpn ∧
      (m.pgd.set v.toNat (pte_set_swap vicpte 0 s))[pgn.toNat]? = some p2 ∧
      c'.mm = some { m with
        pgd := (m.pgd.set v.toNat (pte_set_swap vicpte 0 s)).set pgn.toNat
                 (PAGING_PTE_SET_PRESENT (pte_set_fpn p2 vicpte.fpn)),
        fifo_pgn := fifo_rest ++ [pgn] } := by
  unfold pg_getpage at h
  simp only [hm] at h
  split at h
  · simp at h
  · next hrange =>
    simp only [hpte, PAGING_PAGE_PRESENT, hnp] at h
    simp only [Bool.false_eq_true, if_false] at h
    cases hfifo : m.fifo_pgn with
    | nil => simp [find_victim_page, hfifo] at h
    | cons v fifo_rest =>
      simp only [find_victim_page, hfifo, pgd_read] at h
      by_cases hv0 : 0 ≤ v
      · simp only [hv0, if_true] at h
        cases hvic : m.pgd[v.toNat]? with
        | none => simp [hvic] at h
        | some vicpte =>
          simp only [hvic, MEMPHY_get_freefp] at h
          cases hsw : c.active_mswp.free_fp_list with
          | nil => simp [hsw] at h
          | cons s sw_rest =>
            simp only [hsw, PAGING_FPN, PAGING_PTE_SWP] at h
            split at h
            · simp at h
            · split at h
              · simp at h
              · next c3 hu1 =>
                split at h
                · simp at h
                · split at h
                  · simp at h
                  · next c4 hu2 =>
                    split at h
                    · simp at h
                    · next m4 hm4 =>
                      simp only [Option.some.injEq, Prod.mk.injEq, Status.success.injEq] at h
                      obtain ⟨hf, hc'⟩ := h
                      obtain ⟨m1, p1, hm1, _, hp1, hc3⟩ := pgd_update_some _ c3 v _ hu1
                      have e1 := syscall_swap_mm sys hsys
                        { c with mm := some { m with fifo_pgn := fifo_rest },
                                 active_mswp := { c.active_mswp with free_fp_list := sw_rest } }
                        vicpte.fpn s
                      simp only [swap_request] at e1
                      rw [e1] at hm1
                      simp only [Option.some.injEq] at hm1
                      subst hm1
                      simp only [hvic, Option.some.injEq] at hp1
                      subst hp1
                      obtain ⟨m2, p2, hm2, hpg0, hp2, hc4⟩ := pgd_update_some _ c4 pgn _ hu2
                      have e2 := syscall_swap_mm sys hsys c3 pte.swpoff vicpte.fpn
                      simp only [swap_request] at e2
                      rw [e2, hc3] at hm2
                      simp only [Option.some.injEq] at hm2
                      subst hm2
                      rw [hc4] at hm4
                      simp only [Option.some.injEq] at hm4
                      subst hm4
                      subst hc'
                      exact ⟨v, fifo_rest, vicpte, s, p2, rfl, hv0, hvic, hf.symm, hp2, rfl⟩
      · simp [hv0] at h

theorem pg_getval_inv (sys : Dispatcher) (cfg : Config) (c c1 : pcb_t) (addr b : Int)
    (h : pg_getval sys cfg c addr = some (Status.success b, c1)) :
    ∃ fpn cg, pg_getpage sys cfg c (PAGING_PGN cfg addr) = some (Status.success fpn, cg) ∧
      c1 = (syscall sys cg 17
              { a1 := sysmem_op.SYSMEM_IO_READ,
                a2 := fpn * 2 ^ cfg.PAGING_ADDR_FPN_LOBIT + PAGING_OFFST cfg addr,
                a3 := 0 }).2.1 := by
  unfold pg_getval at h
  split at h
  · simp at h
  · simp only at h
    split at h
    · simp at h
    · simp at h
    · next fpn cg hg =>
      simp only [Option.some.injEq, Prod.mk.injEq] at h
      exact ⟨fpn, cg, hg, h.2.symm⟩

theorem pg_setval_inv (sys : Dispatcher) (cfg : Config) (c c1 : pcb_t) (addr v : Int)
    (h : pg_setval sys cfg c addr v = some (0, c1)) :
    ∃ fpn cg, pg_getpage sys cfg c (PAGING_PGN cfg addr) = some (Status.success fpn, cg) ∧
      pgd_update
        (syscall sys cg 17
          { a1 := sysmem_op.SYSMEM_IO_WRITE,
            a2 := fpn * 2 ^ cfg.PAGING_ADDR_FPN_LOBIT + PAGING_OFFST cfg addr,
            a3 := v }).2.1
        (PAGING_PGN cfg addr) (fun p => PAGING_PTE_SET_DIRTY (PAGING_PTE_SET_PRESENT p))
        = some c1 := by
  unfold pg_setval at h
  split at h
  · simp at h
  · simp only at h
    split at h
    · simp at h
    · simp at h
    · next fpn cg hg =>
      split at h
      · simp at h
      · next c2 hu =>
        simp only [Option.some.injEq, Prod.mk.injEq, true_and] at h
        subst h
        exact ⟨fpn, cg, hg, hu⟩

theorem fifo_of_pgd_update (c c2 : pcb_t) (k : Int) (f : pte_t → pte_t)
    (h : pgd_update c k f = some c2) : fifo_of c2 = fifo_of c := by
  obtain ⟨m, p, hm, _, _, hc⟩ := pgd_update_some c c2 k f h
  subst hc
  simp [fifo_of, hm]

theorem fifo_of_syscall_io (sys : Dispatcher) (hio : IoKeepsMm sys) (c : pcb_t)
    (regs : sc_regs)
    (hreg : regs.a1 = sysmem_op.SYSMEM_IO_READ ∨ regs.a1 = sysmem_op.SYSMEM_IO_WRITE) :
    fifo_of (syscall sys c 17 regs).2.1 = fifo_of c := by
  have : (syscall sys c 17 regs).2.1.mm = c.mm := by
    simp only [syscall]
    exact hio c 17 regs hreg
  simp only [fifo_of, this]

theorem fetch_step (sys : Dispatcher) (cfg : Config) (c c1 : pcb_t) (pgn fpn : Int)
    (hsw : SwapKeepsMm sys) (h : pg_getpage sys cfg c pgn = some (Status.success fpn, c1)) :
    (page_present c pgn = true → fifo_of c1 = fifo_of c) ∧
    (page_present c pgn = false →
      (fifo_of c).head?.toList ++ fifo_of c1 = fifo_of c ++ [pgn]) := by
  obtain ⟨m, pte, hm, _, _, hpte, hhit⟩ := pg_getpage_success_inv sys cfg c c1 pgn fpn h
  have hpp : page_present c pgn = pte.present := by
    simp [page_present, pte_at, hm, hpte, PAGING_PAGE_PRESENT]
  constructor
  · intro hp
    rw [hpp] at hp
    rw [hhit hp]
  · intro hp
    rw [hpp] at hp
    obtain ⟨v, rest, vicpte, s, p2, hfifo, _, _, _, _, hc1⟩ :=
      pg_getpage_fault_inv sys cfg c c1 m pgn fpn pte hsw hm hpte hp h
    simp [fifo_of, hm, hc1, hfifo]

theorem access_step (sys : Dispatcher) (cfg : Config) (c c1 : pcb_t) (a : pg_access)
    (hsw : SwapKeepsMm sys) (hio : IoKeepsMm sys) (h : run_access sys cfg c a = some c1) :
    (page_present c (a.page cfg) = true → fifo_of c1 = fifo_of c) ∧
    (page_present c (a.page cfg) = false →
      (fifo_of c).head?.toList ++ fifo_of c1 = fifo_of c ++ [a.page cfg]) := by
  cases a with
  | fetch pgn =>
    simp only [run_access] at h
    split at h
    · next fpn c1' hg =>
      simp only [Option.some.injEq] at h
      subst h
      exact fetch_step sys cfg c c1' pgn fpn hsw hg
    · simp at h
  | read addr =>
    simp only [run_access] at h
    split at h
    · next b c1' hg =>
      simp only [Option.some.injEq] at h
      subst h
      obtain ⟨fpn, cg, hgp, hc1⟩ := pg_getval_inv sys cfg c c1' addr b hg
      have hf : fifo_of c1' = fifo_of cg := by
        rw [hc1]
        exact fifo_of_syscall_io sys hio cg _ (Or.inl rfl)
      have := fetch_step sys cfg c cg (PAGING_PGN cfg addr) fpn hsw hgp
      simp only [pg_access.page, hf]
      exact this
    · simp at h
  | write addr v =>
    simp only [run_access] at h
    split at h
    · next r hg =>
      split at h
      · next hr =>
        simp only [Option.some.injEq] at h
        subst h
        have hg' : pg_setval sys cfg c addr v = some (0, r.2) := by
          rw [hg, ← hr]
        obtain ⟨fpn, cg, hgp, hu⟩ := pg_setval_inv sys cfg c r.2 addr v hg'
        have hf : fifo_of r.2 = fifo_of cg := by
          rw [fifo_of_pgd_update _ _ _ _ hu]
          exact fifo_of_syscall_io sys hio cg _ (Or.inr rfl)
        have := fetch_step sys cfg c cg (PAGING_PGN cfg addr) fpn hsw hgp
        simp only [pg_access.page, hf]
        exact this
      · simp at h
    · simp at h

theorem run_accesses_fifo (sys : Dispatcher) (cfg : Config) (hsw : SwapKeepsMm sys)
    (hio : IoKeepsMm sys) (as : List pg_access) :
    ∀ (c c' : pcb_t) (vs ps : List Int), run_accesses sys cfg c as = some (vs, ps, c') →
      vs ++ fifo_of c' = fifo_of c ++ ps := by
  induction as with
  | nil =>
    intro c c' vs ps h
    simp only [run_accesses, Option.some.injEq, Prod.mk.injEq] at h
    obtain ⟨h1, h2, h3⟩ := h
    subst h1; subst h2; subst h3
    simp
  | cons a rest ih =>
    intro c c' vs ps h
    simp only [run_accesses] at h
    split at h
    · simp at h
    · next c1 hstep =>
      split at h
      · simp at h
      · next vs1 ps1 c2 hrest =>
        have hrec := ih c1 c2 vs1 ps1 hrest
        obtain ⟨hhit, hfault⟩ := access_step sys cfg c c1 a hsw hio hstep
        split at h
        · next hp =>
          simp only [Option.some.injEq, Prod.mk.injEq] at h
          obtain ⟨h1, h2, h3⟩ := h
          subst h1; subst h2; subst h3
          rw [hrec, hhit hp]
        · next hp =>
          simp only [Option.some.injEq, Prod.mk.injEq] at h
          obtain ⟨h1, h2, h3⟩ := h
          subst h1; subst h2; subst h3
          have hp' : page_present c (a.page cfg) = false := by simpa using hp
          have := hfault hp'
          rw [List.append_assoc, hrec, ← List.append_assoc, this]
          simp

/-- C11: under a dispatcher whose swap and physical I/O requests leave the memory
object alone: (a) a successful `pg_getpage` on a page that is not Present
evicts the page at the head of the FIFO chain (it returns that page's frame and
makes its PTE not Present) and appends the target at the tail; (b) a successful
access (`pg_getpage`, `pg_getval`, `pg_setval`) to a Present page leaves the
chain as it is; (c) a fault with an empty chain fails, the state unchanged;
(d) hence along every sequence of successful accesses the victims, followed by
the final chain, are the initial chain followed by the pages in the order in
which they became resident: the victim is always the page resident for the
longest time, however recently it was read or written. -/
theorem fifo_victim_order (sys : Dispatcher) (cfg : Config) (hsw : SwapKeepsMm sys)
    (hio : IoKeepsMm sys) :
    (∀ (c c' : pcb_t) (m : mm_struct) (pgn fpn : Int) (pte : pte_t),
        c.mm = some m → m.pgd[pgn.toNat]? = some pte → pte.present = false →
        pg_getpage sys cfg c pgn = some (Status.success fpn, c') →
        ∃ v fifo_rest vicpte, m.fifo_pgn = v :: fifo_rest ∧
          m.pgd[v.toNat]? = some vicpte ∧ fpn = vicpte.fpn ∧
          fifo_of c' = fifo_rest ++ [pgn] ∧
          (v ≠ pgn → (pte_at c' v.toNat).map (fun p => p.present) = some false)) ∧
    (∀ (c c1 : pcb_t) (a : pg_access), page_present c (a.page cfg) = true →
        run_access sys cfg c a = some c1 → fifo_of c1 = fifo_of c) ∧
    (∀ (c : pcb_t) (m : mm_struct) (pgn : Int) (pte : pte_t),
        c.mm = some m → 0 ≤ pgn → pgn < (cfg.PAGING_MAX_PGN : Int) →
        m.pgd[pgn.toNat]? = some pte → pte.present = false → m.fifo_pgn = [] →
        pg_getpage sys cfg c pgn = some (Status.failure, c)) ∧
    (∀ (c c' : pcb_t) (as : List pg_access) (vs ps : List Int),
        run_accesses sys cfg c as = some (vs, ps, c') →
        vs ++ fifo_of c' = fifo_of c ++ ps) := by
  refine ⟨?_, ?_, ?_, ?_⟩
  · intro c c' m pgn fpn pte hm hpte hnp h
    obtain ⟨_, _, _, hp0, _, _, _⟩ := pg_getpage_success_inv sys cfg c c' pgn fpn h
    obtain ⟨v, rest, vicpte, s, p2, hfifo, hv0, hvic, hf, _, hc'⟩ :=
      pg_getpage_fault_inv sys cfg c c' m pgn fpn pte hsw hm hpte hnp h
    refine ⟨v, rest, vicpte, hfifo, hvic, hf, by simp [fifo_of, hc'], ?_⟩
    intro hne
    have hvn : ¬ (pgn.toNat = v.toNat) := by omega
    have hvlt : v.toNat < m.pgd.length := (List.getElem?_eq_some.1 hvic).1
    simp [pte_at, hc', List.getElem?_set, hvn, hvlt, pte_set_swap]
  · intro c c1 a hp h
    exact (access_step sys cfg c c1 a hsw hio h).1 hp
  · intro c m pgn pte hm h0 hlt hpte hnp hfifo
    have hr : ¬ (pgn < 0 ∨ pgn ≥ (cfg.PAGING_MAX_PGN : Int)) := by omega
    cases c with
    | mk cmm cmram cswp ctrace =>
      simp only at hm
      subst hm
      simp [pg_getpage, hr, hpte, PAGING_PAGE_PRESENT, hnp, find_victim_page, hfifo]
  · intro c c' as vs ps h
    exact run_accesses_fifo sys cfg hsw hio as c c' vs ps h

/-- C11, the scenario of the specification: one resident frame holding page 0;
faulting page 1 evicts page 0, faulting page 2 evicts page 1, and after a read
of page 2 the new access to page 1 faults again and evicts page 2. With two
resident pages, page 0 is the victim of the next fault although it was read and
written just before. -/
theorem fifo_victim_order_witness :
    SwapKeepsMm sys_all ∧ IoKeepsMm sys_all ∧
    (run_accesses sys_all cfg256 pcb_one_frame accesses_aba).map
        (fun r => (r.1, r.2.1, fifo_of r.2.2))
      = some ([0, 1, 2], [1, 2, 1], [1]) ∧
    run_accesses sys_all cfg256 pcb_two_frames accesses_recent
      = some ([0], [2], pcb_two_after) ∧
    [0] ++ fifo_of pcb_two_after = fifo_of pcb_two_frames ++ [2] ∧
    fifo_of pcb_two_after = [1, 2] :=
  ⟨ref_dispatcher_swapKeepsMm _, ref_dispatcher_ioKeepsMm _, by decide, by decide,
    (fifo_victim_order sys_all cfg256 (ref_dispatcher_swapKeepsMm _)
      (ref_dispatcher_ioKeepsMm _)).2.2.2 pcb_two_frames pcb_two_after accesses_recent
      [0] [2] (by decide),
    by decide⟩

/-! ### The queue of `queue.c` -/

theorem dequeue_shift_spec (n : Nat) :
    ∀ (i : Nat) (arr : List (Option Nat)), 1 ≤ i → i + n ≤ arr.length →
      ∃ arr', dequeue_shift n i arr = some arr' ∧ arr'.length = arr.length ∧
        ∀ j, arr'[j]? = if i - 1 ≤ j ∧ j < i - 1 + n then arr[j + 1]? else arr[j]? := by
  induction n with
  | zero =>
    intro i arr _ _
    refine ⟨arr, rfl, rfl, ?_⟩
    intro j
    have : ¬ (i - 1 ≤ j ∧ j < i - 1 + 0) := by omega
    rw [if_neg this]
  | succ n ih =>
    intro i arr hi hlen
    have hilt : i < arr.length := by omega
    obtain ⟨arr', h1, h2, h3⟩ := ih (i + 1) (arr.set (i - 1) arr[i]) (by omega)
      (by simp only [List.length_set]; omega)
    refine ⟨arr', ?_, ?_, ?_⟩
    · simp only [dequeue_shift, List.getElem?_eq_getElem hilt]
      exact h1
    · rw [h2, List.length_set]
    · intro j
      rw [h3 j]
      by_cases hj : i + 1 - 1 ≤ j ∧ j < i + 1 - 1 + n
      · have hj' : i - 1 ≤ j ∧ j < i - 1 + (n + 1) := by omega
        have hne : i - 1 ≠ j + 1 := by omega
        rw [if_pos hj, if_pos hj', List.getElem?_set_ne hne]
      · by_cases hj2 : j = i - 1
        · have hj' : i - 1 ≤ j ∧ j < i - 1 + (n + 1) := by omega
          have hlt2 : i - 1 < arr.length := by omega
          have e : j + 1 = i := by omega
          rw [if_neg hj, if_pos hj', e, hj2, List.getElem?_set_self hlt2,
            List.getElem?_eq_getElem hilt]
        · have hj' : ¬ (i - 1 ≤ j ∧ j < i - 1 + (n + 1)) := by omega
          have hne : i - 1 ≠ j := fun e => hj2 e.symm
          rw [if_neg hj, if_neg hj', List.getElem?_set_ne hne]

/-- The result of `dequeue` on a non-empty queue whose array has room for its
entries. -/
theorem dequeue_nonempty (q : queue_t) (hpos : 0 < q.size) (hlen : q.size ≤ q.proc.length) :
    ∃ pcb arr, q.proc[0]? = some pcb ∧
      dequeue (some q) = some (pcb, some { proc := arr, size := q.size - 1 }) ∧
      arr.length = q.proc.length ∧
      (∀ j, j < q.size - 1 → arr[j]? = q.proc[j + 1]?) ∧
      arr[q.size - 1]? = some none ∧
      (∀ j, q.size ≤ j → arr[j]? = q.proc[j]?) := by
  have h0 : 0 < q.proc.length := by omega
  obtain ⟨arr', h1, h2, h3⟩ := dequeue_shift_spec (q.size - 1) 1 q.proc (by omega) (by omega)
  have hne : ¬ (q.size = 0) := by omega
  have hlt : q.size - 1 < arr'.length := by omega
  refine ⟨q.proc[0], arr'.set (q.size - 1) none, List.getElem?_eq_getElem h0, ?_, ?_, ?_, ?_, ?_⟩
  · simp only [dequeue, hne, if_false, List.getElem?_eq_getElem h0, h1, hlt, if_true]
  · rw [List.length_set, h2]
  · intro j hj
    have hne2 : ¬ (q.size - 1 = j) := by omega
    have hw : 1 - 1 ≤ j ∧ j < 1 - 1 + (q.size - 1) := by omega
    simp only [List.getElem?_set, hne2, if_false, h3 j, hw, and_self, if_true]
  · simp only [List.getElem?_set_self hlt]
  · intro j hj
    have hne2 : ¬ (q.size - 1 = j) := by omega
    have hw : ¬ (1 - 1 ≤ j ∧ j < 1 - 1 + (q.size - 1)) := by omega
    simp only [List.getElem?_set, hne2, if_false, h3 j, hw]

theorem queue_items_enqueue (q : queue_t) (p : Nat) (hlen : q.size < q.proc.length) :
    queue_items { proc := q.proc.set q.size (some p), size := q.size + 1 }
      = queue_items q ++ [some p] := by
  unfold queue_items
  apply List.ext_getElem?
  intro j
  simp only [List.getElem?_take, List.getElem?_append, List.length_take, List.getElem?_set,
    List.length_set]
  by_cases h1 : j < q.size
  · have h2 : j < q.size + 1 := by omega
    have h3 : ¬ (q.size = j) := by omega
    have h4 : j < min q.size q.proc.length := by omega
    simp [h1, h2, h3, h4]
  · by_cases h2 : j = q.size
    · subst h2
      have h4 : ¬ (q.size < min q.size q.proc.length) := by omega
      have h5 : min q.size q.proc.length = q.size := by omega
      simp [h4, hlen, h5]
    · have h3 : ¬ (j < q.size + 1) := by omega
      have h4 : ¬ (j < min q.size q.proc.length) := by omega
      have h5 : min q.size q.proc.length = q.size := by omega
      have h6 : ¬ (j - q.size = 0) := by omega
      simp [h1, h3, h4, h5]
      omega

theorem queue_items_dequeue (q : queue_t) (arr : List (Option Nat))
    (hshift : ∀ j, j < q.size - 1 → arr[j]? = q.proc[j + 1]?) :
    queue_items { proc := arr, size := q.size - 1 } = (queue_items q).tail := by
  unfold queue_items
  apply List.ext_getElem?
  intro j
  simp only [List.getElem?_take, List.getElem?_tail]
  by_cases h1 : j < q.size - 1
  · have h2 : j + 1 < q.size := by omega
    simp [h1, h2, hshift j h1]
  · have h2 : ¬ (j + 1 < q.size) := by omega
    simp [h1, h2]

theorem enqueue_all_items (MAX_QUEUE_SIZE : Nat) (ps : List Nat) :
    ∀ (q : queue_t), q.size + ps.length ≤ MAX_QUEUE_SIZE → q.proc.length = MAX_QUEUE_SIZE →
      ∃ q', enqueue_all MAX_QUEUE_SIZE (some q) ps = some (some q') ∧
        queue_items q' = queue_items q ++ ps.map some ∧
        q'.size = q.size + ps.length ∧ q'.proc.length = MAX_QUEUE_SIZE := by
  induction ps with
  | nil =>
    intro q _ hlen
    exact ⟨q, rfl, by simp, by simp, hlen⟩
  | cons p ps ih =>
    intro q hsz hlen
    simp only [List.length_cons] at hsz
    have h1 : q.size < MAX_QUEUE_SIZE := by omega
    have h2 : q.size < q.proc.length := by omega
    obtain ⟨q', hq', hitems, hsize, hlen'⟩ :=
      ih { proc := q.proc.set q.size (some p), size := q.size + 1 }
        (by simp only; omega) (by simp only [List.length_set]; exact hlen)
    refine ⟨q', ?_, ?_, ?_, hlen'⟩
    · simp only [enqueue_all, enqueue, h1, h2, if_true]
      exact hq'
    · rw [hitems, queue_items_enqueue q p h2]
      simp
    · rw [hsize]
      simp only [List.length_cons]
      omega

theorem dequeue_n_items (n : Nat) :
    ∀ (q : queue_t), n ≤ q.size → q.size ≤ q.proc.length →
      ∃ q', dequeue_n n (some q) = some ((queue_items q).take n, some q') ∧
        queue_items q' = (queue_items q).drop n ∧ q'.size = q.size - n ∧
        q'.proc.length = q.proc.length := by
  induction n with
  | zero =>
    intro q _ _
    exact ⟨q, by simp [dequeue_n], by simp, by simp, rfl⟩
  | succ n ih =>
    intro q hn hlen
    obtain ⟨pcb, arr, hp0, hdq, harr, hshift, _, _⟩ := dequeue_nonempty q (by omega) hlen
    have hitems1 := queue_items_dequeue q arr hshift
    obtain ⟨q', hq', hitems, hsize, hlen'⟩ := ih { proc := arr, size := q.size - 1 }
      (by simp only; omega) (by simp only; omega)
    have hhead : queue_items q = pcb :: (queue_items q).tail := by
      have h0 : (queue_items q)[0]? = some pcb := by
        unfold queue_items
        rw [List.getElem?_take]
        have : 0 < q.size := by omega
        simp [this, hp0]
      cases hq : queue_items q with
      | nil => simp [hq] at h0
      | cons a t =>
        simp [hq] at h0
        simp [h0]
    refine ⟨q', ?_, ?_, ?_, ?_⟩
    · simp only [dequeue_n, hdq, hq', hitems1]
      rw [hhead]
      simp
    · rw [hitems, hitems1]
      rw [List.drop_tail]
    · rw [hsize]
      simp only
      omega
    · rw [hlen', harr]

/-- C20: for a queue whose array has `MAX_QUEUE_SIZE` entries and whose size is
at most `MAX_QUEUE_SIZE`: `enqueue` of a process on a non-full queue stores it
at index `size` and increases `size` by one, and on a full queue changes
nothing; `dequeue` on a non-empty queue returns the entry at index 0, moves
every remaining entry one index down and decreases `size` by one, and on an
empty queue returns `NULL` and changes nothing; after a sequence of enqueues
that fits in the queue, as many dequeues as there are entries return the old
entries and then the enqueued processes in the order in which they were
enqueued; and `empty` returns 1 exactly when `size` is 0. -/
theorem queue_fifo (MAX_QUEUE_SIZE : Nat) (q : queue_t) (hsz : q.size ≤ MAX_QUEUE_SIZE)
    (hlen : q.proc.length = MAX_QUEUE_SIZE) :
    (∀ p : Nat, q.size < MAX_QUEUE_SIZE →
        enqueue MAX_QUEUE_SIZE (some q) (some p)
          = some (some { proc := q.proc.set q.size (some p), size := q.size + 1 }) ∧
        (q.proc.set q.size (some p))[q.size]? = some (some p)) ∧
    (∀ p : Nat, q.size = MAX_QUEUE_SIZE →
        enqueue MAX_QUEUE_SIZE (some q) (some p) = some (some q)) ∧
    (0 < q.size →
        ∃ pcb arr, q.proc[0]? = some pcb ∧
          dequeue (some q) = some (pcb, some { proc := arr, size := q.size - 1 }) ∧
          (∀ j, j < q.size - 1 → arr[j]? = q.proc[j + 1]?)) ∧
    (q.size = 0 → dequeue (some q) = some (none, some q)) ∧
    (∀ ps : List Nat, q.size + ps.length ≤ MAX_QUEUE_SIZE →
        ∃ q1 q2, enqueue_all MAX_QUEUE_SIZE (some q) ps = some (some q1) ∧
          dequeue_n (q.size + ps.length) (some q1)
            = some (queue_items q ++ ps.map some, some q2) ∧
          q2.size = 0) ∧
    (empty (some q) = 1 ↔ q.size = 0) ∧ (empty (some q) = 0 ↔ q.size ≠ 0) := by
  refine ⟨?_, ?_, ?_, ?_, ?_, ?_, ?_⟩
  · intro p hp
    have h2 : q.size < q.proc.length := by omega
    exact ⟨by simp only [enqueue, hp, h2, if_true], List.getElem?_set_self h2⟩
  · intro p hp
    have h1 : ¬ (q.size < MAX_QUEUE_SIZE) := by omega
    simp only [enqueue, h1, if_false]
  · intro hpos
    obtain ⟨pcb, arr, hp0, hdq, _, hshift, _, _⟩ := dequeue_nonempty q hpos (by omega)
    exact ⟨pcb, arr, hp0, hdq, hshift⟩
  · intro h0
    simp only [dequeue, h0, if_true]
  · intro ps hps
    obtain ⟨q1, hq1, hitems, hsize, hlen1⟩ := enqueue_all_items MAX_QUEUE_SIZE ps q hps hlen
    obtain ⟨q2, hq2, _, hsize2, _⟩ := dequeue_n_items (q.size + ps.length) q1
      (by omega) (by omega)
    refine ⟨q1, q2, hq1, ?_, by omega⟩
    rw [hq2, hitems]
    have hl : (queue_items q ++ ps.map some).length = q.size + ps.length := by
      simp only [queue_items, List.length_append, List.length_take, List.length_map]
      omega
    rw [← hl, List.take_length]
  · simp only [empty]
    split <;> simp_all
  · simp only [empty]
    split <;> simp_all

/-- C20 at a concrete queue of capacity 3 holding process 7: enqueueing 8 and 9
fills it, and three dequeues return 7, 8, 9. -/
theorem queue_fifo_witness :
    queue_one.size ≤ 3 ∧ queue_one.proc.length = 3 ∧
    enqueue_all 3 (some queue_one) [8, 9]
      = some (some { proc := [some 7, some 8, some 9], size := 3 }) ∧
    dequeue_n 3 (some { proc := [some 7, some 8, some 9], size := 3 })
      = some ([some 7, some 8, some 9], some { proc := [none, none, none], size := 0 }) ∧
    (empty (some queue_one) = 1 ↔ queue_one.size = 0) := by
  have h := queue_fifo 3 queue_one (by decide) (by decide)
  exact ⟨by decide, by decide, by decide, by decide, h.2.2.2.2.2.1⟩

/-! ### `__sys_killall` -/

/-- C18, evaluation at a failing input: the name is `b`; the running list holds
`bin/a`, `bin/b` and ready queue 0 holds `usr/a`, `usr/b`. The scan of the
running list removes `bin/b` and keeps `bin/a`. The scan of ready queue 0 finds
`usr/b` at index 1, sets its `pc` to its code size, but shifts the queue from
index 0: afterwards the queue holds the matching process `usr/b` and the
non-matching process `usr/a` is gone. -/
theorem killall_ready_queue_drops_front :
    (procs_ab.map (fun p => name_matches ['b'] p)) = [false, true, false, true] ∧
    (killall_queues 2 ['b'] kill_ab).map (fun st => (queue_items st.run_list, st.run_list.size))
      = some ([some 0], 1) ∧
    (killall_queues 2 ['b'] kill_ab).map (fun st => st.mlq.map queue_items)
      = some [[some 3], []] ∧
    (killall_queues 2 ['b'] kill_ab).map (fun st => st.mlq.map (fun q => q.size))
      = some [1, 0] ∧
    (killall_queues 2 ['b'] kill_ab).map (fun st => (st.procs.map (fun p => p.pc), st.index))
      = some ([0, 10, 0, 10], 2) := by
  decide

theorem pg_getval_byte (sys : Dispatcher) (cfg : Config) (c c1 : pcb_t) (addr b : Int)
    (h : pg_getval sys cfg c addr = some (Status.success b, c1)) : 0 ≤ b ∧ b < 256 := by
  unfold pg_getval at h
  split at h
  · simp at h
  · simp only at h
    split at h
    · simp at h
    · simp at h
    · simp only [Option.some.injEq, Prod.mk.injEq, Status.success.injEq] at h
      rw [← h.1]
      constructor
      · exact Int.emod_nonneg _ (by decide)
      · exact Int.emod_lt_of_pos _ (by decide)

theorem name_loop_failing_reads (sys : Dispatcher) (cfg : Config) (memrg : Int)
    (caller : pcb_t)
    (hfail : ∀ offset : Int, libread sys cfg caller memrg offset = some (Status.failure, caller)) :
    ∀ (fuel i : Nat) (proc_name : List Int), i ≤ proc_name.length →
      name_loop sys cfg memrg fuel i 0 proc_name caller =
        if i + fuel ≤ proc_name.length then name_result.out_of_fuel else name_result.fault := by
  have hd : ¬ ((0 : Int) = 4294967295) := by decide
  intro fuel
  induction fuel with
  | zero =>
    intro i proc_name hi
    rw [name_loop]
    simp only [hd, if_false, Nat.add_zero, hi, if_true]
  | succ n ih =>
    intro i proc_name hi
    rw [name_loop]
    simp only [hd, if_false, hfail]
    by_cases hlt : i < proc_name.length
    · rw [if_pos hlt]
      have hlen : (proc_name.set i (0 % 256)).length = proc_name.length := List.length_set _ _ _
      rw [ih (i + 1) (proc_name.set i (0 % 256)) (by rw [hlen]; omega), hlen]
      by_cases h1 : i + 1 + n ≤ proc_name.length
      · rw [if_pos h1, if_pos (by omega)]
      · rw [if_neg h1, if_neg (by omega)]
    · rw [if_neg hlt, if_neg (by omega)]

theorem libread_rejected_id (sys : Dispatcher) (signed : Bool) (offset : Int) :
    libread sys (cfg256_byte signed) pcb_pg 9 offset = some (Status.failure, pcb_pg) := by
  have hg : get_symrg_byid (cfg256_byte signed) pcb_pg.mm 9 = none := by
    cases signed <;> decide
  simp only [libread, __read, hg]

/-- C19, evaluation of the loop from its initial values (`i = 0`, `data = 0`,
`proc_name` of 100 characters) at the region id 9 of a process whose symbol
table has 4 slots, for every dispatcher and for `BYTE` signed or unsigned:
`libread` rejects the id at every offset and returns -1 without writing `data`,
so `data` stays 0 and the exit test `data != -1` never fails: after any number
of iterations up to 100 the loop has not exited, and the 101st iteration stores
into `proc_name[100]`, outside the array. -/
theorem name_loop_rejected_id_overruns :
    (∀ (sys : Dispatcher) (signed : Bool) (offset : Int),
        libread sys (cfg256_byte signed) pcb_pg 9 offset = some (Status.failure, pcb_pg)) ∧
    (∀ (sys : Dispatcher) (signed : Bool) (n : Fin 101),
        name_loop sys (cfg256_byte signed) 9 n.val 0 0 (List.replicate 100 0) pcb_pg
          = name_result.out_of_fuel) ∧
    (∀ (sys : Dispatcher) (signed : Bool) (fuel : Nat),
        name_loop sys (cfg256_byte signed) 9 (fuel + 101) 0 0 (List.replicate 100 0) pcb_pg
          = name_result.fault) := by
  refine ⟨libread_rejected_id, ?_, ?_⟩
  · intro sys signed n
    rw [name_loop_failing_reads sys (cfg256_byte signed) 9 pcb_pg (libread_rejected_id sys signed)
      n.val 0 (List.replicate 100 0) (Nat.zero_le _)]
    have h : 0 + n.val ≤ (List.replicate 100 (0 : Int)).length := by
      rw [List.length_replicate]; omega
    rw [if_pos h]
  · intro sys signed fuel
    rw [name_loop_failing_reads sys (cfg256_byte signed) 9 pcb_pg (libread_rejected_id sys signed)
      (fuel + 101) 0 (List.replicate 100 0) (Nat.zero_le _)]
    have h : ¬ (0 + (fuel + 101) ≤ (List.replicate 100 (0 : Int)).length) := by
      rw [List.length_replicate]; omega
    rw [if_neg h]

/-- With a signed `BYTE` the loop does exit on a terminator: on the region holding
`'P'`, `'0'`, 255 the third `libread` stores 4294967295 in `data`, and the loop
leaves after three iterations with `proc_name` starting `'P'`, `'0'`, NUL. -/
theorem name_loop_exits_on_terminator :
    (libread sys_all cfg256 pcb_name 0 2).map Prod.fst = some (Status.success 4294967295) ∧
    (match name_loop sys_all cfg256 0 3 0 0 (List.replicate 100 0) pcb_name with
      | .exited proc_name _ => some (proc_name.take 4)
      | _ => none) = some [80, 48, 0, 0] := by
  decide

/-! ### Non-overlap of regions -/

theorem rg_covers_nonneg (x : Int) (rg : vm_rg_struct) : 0 ≤ rg_covers x rg := by
  unfold rg_covers
  split <;> decide

theorem rg_covers_le_one (x : Int) (rg : vm_rg_struct) : rg_covers x rg ≤ 1 := by
  unfold rg_covers
  split <;> decide

theorem cover_sum_nonneg (x : Int) (l : List vm_rg_struct) : 0 ≤ (l.map (rg_covers x)).sum := by
  induction l with
  | nil => simp
  | cons a t ih =>
    simp only [List.map_cons, List.sum_cons]
    have := rg_covers_nonneg x a
    omega

theorem cover_mem_le (x : Int) (l : List vm_rg_struct) (b : vm_rg_struct) (hb : b ∈ l) :
    rg_covers x b ≤ (l.map (rg_covers x)).sum := by
  induction l with
  | nil => simp at hb
  | cons a t ih =>
    simp only [List.map_cons, List.sum_cons]
    have ha := rg_covers_nonneg x a
    have ht := cover_sum_nonneg x t
    rcases List.mem_cons.1 hb with h | h
    · subst h; omega
    · have := ih h; omega

theorem cover_of_pairwise (l : List vm_rg_struct) (h : List.Pairwise rg_disjoint l) (x : Int) :
    (l.map (rg_covers x)).sum ≤ 1 := by
  induction l with
  | nil => simp
  | cons a t ih =>
    rw [List.pairwise_cons] at h
    have ht := ih h.2
    simp only [List.map_cons, List.sum_cons]
    by_cases ha : a.rg_start ≤ x ∧ x < a.rg_end
    · have hz : (t.map (rg_covers x)).sum = 0 := by
        apply sum_map_zero
        intro b hb
        have hd := h.1 b hb x
        unfold rg_covers
        split
        · next hbx => exact absurd ⟨ha, hbx⟩ hd
        · rfl
      have := rg_covers_le_one x a
      omega
    · have : rg_covers x a = 0 := by simp [rg_covers, ha]
      omega

theorem pairwise_of_cover (l : List vm_rg_struct)
    (h : ∀ x : Int, (l.map (rg_covers x)).sum ≤ 1) : List.Pairwise rg_disjoint l := by
  induction l with
  | nil => exact List.Pairwise.nil
  | cons a t ih =>
    rw [List.pairwise_cons]
    constructor
    · intro b hb x hx
      have h1 := h x
      simp only [List.map_cons, List.sum_cons] at h1
      have ha : rg_covers x a = 1 := by simp [rg_covers, hx.1]
      have hbv : rg_covers x b = 1 := by simp [rg_covers, hx.2]
      have := cover_mem_le x t b hb
      omega
    · apply ih
      intro x
      have h1 := h x
      simp only [List.map_cons, List.sum_cons] at h1
      have := rg_covers_nonneg x a
      omega

theorem cover_free_regions_of (x : Int) (l : List vm_area_struct) :
    ((free_regions_of l).map (rg_covers x)).sum
      = (l.map (fun v => (v.vm_freerg_list.map (rg_covers x)).sum)).sum := by
  induction l with
  | nil => rfl
  | cons v t ih =>
    simp only [free_regions_of, List.map_append, List.sum_append, List.map_cons, List.sum_cons,
      ih]

theorem cover_filter_sentinel (x : Int) (l : List vm_rg_struct) :
    ((l.filter (fun rg => decide (rg ≠ sentinel))).map (rg_covers x)).sum
      = (l.map (rg_covers x)).sum := by
  induction l with
  | nil => rfl
  | cons a t ih =>
    rw [List.filter_cons]
    by_cases ha : a = sentinel
    · subst ha
      have hs : rg_covers x sentinel = 0 := by
        simp only [rg_covers, sentinel]
        split
        · omega
        · rfl
      have hd : ¬ (decide (sentinel ≠ sentinel) = true) := by decide
      rw [if_neg hd]
      simp only [List.map_cons, List.sum_cons, ih, hs]
      omega
    · have hd : decide (a ≠ sentinel) = true := decide_eq_true ha
      rw [if_pos hd]
      simp only [List.map_cons, List.sum_cons, ih]

theorem all_regions_cover (c : pcb_t) (x : Int) :
    ((all_regions c).map (rg_covers x)).sum = free_cover c x + active_cover c x := by
  unfold all_regions free_cover active_cover
  cases c.mm with
  | none => simp
  | some m =>
    simp only [List.map_append, List.sum_append, cover_free_regions_of, cover_filter_sentinel]

theorem align_nonneg (cfg : Config) (size : Int) (hP : 0 < cfg.PAGING_PAGESZ) (hs : 0 < size) :
    0 ≤ PAGING_PAGE_ALIGNSZ cfg size := by
  unfold PAGING_PAGE_ALIGNSZ
  apply Int.mul_nonneg
  · apply Int.ediv_nonneg <;> omega
  · omega

theorem first_fit_cover (A x : Int) (hA : 0 ≤ A) (l l' : List vm_rg_struct)
    (rg : vm_rg_struct) (h : first_fit A l = some (rg, l')) :
    (l'.map (rg_covers x)).sum + rg_covers x rg = (l.map (rg_covers x)).sum := by
  induction l generalizing l' with
  | nil => simp [first_fit] at h
  | cons a t ih =>
    unfold first_fit at h
    simp only at h
    split at h
    · next hge =>
      split at h
      · next heq =>
        simp only [Option.some.injEq, Prod.mk.injEq] at h
        obtain ⟨hr, hl⟩ := h
        subst hr; subst hl
        have e : a.rg_start + A = a.rg_end := by omega
        simp only [List.map_cons, List.sum_cons, rg_covers, e]
        omega
      · next hne =>
        simp only [Option.some.injEq, Prod.mk.injEq] at h
        obtain ⟨hr, hl⟩ := h
        subst hr; subst hl
        simp only [List.map_cons, List.sum_cons, rg_covers]
        split <;> split <;> split <;> omega
    · split at h
      · simp at h
      · next heq =>
        simp only [Option.some.injEq, Prod.mk.injEq] at h
        obtain ⟨hr, hl⟩ := h
        subst hr; subst hl
        have := ih _ heq
        simp only [List.map_cons, List.sum_cons]
        omega

theorem rg_covers_sentinel (x : Int) : rg_covers x sentinel = 0 := by
  simp only [rg_covers, sentinel]
  split
  · omega
  · rfl

theorem free_cover_set_vma (c : pcb_t) (m : mm_struct) (i : Nat) (vma vma' : vm_area_struct)
    (x : Int) (hm : c.mm = some m) (hi : m.mmap[i]? = some vma) :
    free_cover { c with mm := some (set_vma m i vma') } x
      = free_cover c x - (vma.vm_freerg_list.map (rg_covers x)).sum
        + (vma'.vm_freerg_list.map (rg_covers x)).sum := by
  simp only [free_cover, set_vma, hm]
  exact sum_map_set (fun v => (v.vm_freerg_list.map (rg_covers x)).sum) m.mmap i vma vma' hi

theorem get_free_vmrg_area_cover (cfg : Config) (c c1 : pcb_t) (vmaid size x : Int)
    (rg : vm_rg_struct) (hP : 0 < cfg.PAGING_PAGESZ)
    (h : get_free_vmrg_area cfg c vmaid size = (Status.success rg, c1)) :
    free_cover c1 x + rg_covers x rg = free_cover c x ∧
    active_cover c1 x = active_cover c x := by
  obtain ⟨m, i, vma, fl, hm, hs, hv, hf, hc⟩ := get_free_vmrg_area_success cfg c c1 vmaid size rg h
  have hi := get_vma_by_num_getElem m vmaid i vma hv
  have hb := first_fit_cover _ x (align_nonneg cfg size hP hs) _ _ _ hf
  subst hc
  constructor
  · rw [free_cover_set_vma c m i vma _ x hm hi]
    simp only
    omega
  · simp [active_cover, set_vma, hm]

theorem symrgtbl_store_cover (c c2 : pcb_t) (rgid x : Int) (rg : vm_rg_struct)
    (h : symrgtbl_store c rgid rg = some c2) :
    ∃ old, free_cover c2 x = free_cover c x ∧
      active_cover c2 x = active_cover c x - rg_covers x old + rg_covers x rg := by
  obtain ⟨m, old, hm, hold, _, hc, _⟩ := symrgtbl_store_bytes c c2 rgid rg h
  subst hc
  refine ⟨old, ?_, ?_⟩
  · simp [free_cover, hm]
  · simp only [active_cover, hm]
    exact sum_map_set (rg_covers x) m.symrgtbl rgid.toNat old rg hold

/-- One `__alloc` served from the free list does not increase the number of
regions that contain a given address. -/
theorem __alloc_cover (sys : Dispatcher) (cfg : Config) (c c' : pcb_t)
    (vmaid rgid size x : Int) (res : Status Int) (hP : 0 < cfg.PAGING_PAGESZ)
    (hserved : ∃ rg c1, get_free_vmrg_area cfg c vmaid size = (Status.success rg, c1))
    (h : __alloc sys cfg c vmaid rgid size = some (res, c')) :
    free_cover c' x + active_cover c' x ≤ free_cover c x + active_cover c x := by
  rcases __alloc_cases sys cfg c c' vmaid rgid size res h with
    ⟨_, hc, _⟩ | ⟨rg, c1, hg, hst, _⟩ | ⟨hfail, _, _⟩
  · rw [hc]
  · obtain ⟨h1, h2⟩ := get_free_vmrg_area_cover cfg c c1 vmaid size x rg hP hg
    obtain ⟨old, h3, h4⟩ := symrgtbl_store_cover c1 c' rgid x rg hst
    have := rg_covers_nonneg x old
    omega
  · obtain ⟨rg, c1, hg⟩ := hserved
    rw [hg] at hfail
    simp at hfail

/-- One `__free` keeps the number of regions that contain a given address. -/
theorem __free_cover (cfg : Config) (c c' : pcb_t) (vmaid rgid x : Int) (code : Int)
    (h : __free cfg c vmaid rgid = some (code, c')) :
    free_cover c' x + active_cover c' x = free_cover c x + active_cover c x := by
  unfold __free at h
  split at h
  · simp only [Option.some.injEq, Prod.mk.injEq] at h
    rw [← h.2]
  · next m hm =>
    split at h
    · simp only [Option.some.injEq, Prod.mk.injEq] at h
      rw [← h.2]
    · next k hk =>
      split at h
      · simp at h
      · next sym hsym =>
        split at h
        · simp only [Option.some.injEq, Prod.mk.injEq] at h
          rw [← h.2]
        · next hok =>
          simp only at h
          split at h
          · simp only [Option.some.injEq, Prod.mk.injEq] at h
            rw [← h.2]
          · next hr =>
            simp only [Option.some.injEq, Prod.mk.injEq] at h
            rw [← h.2]
            unfold enlist_vm_freerg_list at hr ⊢
            cases hmap : m.mmap with
            | nil => simp [hmap] at hr
            | cons vma rest =>
              have hlt : ¬ (sym.rg_start ≥ sym.rg_end) := by omega
              simp only [hmap, hlt, if_false]
              have hact := sum_map_set (rg_covers x) m.symrgtbl k sym sentinel hsym
              rw [rg_covers_sentinel] at hact
              simp only [free_cover, active_cover, hm, hmap, List.map_cons, List.sum_cons]
              rw [hact]
              omega

theorem run_ops_cover (sys : Dispatcher) (cfg : Config) (hP : 0 < cfg.PAGING_PAGESZ)
    (ops : List mem_op) :
    ∀ (c0 c : pcb_t), from_free_list sys cfg c0 ops = true → run_ops sys cfg c0 ops = some c →
      (∀ x, free_cover c0 x + active_cover c0 x ≤ 1) →
      ∀ x, free_cover c x + active_cover c x ≤ 1 := by
  induction ops with
  | nil =>
    intro c0 c _ hrun hinv
    simp only [run_ops, Option.some.injEq] at hrun
    rw [← hrun]; exact hinv
  | cons op ops ih =>
    intro c0 c hserved hrun hinv
    simp only [run_ops] at hrun
    simp only [from_free_list, Bool.and_eq_true] at hserved
    cases hop : run_op sys cfg c0 op with
    | none => simp [hop] at hrun
    | some c1 =>
      simp only [hop] at hrun hserved
      refine ih c1 c hserved.2 hrun ?_
      intro x
      cases op with
      | alloc vmaid rgid size =>
        simp only [run_op, Option.map_eq_some'] at hop
        obtain ⟨⟨res, c1'⟩, hal, hc⟩ := hop
        simp only at hc
        subst hc
        have hs : ∃ rg c1, get_free_vmrg_area cfg c0 vmaid size = (Status.success rg, c1) := by
          have h1 := hserved.1
          simp only at h1
          cases hg : get_free_vmrg_area cfg c0 vmaid size with
          | mk st cg =>
            cases st with
            | success rg => exact ⟨rg, cg, rfl⟩
            | failure => simp [hg] at h1
        have := __alloc_cover sys cfg c0 c1' vmaid rgid size x res hP hs hal
        have := hinv x
        omega
      | free vmaid rgid =>
        simp only [run_op, Option.map_eq_some'] at hop
        obtain ⟨⟨code, c1'⟩, hfr, hc⟩ := hop
        simp only at hc
        subst hc
        have := __free_cover cfg c0 c1' vmaid rgid x code hfr
        have := hinv x
        omega

theorem disjoint_init_cover (c : pcb_t) (h : disjoint_init c) (x : Int) :
    free_cover c x + active_cover c x ≤ 1 := by
  cases hmm : c.mm with
  | none => simp [free_cover, active_cover, hmm]
  | some m =>
    obtain ⟨h1, h2⟩ := h m hmm
    have e1 := cover_of_pairwise _ h2 x
    rw [cover_free_regions_of] at e1
    have e2 : (m.symrgtbl.map (rg_covers x)).sum = 0 :=
      sum_map_zero _ _ (fun rg hrg => by rw [h1 rg hrg]; exact rg_covers_sentinel x)
    simp only [free_cover, active_cover, hmm, e2]
    omega

/-- C16: with a positive page granularity, starting from a state whose symbol
table is all-sentinel and whose free-list regions are pairwise disjoint, after
every sequence of `__alloc` calls served from the free list and `__free` calls,
the free-list regions and the active symbol-table regions are pairwise
disjoint byte ranges: every address lies in at most one of them. -/
theorem alloc_free_disjoint (sys : Dispatcher) (cfg : Config) (c0 c : pcb_t)
    (ops : List mem_op) (hP : 0 < cfg.PAGING_PAGESZ) (hinit : disjoint_init c0)
    (hserved : from_free_list sys cfg c0 ops = true)
    (hrun : run_ops sys cfg c0 ops = some c) :
    List.Pairwise rg_disjoint (all_regions c) ∧
    ∀ x : Int, free_cover c x + active_cover c x ≤ 1 := by
  have hcov := run_ops_cover sys cfg hP ops c0 c hserved hrun (disjoint_init_cover c0 hinit)
  refine ⟨?_, hcov⟩
  apply pairwise_of_cover
  intro x
  rw [all_regions_cover]
  exact hcov x

theorem disjoint_init_pcb_fit : disjoint_init pcb_fit := by
  intro m hm
  have : m = mm_fit := by
    simp only [pcb_fit, Option.some.injEq] at hm
    exact hm.symm
  subst this
  constructor
  · intro rg hrg
    simp [mm_fit] at hrg
    exact hrg
  · simp only [mm_fit, vma_fit, free_regions_of, List.append_nil, List.pairwise_cons,
      List.mem_singleton, List.not_mem_nil, false_implies, implies_true, true_and,
      List.Pairwise.nil, and_true]
    intro b hb
    subst hb
    intro x hx
    simp only at hx
    omega

/-- C16 on a concrete run from the free list `[[0,10),[20,50)]` with page
granularity 5: after the calls the free list is `[[35,50)]`, the active regions
are `[5,10)` and `[0,5)`, and they are pairwise disjoint. -/
theorem alloc_free_disjoint_witness :
    0 < cfg5.PAGING_PAGESZ ∧ disjoint_init pcb_fit ∧
    from_free_list sys_all cfg5 pcb_fit ops_carve = true ∧
    run_ops sys_all cfg5 pcb_fit ops_carve = some pcb_fit_after ∧
    all_regions pcb_fit_after
      = [{ rg_start := 35, rg_end := 50 }, { rg_start := 5, rg_end := 10 },
         { rg_start := 0, rg_end := 5 }] ∧
    List.Pairwise rg_disjoint (all_regions pcb_fit_after) :=
  ⟨by decide, disjoint_init_pcb_fit, by decide, by decide, by decide,
    (alloc_free_disjoint sys_all cfg5 pcb_fit pcb_fit_after ops_carve (by decide)
      disjoint_init_pcb_fit (by decide) (by decide)).1⟩

/-- C17, evaluation at a failing input: slot 1 holds the active region
`[100,105)` of VMA 1 and the aligned value of size 5 is 5. `__free(caller, 1, 1)`
returns 0 but never looks at `vmaid`: the region is pushed on the free list of
VMA 0, the head of `mm->mmap`, and the free list of VMA 1 stays empty. The
following `__alloc(caller, 1, 1, 5)` therefore finds nothing in VMA 1, sends a
heap-growth request and returns address 105 with slot 1 holding `[105,110)`;
the freed range stays on the free list of VMA 0, where an allocation in VMA 0
is served with it. -/
theorem free_ignores_vmaid :
    symrg pcb_two_vma 1 = some { rg_start := 100, rg_end := 105 } ∧
    PAGING_PAGE_ALIGNSZ cfg5 5 = 5 ∧
    __free cfg5 pcb_two_vma 1 1 = some (0, pcb_two_vma_freed) ∧
    vma_freerg pcb_two_vma_freed 0 = some [{ rg_start := 100, rg_end := 105 }] ∧
    vma_freerg pcb_two_vma_freed 1 = some [] ∧
    (__alloc sys_all cfg5 pcb_two_vma_freed 1 1 5).map (fun r => (r.1, r.2.trace))
      = some (Status.success 105, [(grow_request cfg5 1 5, 0)]) ∧
    (__alloc sys_all cfg5 pcb_two_vma_freed 1 1 5).map (fun r => symrg r.2 1)
      = some (some { rg_start := 105, rg_end := 110 }) ∧
    (__alloc sys_all cfg5 pcb_two_vma_freed 1 1 5).map
        (fun r => (vma_freerg r.2 0, vma_freerg r.2 1))
      = some (some [{ rg_start := 100, rg_end := 105 }], some []) ∧
    (__alloc sys_all cfg5 pcb_two_vma_freed 0 2 5).map (fun r => (r.1, r.2.trace))
      = some (Status.success 100, []) := by
  decide

end LibMem
